import Mathlib

/-! # staplegun: a shallow embedding of the template parser

Source: `src/staplegun.go`.

Modelling conventions.

* A Go `string` is a `List Char` (`Str`); texts that are not valid UTF-8 are outside the model.
* A Go `[]string` is a `List Str`; a nil slice and an empty slice are both `[]`.
* A Go `map[string][]string` is an association list with at most one entry per key
  (`Blocks`), written with `Blocks.set` and read with `Blocks.get`.
* A Go `error` is `Option Str`: `none` is `nil`, `some msg` carries `err.Error()`.
  Functions keep Go's tuple results, so the values returned next to a non-nil error are visible.
* `vPrintLn` only writes to standard output when `gVerbose` is set; it is left out.
  `indentLevel` is kept as a parameter although only `vPrintLn` reads it.
* `gDirSource` is the parameter `dirSource`; `os.ReadFile` is the parameter `readFile` of
  `parseTemplate`, and `MakeTemplates` passes the `os.ReadFile` of the current state.
* `parseTemplate` and `parseImportFileDirectives` call each other without bound in the
  source.  The embedding recurses on a fuel counter: `parseImportFileDirectives` receives the
  parser to call for an imported file, and `parseTemplate (fuel + 1)` passes
  `parseTemplate fuel`.  `none` is "out of fuel"; it is not a result of the Go program.
-/

namespace Staplegun

abbrev Str := List Char

/-! ## Regular expressions

Go's `regexp` classes: `\s` is `[\t\n\f\r ]`, `\w` is `[0-9A-Za-z_]`, `\S` is the complement
of `\s`.  Each pattern of `init()` is anchored at both ends and is a sequence of literals
and of starred classes, each starred class being followed by something outside the class
(`\s*` by `{`, `}`, a letter, `\w` or `\S`; `\w+` by `\s` or `}`), so a match consumes the
longest run at each star and the submatches are unique.  The single exception is `(\S+)` in
`regexImportFile`, which can also consume `}`: see `regexImportFile`. -/

/-- Go `\s`: tab, newline, form feed, carriage return, space. -/
def isSpace (c : Char) : Bool :=
  c == '\t' || c == '\n' || c == '\x0c' || c == '\r' || c == ' '

/-- Go `\w`: ASCII letters, ASCII digits and the underscore. -/
def isWord (c : Char) : Bool :=
  c.isAlphanum || c == '_'

/-- The run matched by `\s*` at the head of `s`. -/
def takeSpace (s : Str) : Str := s.takeWhile isSpace

/-- What follows the run matched by `\s*` at the head of `s`. -/
def skipSpace (s : Str) : Str := s.dropWhile isSpace

/-- Match the literal `lit` at the head of `s`; the rest of `s` on success. -/
def stripPrefix : Str → Str → Option Str
  | [], s => some s
  | _ :: _, [] => none
  | c :: cs, d :: ds => if c = d then stripPrefix cs ds else none

/-- The part `^(\s*){{\s*staplegun\s*` shared by all six patterns: the leading whitespace
and what follows the whitespace after `staplegun`. -/
def directiveBody (line : Str) : Option (Str × Str) :=
  match stripPrefix "\x7b\x7b".toList (skipSpace line) with
  | none => none
  | some s1 =>
    match stripPrefix "staplegun".toList (skipSpace s1) with
    | none => none
    | some s2 => some (takeSpace line, skipSpace s2)

/-- The part `^(\s*){{\s*staplegun\s*KEYWORD\s*`: the leading whitespace and what follows
the whitespace after the keyword. -/
def matchHead (keyword : Str) (line : Str) : Option (Str × Str) :=
  match directiveBody line with
  | none => none
  | some (indent, s) =>
    match stripPrefix keyword s with
    | none => none
    | some s1 => some (indent, skipSpace s1)

/-- The part `}}\s*$`. -/
def matchClose (s : Str) : Bool :=
  match stripPrefix "\x7d\x7d".toList s with
  | none => false
  | some s1 => (skipSpace s1).isEmpty

/-- Pattern `^\s*{{\s*staplegun\s*parent\s*}}\s*$`, used with `MatchString`. -/
def regexIsParent (line : Str) : Bool :=
  match matchHead "parent".toList line with
  | none => false
  | some (_, s) => matchClose s

/-- Pattern `^\s*{{\s*staplegun\s*child\s*}}\s*$`, used with `MatchString`. -/
def regexIsChild (line : Str) : Bool :=
  match matchHead "child".toList line with
  | none => false
  | some (_, s) => matchClose s

/-- Pattern `^\s*{{\s*staplegun\s*end\s*}}\s*$`, used with `MatchString`. -/
def regexEnd (line : Str) : Bool :=
  match matchHead "end".toList line with
  | none => false
  | some (_, s) => matchClose s

/-- The part `(\w+)\s*}}\s*$`: the captured name. -/
def matchName (s : Str) : Option Str :=
  let name := s.takeWhile isWord
  if name ≠ [] ∧ matchClose (skipSpace (s.dropWhile isWord)) = true then some name else none

/-- Pattern `^\s*{{\s*staplegun\s*define_block\s*(\w+)\s*}}\s*$`, used with
`FindStringSubmatch`: `some name` is a match (a slice of length 2) whose group 1 is `name`,
`none` is no match (a nil slice). -/
def regexDefineBlock (line : Str) : Option Str :=
  match matchHead "define_block".toList line with
  | none => none
  | some (_, s) => matchName s

/-- Pattern `^(\s*){{\s*staplegun\s*insert_block\s*(\w+)\s*}}\s*$`, used with
`FindStringSubmatch`: `some (indent, name)` is a match (a slice of length 3) with groups 1
and 2, `none` is no match. -/
def regexInsertBlock (line : Str) : Option (Str × Str) :=
  match matchHead "insert_block".toList line with
  | none => none
  | some (indent, s) =>
    match matchName s with
    | none => none
    | some name => some (indent, name)

/-- The part `(\S+)\s*}}\s*$`: the captured path.  Let `tok` be the longest run of non-space
characters at the head of `s`.  `\S+` takes a non-empty prefix of `tok`.  If it takes all of
`tok`, the rest must be `\s*}}\s*$`.  If it takes less, `\s*` is empty, so what is left of
`tok` starts with `}}` and, being free of spaces, is exactly `}}`, and only whitespace
follows `tok`.  The first case needs a `}` after `tok`, the second excludes one, so at most
one applies. -/
def matchPath (s : Str) : Option Str :=
  let tok := s.takeWhile (fun c => !isSpace c)
  let rest := s.dropWhile (fun c => !isSpace c)
  if tok ≠ [] ∧ matchClose (skipSpace rest) = true then some tok
  else if "\x7d\x7d".toList <:+ tok ∧ 2 < tok.length ∧ skipSpace rest = [] then
    some (tok.dropLast.dropLast)
  else none

/-- Pattern `^(\s*){{\s*staplegun\s*import_file\s*(\S+)\s*}}\s*$`, used with
`FindStringSubmatch`: `some (indent, filename)` is a match with groups 1 and 2. -/
def regexImportFile (line : Str) : Option (Str × Str) :=
  match matchHead "import_file".toList line with
  | none => none
  | some (indent, s) =>
    match matchPath s with
    | none => none
    | some filename => some (indent, filename)

/-! ## Strings, maps and messages -/

/-- Go `strings.Split(text, "\n")`: the pieces of `text` between newline characters; a text
without a newline, the empty text included, gives one piece. -/
def stringsSplit : Str → List Str
  | [] => [[]]
  | c :: cs =>
    if c = '\n' then [] :: stringsSplit cs
    else
      match stringsSplit cs with
      | [] => [[c]]
      | l :: ls => (c :: l) :: ls

/-- Go `fmt`'s `%q` applied to a string of `\w` characters, the only strings the parser
formats with it (they are captures of `(\w+)`): the string between double quotes. -/
def quote (s : Str) : Str := Char.ofNat 34 :: (s ++ [Char.ofNat 34])

/-- A Go `map[string][]string` from block names to block lines. -/
abbrev Blocks := List (Str × List Str)

/-- Go `blocks[name]` in the two-result form: `none` is `ok = false`. -/
def Blocks.get (blocks : Blocks) (name : Str) : Option (List Str) :=
  match blocks with
  | [] => none
  | (k, v) :: rest => if k = name then some v else Blocks.get rest name

/-- Go `blocks[name] = lines`: the entry of `name` is replaced. -/
def Blocks.set (blocks : Blocks) (name : Str) (lines : List Str) : Blocks :=
  (name, lines) :: blocks.filter (fun kv => decide (kv.1 ≠ name))

/-- The marker lines written around an inserted block. -/
def blockStart (blockName : Str) : Str :=
  "<!-- sg:block:start:".toList ++ blockName ++ " -->".toList

def blockEnd (blockName : Str) : Str :=
  "<!-- sg:block:end:".toList ++ blockName ++ " -->".toList

/-- The marker lines written around an imported file. -/
def fileStart (filename : Str) : Str :=
  "<!-- sg:file:start:".toList ++ filename ++ " -->".toList

def fileEnd (filename : Str) : Str :=
  "<!-- sg:file:end:".toList ++ filename ++ " -->".toList

def errPreviousNotClosed (currentBlockName : Str) : Str :=
  "found start of block when a previous block ".toList ++ quote currentBlockName
    ++ " was not closed".toList

def errEndNoBlock : Str :=
  "found end of block when no block was started".toList

def errNotClosed (currentBlockName : Str) : Str :=
  "block ".toList ++ quote currentBlockName ++ " was not closed".toList

def errNotDefined (blockName : Str) : Str :=
  "insert_block target ".toList ++ quote blockName ++ " not defined".toList

/-! ## The three passes -/

/-- The loop of `extractBlocks` over the remaining lines, with the values of `blocks`,
`currentBlockName`, `currentBlockLines` and `linesOut`, followed by the check after the
loop.  As in the source an empty `currentBlockName` means that no block is open. -/
def extractBlocksLoop : List Str → Blocks → Str → List Str → List Str →
    Blocks × List Str × Option Str
  | [], blocks, currentBlockName, _, linesOut =>
    if currentBlockName ≠ [] then
      ([], [], some (errNotClosed currentBlockName))
    else
      (blocks, linesOut, none)
  | line :: rest, blocks, currentBlockName, currentBlockLines, linesOut =>
    match regexDefineBlock line with
    | some name =>
      if currentBlockName ≠ [] then
        ([], [], some (errPreviousNotClosed currentBlockName))
      else
        extractBlocksLoop rest blocks name [] linesOut
    | none =>
      if regexEnd line = true then
        if currentBlockName = [] then
          ([], [], some errEndNoBlock)
        else
          extractBlocksLoop rest (blocks.set currentBlockName currentBlockLines) [] [] linesOut
      else if currentBlockName ≠ [] then
        extractBlocksLoop rest blocks currentBlockName (currentBlockLines ++ [line]) linesOut
      else
        extractBlocksLoop rest blocks currentBlockName currentBlockLines (linesOut ++ [line])

/-- Go `extractBlocks`: the block map, the lines outside block definitions, the error. -/
def extractBlocks (linesIn : List Str) (_indentLevel : Nat) : Blocks × List Str × Option Str :=
  extractBlocksLoop linesIn [] [] [] []

/-- The inner loops `for _, l := range ls { linesOut = append(linesOut, indent+l) }`. -/
def appendIndented (indentWhitespace : Str) (linesOut : List Str) (ls : List Str) : List Str :=
  ls.foldl (fun acc l => acc ++ [indentWhitespace ++ l]) linesOut

/-- The loop of `parseInsertBlockDirectives` over the remaining lines, with the value of
`linesOut`. -/
def parseInsertBlockDirectivesLoop (blocks : Blocks) (ignoreUndefinedBlocks : Bool) :
    List Str → List Str → List Str × Option Str
  | [], linesOut => (linesOut, none)
  | line :: rest, linesOut =>
    match regexInsertBlock line with
    | some (indentWhitespace, blockName) =>
      match blocks.get blockName with
      | none =>
        if ignoreUndefinedBlocks = true then
          parseInsertBlockDirectivesLoop blocks ignoreUndefinedBlocks rest (linesOut ++ [line])
        else
          ([], some (errNotDefined blockName))
      | some blockLines =>
        parseInsertBlockDirectivesLoop blocks ignoreUndefinedBlocks rest
          (appendIndented indentWhitespace
              (linesOut ++ [indentWhitespace ++ blockStart blockName]) blockLines
            ++ [indentWhitespace ++ blockEnd blockName])
    | none =>
      parseInsertBlockDirectivesLoop blocks ignoreUndefinedBlocks rest (linesOut ++ [line])

/-- Go `parseInsertBlockDirectives`. -/
def parseInsertBlockDirectives (linesIn : List Str) (blocks : Blocks)
    (ignoreUndefinedBlocks : Bool) (_indentLevel : Nat) : List Str × Option Str :=
  parseInsertBlockDirectivesLoop blocks ignoreUndefinedBlocks linesIn []

/-- The four results of `parseTemplate`: `isParent`, `isChild`, `linesOut`, `err`. -/
abbrev ParseResult := Bool × Bool × List Str × Option Str

/-- The parser called for an imported file: a path and an indent level give the results of
`parseTemplate`, or `none` when the fuel is used up. -/
abbrev Parser := Str → Nat → Option ParseResult

/-- The loop of `parseImportFileDirectives` over the remaining lines, with the value of
`linesOut`. -/
def parseImportFileDirectivesLoop (parse : Parser) (dirSource : Str) (indentLevel : Nat) :
    List Str → List Str → Option (List Str × Option Str)
  | [], linesOut => some (linesOut, none)
  | line :: rest, linesOut =>
    match regexImportFile line with
    | some (indentWhitespace, filename) =>
      match parse (dirSource ++ "/".toList ++ filename) (indentLevel + 1) with
      | none => none
      | some (_, _, importedLines, err) =>
        match err with
        | some e => some ([], some e)
        | none =>
          parseImportFileDirectivesLoop parse dirSource indentLevel rest
            (appendIndented indentWhitespace
                (linesOut ++ [indentWhitespace ++ fileStart filename]) importedLines
              ++ [indentWhitespace ++ fileEnd filename])
    | none =>
      parseImportFileDirectivesLoop parse dirSource indentLevel rest (linesOut ++ [line])

/-- Go `parseImportFileDirectives`; the parameter `blocks` is not read by the source. -/
def parseImportFileDirectives (parse : Parser) (dirSource : Str) (linesIn : List Str)
    (_blocks : Blocks) (indentLevel : Nat) : Option (List Str × Option Str) :=
  parseImportFileDirectivesLoop parse dirSource indentLevel linesIn []

/-! ## The parser -/

/-- Go `parseTemplate`.  `readFile` is `os.ReadFile`: the text of the file, or the message
of the error. -/
def parseTemplate (readFile : Str → Except Str Str) (dirSource : Str) :
    Nat → Str → Nat → Option ParseResult
  | 0, _, _ => none
  | fuel + 1, inFilePath, indentLevel =>
    match readFile inFilePath with
    | .error e => some (false, false, [], some e)
    | .ok text =>
      let lines := stringsSplit text
      if lines.length < 2 then
        some (false, false, [], none)
      else
        let isParent := regexIsParent (lines.headD [])
        let isChild := regexIsChild (lines.headD [])
        if !isParent && !isChild then
          some (false, false, [], none)
        else
          let lines := lines.tail
          match extractBlocks lines indentLevel with
          | (_, _, some e) => some (false, false, [], some e)
          | (blocks, lines, none) =>
            match parseImportFileDirectives (parseTemplate readFile dirSource fuel) dirSource
                lines blocks indentLevel with
            | none => none
            | some (_, some e) => some (false, false, [], some e)
            | some (lines, none) =>
              let ignoreUndefinedBlocks := isChild
              match parseInsertBlockDirectives lines blocks ignoreUndefinedBlocks indentLevel with
              | (_, some e) => some (false, false, [], some e)
              | (lines, none) => some (isParent, isChild, lines, none)

/-! ## The directory run

`MakeTemplates` works on the file system of the host.  The state it reads and writes is a
map from paths to nodes.  `os.Stat`, `os.ReadFile` and `os.WriteFile` are modelled on that
map; access rights are not modelled, and `os.WriteFile` does not check that the directory
of the path exists (`MakeTemplates` only writes to `dirDest + "/" + name` after it has found
`dirDest` to be a directory).  The map cannot be enumerated, so `filepath.Glob` is a
parameter: a function from the state and the pattern to the list of matching paths. -/

/-- What a path names: a file with its content, or a directory. -/
inductive Node where
  | file (content : Str)
  | dir
  deriving DecidableEq

/-- The state of the file system: what each path names, if anything. -/
abbrev FileSystem := Str → Option Node

/-- Go `isDirectory`, first result (the callers drop the second): `os.Stat` succeeds and
`IsDir()` holds. -/
def isDirectory (fs : FileSystem) (path : Str) : Bool :=
  match fs path with
  | some Node.dir => true
  | _ => false

/-- Go `os.ReadFile`: the content of a file, or the message of the error. -/
def osReadFile (fs : FileSystem) (path : Str) : Except Str Str :=
  match fs path with
  | some (Node.file content) => .ok content
  | some Node.dir => .error ("read ".toList ++ path ++ ": is a directory".toList)
  | none => .error ("open ".toList ++ path ++ ": no such file or directory".toList)

/-- Go `os.WriteFile`: the path names a file with the given content afterwards, whatever it
named before, unless it names a directory. -/
def osWriteFile (fs : FileSystem) (path : Str) (data : Str) : Except Str FileSystem :=
  match fs path with
  | some Node.dir => .error ("open ".toList ++ path ++ ": is a directory".toList)
  | _ => .ok (fun q => if q = path then some (Node.file data) else fs q)

/-- Go `filepath.Base` with `/` as the separator: the last element of the path, trailing
separators removed; `.` for the empty path and `/` for a path of separators only. -/
def filepathBase (path : Str) : Str :=
  if path = [] then ".".toList
  else
    let stripped := (path.reverse.dropWhile (fun c => c == '/')).reverse
    let last := (stripped.reverse.takeWhile (fun c => c != '/')).reverse
    if last = [] then "/".toList else last

/-- Go `strings.Join(elems, sep)`. -/
def stringsJoin : List Str → Str → Str
  | [], _ => []
  | [a], _ => a
  | a :: b :: rest, sep => a ++ sep ++ stringsJoin (b :: rest) sep

/-- Go `fmt`'s `%#v` applied to a string without double quote, backslash or non-printable
character: the string between double quotes. -/
def sharpV (s : Str) : Str := Char.ofNat 34 :: (s ++ [Char.ofNat 34])

/-- The loop of `MakeTemplates` over the remaining source files, with the state of the file
system.  The result is the state left behind and the error returned. -/
def MakeTemplatesLoop (dirSource dirDest : Str) (fuel : Nat) :
    List Str → FileSystem → Option (FileSystem × Option Str)
  | [], fs => some (fs, none)
  | sourceFile :: rest, fs =>
    if isDirectory fs sourceFile = true then
      MakeTemplatesLoop dirSource dirDest fuel rest fs
    else
      let indentLevel := 1
      match parseTemplate (osReadFile fs) dirSource fuel sourceFile indentLevel with
      | none => none
      | some (_, _, _, some e) => some (fs, some e)
      | some (isParent, isChild, linesOut, none) =>
        if isChild = true then
          MakeTemplatesLoop dirSource dirDest fuel rest fs
        else if (!isParent && !isChild) = true then
          MakeTemplatesLoop dirSource dirDest fuel rest fs
        else if isParent = true then
          let outFilePath := dirDest ++ "/".toList ++ filepathBase sourceFile
          let textOut := stringsJoin linesOut "\n".toList
          match osWriteFile fs outFilePath textOut with
          | .error e => some (fs, some e)
          | .ok fs1 => MakeTemplatesLoop dirSource dirDest fuel rest fs1
        else
          MakeTemplatesLoop dirSource dirDest fuel rest fs

/-- Go `MakeTemplates`.  `glob` is `filepath.Glob`; `fuel` bounds the depth of each call of
`parseTemplate`; `verbose` only feeds `vPrintLn`.  The result is the state of the file system
left behind and the error returned, or `none` when a parse runs out of fuel. -/
def MakeTemplates (glob : FileSystem → Str → Except Str (List Str)) (fuel : Nat)
    (fs : FileSystem) (dirSource dirDest : Str) (_verbose : Bool) :
    Option (FileSystem × Option Str) :=
  if isDirectory fs dirSource = false then
    some (fs, some (sharpV dirSource ++ " is not a directory".toList))
  else if isDirectory fs dirDest = false then
    some (fs, some (sharpV dirSource ++ " is not a directory".toList))
  else
    match glob fs (dirSource ++ "/*".toList) with
    | .error e => some (fs, some e)
    | .ok sourceFiles => MakeTemplatesLoop dirSource dirDest fuel sourceFiles fs

/-! ## Specification-side definitions and sample inputs -/

/-- A line that matches one of the four directive patterns read by the passes. -/
def matchesDirective (line : Str) : Bool :=
  (regexDefineBlock line).isSome || regexEnd line || (regexInsertBlock line).isSome
    || (regexImportFile line).isSome

/-- A parent document with one block `greet` and one indented insertion of it. -/
def greetDoc : Str :=
  ("\x7b\x7b staplegun parent \x7d\x7d\nA\n\x7b\x7b staplegun define_block greet \x7d\x7d\n"
    ++ "Hello\n\x7b\x7b staplegun end \x7d\x7d\nB\n"
    ++ "  \x7b\x7b staplegun insert_block greet \x7d\x7d\nC").toList

/-- Specification side of the balance condition, read over the lines in order with "a block
is open" as the state: true when (a) a `define_block` line occurs while a block is open, or
(b) an `end` line occurs while no block is open, or (c) a block is open after the last
line. -/
def specUnbalanced : Bool → List Str → Bool
  | isOpen, [] => isOpen
  | isOpen, l :: ls =>
    if (regexDefineBlock l).isSome then isOpen || specUnbalanced true ls
    else if regexEnd l then !isOpen || specUnbalanced false ls
    else specUnbalanced isOpen ls

/-- Specification side: the subsequence of `define_block` / `end` directive lines, `true`
for a `define_block` line and `false` for an `end` line. -/
def specDirectiveKinds : List Str → List Bool
  | [] => []
  | l :: ls =>
    if (regexDefineBlock l).isSome then true :: specDirectiveKinds ls
    else if regexEnd l then false :: specDirectiveKinds ls
    else specDirectiveKinds ls

/-- Specification side: the sequence is `define_block, end, define_block, end, ...` and has
even length. -/
def specAlternates : List Bool → Bool
  | [] => true
  | true :: false :: rest => specAlternates rest
  | _ => false

/-- A block map with three blocks, the second with lines that are themselves indented. -/
def sampleBlocks : Blocks :=
  [("head".toList, ["<title>t</title>".toList]),
   ("nav".toList, ["<ul>".toList, "    <li>a</li>".toList, "</ul>".toList]),
   ("foot".toList, [])]

/-- Specification side: the name of the first `insert_block` line of `ls` whose block is
absent from `blocks`. -/
def specFirstMissing (blocks : Blocks) : List Str → Option Str
  | [] => none
  | l :: ls =>
    match regexInsertBlock l with
    | some (_, x) =>
      if (Blocks.get blocks x).isNone then some x else specFirstMissing blocks ls
    | none => specFirstMissing blocks ls

/-- A child document whose only `insert_block` line lies inside a block definition. -/
def capturedInsertDoc : Str :=
  ("\x7b\x7b staplegun child \x7d\x7d\n\x7b\x7b staplegun define_block a \x7d\x7d\n"
    ++ "\x7b\x7b staplegun insert_block x \x7d\x7d\n\x7b\x7b staplegun end \x7d\x7d").toList

/-- A child document with an `insert_block` line for a block it does not define. -/
def deferDoc : Str :=
  ("\x7b\x7b staplegun child \x7d\x7d\n<nav>\n  \x7b\x7b staplegun insert_block menu \x7d\x7d\n"
    ++ "</nav>").toList

/-- A source directory with a parent `p.html` that defines block `x` and imports the
child `c.html`, which refers to `x` without defining it. -/
def importFs : Str → Except Str Str := fun path =>
  if path = "src/p.html".toList then
    .ok ("\x7b\x7b staplegun parent \x7d\x7d\n\x7b\x7b staplegun define_block x \x7d\x7d\n"
      ++ "Hello\n\x7b\x7b staplegun end \x7d\x7d\n"
      ++ "  \x7b\x7b staplegun import_file c.html \x7d\x7d").toList
  else if path = "src/c.html".toList then
    .ok "\x7b\x7b staplegun child \x7d\x7d\n \x7b\x7b staplegun insert_block x \x7d\x7d".toList
  else if path = "src/d.html".toList then
    .ok ("\x7b\x7b staplegun child \x7d\x7d\n<div>\n"
      ++ "  \x7b\x7b staplegun import_file c.html \x7d\x7d").toList
  else if path = "src/q.html".toList then
    .ok ("\x7b\x7b staplegun parent \x7d\x7d\n<div>\n"
      ++ "  \x7b\x7b staplegun import_file c.html \x7d\x7d").toList
  else .error "open: no such file or directory".toList

/-- A file that holds the parent marker and nothing else, not even a newline. -/
def markerOnlyDoc : Str := "\x7b\x7b staplegun parent \x7d\x7d".toList

/-- A file that holds the parent marker followed by a newline. -/
def markerLineDoc : Str := "\x7b\x7b staplegun parent \x7d\x7d\n".toList

/-- A parent file with two plain lines after the marker. -/
def plainParentDoc : Str := "  \x7b\x7b staplegun parent \x7d\x7d \n<p>\n</p>".toList

/-- A parent document that defines block `n` twice, the second time with an `insert_block n`
line as its only line, and inserts `n` at the end. -/
def redefineDoc : Str :=
  ("\x7b\x7b staplegun parent \x7d\x7d\n\x7b\x7b staplegun define_block n \x7d\x7d\nold\n"
    ++ "\x7b\x7b staplegun end \x7d\x7d\n\x7b\x7b staplegun define_block n \x7d\x7d\n"
    ++ "\x7b\x7b staplegun insert_block n \x7d\x7d\n\x7b\x7b staplegun end \x7d\x7d\n"
    ++ "\x7b\x7b staplegun insert_block n \x7d\x7d").toList

/-- A parent document that inserts block `n` before, between and after two definitions of
it. -/
def redefineInsertDoc : Str :=
  ("\x7b\x7b staplegun parent \x7d\x7d\n\x7b\x7b staplegun insert_block n \x7d\x7d\n"
    ++ "\x7b\x7b staplegun define_block n \x7d\x7d\nold\n\x7b\x7b staplegun end \x7d\x7d\n"
    ++ " \x7b\x7b staplegun insert_block n \x7d\x7d\n"
    ++ "\x7b\x7b staplegun define_block n \x7d\x7d\nnew\n\x7b\x7b staplegun end \x7d\x7d\n"
    ++ "  \x7b\x7b staplegun insert_block n \x7d\x7d").toList

/-- A parent document without directives, ending in a newline. -/
def verbatimDoc : Str := "\x7b\x7b staplegun parent \x7d\x7d\n<p>\n  text\n</p>\n".toList

/-- A source directory with the parent `p.html`, which imports the plain text file
`notes.txt`, the missing file `gone.html` being imported by the parent `broken.html`, and
the child `loop.html`, which imports itself. -/
def plainImportFs : Str → Except Str Str := fun path =>
  if path = "src/p.html".toList then
    .ok ("\x7b\x7b staplegun parent \x7d\x7d\n<div>\n"
      ++ "  \x7b\x7b staplegun import_file notes.txt \x7d\x7d\n</div>").toList
  else if path = "src/notes.txt".toList then
    .ok "first note\nsecond note\n".toList
  else if path = "src/broken.html".toList then
    .ok ("\x7b\x7b staplegun parent \x7d\x7d\n<div>\n"
      ++ "  \x7b\x7b staplegun import_file gone.html \x7d\x7d\n</div>").toList
  else if path = "src/loop.html".toList then
    .ok ("\x7b\x7b staplegun child \x7d\x7d\n<div>\n"
      ++ "  \x7b\x7b staplegun import_file loop.html \x7d\x7d\n</div>").toList
  else .error "open: no such file or directory".toList

/-- A file system with the source directory `src`, holding the child `c.html`, the parent
`p.html` that imports it, the plain file `readme.txt` and the directory `sub`, and with the
empty destination directory `out`. -/
def dirFs : FileSystem := fun path =>
  if path = "src".toList then some Node.dir
  else if path = "out".toList then some Node.dir
  else if path = "src/sub".toList then some Node.dir
  else if path = "src/c.html".toList then
    some (Node.file "\x7b\x7b staplegun child \x7d\x7d\n<p>hello</p>".toList)
  else if path = "src/p.html".toList then
    some (Node.file ("\x7b\x7b staplegun parent \x7d\x7d\n<body>\n"
      ++ "  \x7b\x7b staplegun import_file c.html \x7d\x7d\n</body>\n").toList)
  else if path = "src/readme.txt".toList then some (Node.file "plain\ntext\n".toList)
  else none

/-- The result of `filepath.Glob` on `src/*` in `dirFs`. -/
def dirGlob : FileSystem → Str → Except Str (List Str) := fun _ pattern =>
  if pattern = "src/*".toList then
    .ok ["src/c.html".toList, "src/p.html".toList, "src/readme.txt".toList, "src/sub".toList]
  else .ok []

/-- The file system `dirFs` after the run: `out/p.html` holds the resolved parent. -/
def dirFsAfter : FileSystem := fun q =>
  if q = "out/p.html".toList then
    some (Node.file ("<body>\n  <!-- sg:file:start:c.html -->\n  <p>hello</p>\n"
      ++ "  <!-- sg:file:end:c.html -->\n</body>\n").toList)
  else dirFs q

/-- A file system with the source directory `src` and nothing at the path `out`. -/
def destMissingFs : FileSystem := fun path =>
  if path = "src".toList then some Node.dir else none

/-- Specification side: the lines that stand outside block definitions, the `define_block`
and `end` lines left out, read with "a block is open" as the state. -/
def specOutside : Bool → List Str → List Str
  | _, [] => []
  | isOpen, l :: ls =>
    if (regexDefineBlock l).isSome then specOutside true ls
    else if regexEnd l then specOutside false ls
    else if isOpen then specOutside isOpen ls
    else l :: specOutside isOpen ls

/-- Lines that define block `n` twice, with one plain line in each definition. -/
def twiceDefinedLines : List Str :=
  ["\x7b\x7b staplegun define_block n \x7d\x7d".toList, "first body".toList,
    "\x7b\x7b staplegun end \x7d\x7d".toList,
    "\x7b\x7b staplegun define_block n \x7d\x7d".toList, "second body".toList,
    "\x7b\x7b staplegun end \x7d\x7d".toList]

/-- A source directory with the parent `p.html` importing the child `other.html`, whose
lines are plain, and the parent `q.html` importing the child `tricky.html`, which inserts
its block `a`, whose definition holds an `import_file` line. -/
def flattenFs : Str → Except Str Str := fun path =>
  if path = "src/p.html".toList then
    .ok ("\x7b\x7b staplegun parent \x7d\x7d\n<body>\n"
      ++ "  \x7b\x7b staplegun import_file other.html \x7d\x7d\n</body>").toList
  else if path = "src/other.html".toList then
    .ok "\x7b\x7b staplegun child \x7d\x7d\n<p>hi</p>\n<p>there</p>".toList
  else if path = "src/q.html".toList then
    .ok ("\x7b\x7b staplegun parent \x7d\x7d\n<body>\n"
      ++ "  \x7b\x7b staplegun import_file tricky.html \x7d\x7d\n</body>").toList
  else if path = "src/tricky.html".toList then
    .ok ("\x7b\x7b staplegun child \x7d\x7d\n\x7b\x7b staplegun define_block a \x7d\x7d\n"
      ++ "\x7b\x7b staplegun import_file z.html \x7d\x7d\n\x7b\x7b staplegun end \x7d\x7d\n"
      ++ "\x7b\x7b staplegun insert_block a \x7d\x7d").toList
  else .error "open: no such file or directory".toList

/-- A source directory for the side conditions of imports.  `keep.html` is a parent whose
block `x` holds the text of an `insert_block x` line and which imports the child `c.html`;
`early.html` is a parent with an `insert_block y` line before its import of `c.html`;
`c.html` retains `insert_block x`.  `stray.html` is a child that imports itself and then has
an `end` line.  `two.html` is a parent that imports `bad.html`, a child with an unclosed
block, and then the missing file `gone.html`. -/
def sideFs : Str → Except Str Str := fun path =>
  if path = "src/keep.html".toList then
    .ok ("\x7b\x7b staplegun parent \x7d\x7d\n\x7b\x7b staplegun define_block x \x7d\x7d\n"
      ++ "\x7b\x7b staplegun insert_block x \x7d\x7d\n\x7b\x7b staplegun end \x7d\x7d\n"
      ++ "\x7b\x7b staplegun import_file c.html \x7d\x7d").toList
  else if path = "src/early.html".toList then
    .ok ("\x7b\x7b staplegun parent \x7d\x7d\n\x7b\x7b staplegun insert_block y \x7d\x7d\n"
      ++ "\x7b\x7b staplegun import_file c.html \x7d\x7d").toList
  else if path = "src/c.html".toList then
    .ok "\x7b\x7b staplegun child \x7d\x7d\n\x7b\x7b staplegun insert_block x \x7d\x7d".toList
  else if path = "src/stray.html".toList then
    .ok ("\x7b\x7b staplegun child \x7d\x7d\n\x7b\x7b staplegun import_file stray.html \x7d\x7d\n"
      ++ "\x7b\x7b staplegun end \x7d\x7d").toList
  else if path = "src/two.html".toList then
    .ok ("\x7b\x7b staplegun parent \x7d\x7d\n\x7b\x7b staplegun import_file bad.html \x7d\x7d\n"
      ++ "\x7b\x7b staplegun import_file gone.html \x7d\x7d").toList
  else if path = "src/bad.html".toList then
    .ok "\x7b\x7b staplegun child \x7d\x7d\n\x7b\x7b staplegun define_block a \x7d\x7d".toList
  else .error "open: no such file or directory".toList

/-- A source directory with a subdirectory: the parent `sub/a.html` imports `b.html`; a
file of that name stands in the source root and another one next to the parent, in `sub`;
the parent `top.html` imports `sub/a.html`. -/
def rootFs : Str → Except Str Str := fun path =>
  if path = "src/top.html".toList then
    .ok ("\x7b\x7b staplegun parent \x7d\x7d\n"
      ++ " \x7b\x7b staplegun import_file sub/a.html \x7d\x7d").toList
  else if path = "src/sub/a.html".toList then
    .ok ("\x7b\x7b staplegun parent \x7d\x7d\n"
      ++ "  \x7b\x7b staplegun import_file b.html \x7d\x7d").toList
  else if path = "src/b.html".toList then
    .ok "\x7b\x7b staplegun child \x7d\x7d\n<p>root</p>".toList
  else if path = "src/sub/b.html".toList then
    .ok "\x7b\x7b staplegun child \x7d\x7d\n<p>sub</p>".toList
  else .error "open: no such file or directory".toList

/-! ## Lemmas on the regular expressions -/

theorem stripPrefix_eq_some {p s t : Str} (h : stripPrefix p s = some t) : s = p ++ t := by
  induction p generalizing s with
  | nil =>
    simp only [stripPrefix, Option.some.injEq] at h
    simp [h]
  | cons c cs ih =>
    cases s with
    | nil => simp [stripPrefix] at h
    | cons d ds =>
      by_cases hcd : c = d
      · subst hcd
        simp only [stripPrefix, if_true] at h
        rw [ih h]; rfl
      · simp [stripPrefix, hcd] at h

theorem stripPrefix_append (p t : Str) : stripPrefix p (p ++ t) = some t := by
  induction p with
  | nil => rfl
  | cons c cs ih => simp [stripPrefix, ih]

theorem skipSpace_append {ind : Str} (h : ∀ c ∈ ind, isSpace c = true) (s : Str) :
    skipSpace (ind ++ s) = skipSpace s := by
  induction ind with
  | nil => rfl
  | cons c cs ih =>
    have hc : isSpace c = true := h c (List.mem_cons_self _ _)
    have := ih (fun d hd => h d (List.mem_cons_of_mem _ hd))
    simpa [skipSpace, List.dropWhile, hc] using this

theorem takeSpace_append {ind : Str} (h : ∀ c ∈ ind, isSpace c = true) (s : Str) :
    takeSpace (ind ++ s) = ind ++ takeSpace s := by
  induction ind with
  | nil => rfl
  | cons c cs ih =>
    have hc : isSpace c = true := h c (List.mem_cons_self _ _)
    have := ih (fun d hd => h d (List.mem_cons_of_mem _ hd))
    simpa [takeSpace, List.takeWhile, hc] using this

theorem takeSpace_isSpace (s : Str) : ∀ c ∈ takeSpace s, isSpace c = true := by
  intro c hc
  exact List.mem_takeWhile_imp hc

/-- Prepending whitespace to a line only lengthens the captured indentation. -/
theorem directiveBody_indent {ind : Str} (h : ∀ c ∈ ind, isSpace c = true) (line : Str) :
    directiveBody (ind ++ line) = (directiveBody line).map (fun r => (ind ++ r.1, r.2)) := by
  unfold directiveBody
  rw [skipSpace_append h, takeSpace_append h]
  cases h1 : stripPrefix "\x7b\x7b".toList (skipSpace line) with
  | none => rfl
  | some s1 =>
    dsimp only
    cases stripPrefix "staplegun".toList (skipSpace s1) with
    | none => rfl
    | some s2 => rfl

theorem matchHead_indent {ind : Str} (h : ∀ c ∈ ind, isSpace c = true) (keyword line : Str) :
    matchHead keyword (ind ++ line)
      = (matchHead keyword line).map (fun r => (ind ++ r.1, r.2)) := by
  unfold matchHead
  rw [directiveBody_indent h]
  cases directiveBody line with
  | none => rfl
  | some r =>
    obtain ⟨i, s⟩ := r
    cases hs : stripPrefix keyword s with
    | none => simp [hs]
    | some s1 => simp [hs]

theorem matchHead_indent_isSpace {keyword line indent s : Str}
    (h : matchHead keyword line = some (indent, s)) : ∀ c ∈ indent, isSpace c = true := by
  unfold matchHead directiveBody at h
  split at h
  · simp at h
  · rename_i i s0 heq
    split at heq
    · simp at heq
    · split at heq
      · simp at heq
      · simp only [Option.some.injEq, Prod.mk.injEq] at heq
        split at h
        · simp at h
        · simp only [Option.some.injEq, Prod.mk.injEq] at h
          rw [← h.1, ← heq.1]
          exact takeSpace_isSpace line

/-- Two keywords neither of which is a prefix of the other never match the same line. -/
theorem matchHead_exclusive {k1 k2 line : Str} {r : Str × Str}
    (hk : ∀ t, stripPrefix k2 (k1 ++ t) = none) (h : matchHead k1 line = some r) :
    matchHead k2 line = none := by
  unfold matchHead at h ⊢
  cases hb : directiveBody line with
  | none => rfl
  | some b =>
    obtain ⟨i, s⟩ := b
    rw [hb] at h
    simp only at h ⊢
    cases hs : stripPrefix k1 s with
    | none => simp [hs] at h
    | some s1 =>
      rw [stripPrefix_eq_some hs, hk]

theorem matchName_ne_nil {s name : Str} (h : matchName s = some name) : name ≠ [] := by
  unfold matchName at h
  simp only at h
  split at h
  · rename_i hc
    simp only [Option.some.injEq] at h
    rw [← h]; exact hc.1
  · simp at h

theorem regexDefineBlock_ne_nil {line name : Str} (h : regexDefineBlock line = some name) :
    name ≠ [] := by
  unfold regexDefineBlock at h
  split at h
  · simp at h
  · exact matchName_ne_nil h

theorem regexInsertBlock_head {line indent name : Str}
    (h : regexInsertBlock line = some (indent, name)) :
    ∃ s, matchHead "insert_block".toList line = some (indent, s) ∧ matchName s = some name := by
  unfold regexInsertBlock at h
  split at h
  · simp at h
  · rename_i i s heq
    split at h
    · simp at h
    · rename_i n hn
      simp only [Option.some.injEq, Prod.mk.injEq] at h
      exact ⟨s, by rw [heq, h.1], by rw [hn, h.2]⟩

theorem regexImportFile_head {line indent filename : Str}
    (h : regexImportFile line = some (indent, filename)) :
    ∃ s, matchHead "import_file".toList line = some (indent, s)
      ∧ matchPath s = some filename := by
  unfold regexImportFile at h
  split at h
  · simp at h
  · rename_i i s heq
    split at h
    · simp at h
    · rename_i n hn
      simp only [Option.some.injEq, Prod.mk.injEq] at h
      exact ⟨s, by rw [heq, h.1], by rw [hn, h.2]⟩

theorem regexInsertBlock_indent_isSpace {line indent name : Str}
    (h : regexInsertBlock line = some (indent, name)) : ∀ c ∈ indent, isSpace c = true := by
  obtain ⟨s, hs, _⟩ := regexInsertBlock_head h
  exact matchHead_indent_isSpace hs

theorem regexImportFile_indent_isSpace {line indent filename : Str}
    (h : regexImportFile line = some (indent, filename)) : ∀ c ∈ indent, isSpace c = true := by
  obtain ⟨s, hs, _⟩ := regexImportFile_head h
  exact matchHead_indent_isSpace hs

/-- An `insert_block` line with whitespace put in front of it is an `insert_block` line for
the same block, its indentation lengthened by that whitespace. -/
theorem regexInsertBlock_indent {ind line indent name : Str}
    (hind : ∀ c ∈ ind, isSpace c = true)
    (h : regexInsertBlock line = some (indent, name)) :
    regexInsertBlock (ind ++ line) = some (ind ++ indent, name) := by
  obtain ⟨s, hs, hn⟩ := regexInsertBlock_head h
  unfold regexInsertBlock
  rw [matchHead_indent hind, hs]
  simp [hn]

theorem regexInsertBlock_not_define {line : Str} {r : Str × Str}
    (h : regexInsertBlock line = some r) : regexDefineBlock line = none := by
  obtain ⟨ind, name⟩ := r
  obtain ⟨s, hs, _⟩ := regexInsertBlock_head h
  unfold regexDefineBlock
  rw [matchHead_exclusive (fun t => by rfl) hs]

theorem regexInsertBlock_not_end {line : Str} {r : Str × Str}
    (h : regexInsertBlock line = some r) : regexEnd line = false := by
  obtain ⟨ind, name⟩ := r
  obtain ⟨s, hs, _⟩ := regexInsertBlock_head h
  unfold regexEnd
  rw [matchHead_exclusive (fun t => by rfl) hs]

theorem regexInsertBlock_not_import {line : Str} {r : Str × Str}
    (h : regexInsertBlock line = some r) : regexImportFile line = none := by
  obtain ⟨ind, name⟩ := r
  obtain ⟨s, hs, _⟩ := regexInsertBlock_head h
  unfold regexImportFile
  rw [matchHead_exclusive (fun t => by rfl) hs]

theorem regexEnd_not_define {line : Str} (h : regexEnd line = true) :
    regexDefineBlock line = none := by
  unfold regexEnd at h
  split at h
  · simp at h
  · rename_i i s heq
    unfold regexDefineBlock
    rw [matchHead_exclusive (fun t => by rfl) heq]

theorem regexIsParent_not_child {line : Str} (h : regexIsParent line = true) :
    regexIsChild line = false := by
  unfold regexIsParent at h
  split at h
  · simp at h
  · rename_i i s heq
    unfold regexIsChild
    rw [matchHead_exclusive (fun t => by rfl) heq]

/-! ## Lemmas on the passes -/

theorem appendIndented_eq (ind : Str) (acc ls : List Str) :
    appendIndented ind acc ls = acc ++ ls.map (fun l => ind ++ l) := by
  unfold appendIndented
  induction ls generalizing acc with
  | nil => simp
  | cons l ls ih => simp [List.foldl, ih]

/-- The insertion loop over `a ++ b` runs over `a`, then over `b` from where `a` ended. -/
theorem insertLoop_append (blocks : Blocks) (ign : Bool) (a b acc : List Str) :
    parseInsertBlockDirectivesLoop blocks ign (a ++ b) acc
      = match parseInsertBlockDirectivesLoop blocks ign a acc with
        | (o, none) => parseInsertBlockDirectivesLoop blocks ign b o
        | (o, some e) => (o, some e) := by
  induction a generalizing acc with
  | nil => simp [parseInsertBlockDirectivesLoop]
  | cons line rest ih =>
    simp only [List.cons_append, parseInsertBlockDirectivesLoop]
    split
    · split
      · split
        · exact ih _
        · rfl
      · exact ih _
    · exact ih _

/-- The lines already written do not influence the insertion loop: they stay in front of
what it writes, and are dropped when it fails. -/
theorem insertLoop_acc (blocks : Blocks) (ign : Bool) (ls acc : List Str) :
    parseInsertBlockDirectivesLoop blocks ign ls acc
      = match parseInsertBlockDirectivesLoop blocks ign ls [] with
        | (o, none) => (acc ++ o, none)
        | (o, some e) => (o, some e) := by
  induction ls generalizing acc with
  | nil => simp [parseInsertBlockDirectivesLoop]
  | cons line rest ih =>
    simp only [parseInsertBlockDirectivesLoop]
    split
    · split
      · split
        · rw [ih (acc ++ [line]), ih ([] ++ [line])]
          rcases parseInsertBlockDirectivesLoop blocks ign rest [] with ⟨o, _ | e⟩ <;> simp
        · rfl
      · rw [ih, ih (appendIndented _ _ _ ++ _)]
        rcases parseInsertBlockDirectivesLoop blocks ign rest [] with ⟨o, _ | e⟩ <;>
          simp [appendIndented_eq]
    · rw [ih (acc ++ [line]), ih ([] ++ [line])]
      rcases parseInsertBlockDirectivesLoop blocks ign rest [] with ⟨o, _ | e⟩ <;> simp

theorem insertLoop_fail_nil (blocks : Blocks) (ign : Bool) (ls acc : List Str) (e : Str)
    (h : (parseInsertBlockDirectivesLoop blocks ign ls acc).2 = some e) :
    (parseInsertBlockDirectivesLoop blocks ign ls acc).1 = [] := by
  induction ls generalizing acc with
  | nil => simp [parseInsertBlockDirectivesLoop] at h
  | cons line rest ih =>
    simp only [parseInsertBlockDirectivesLoop] at h ⊢
    cases hr : regexInsertBlock line with
    | none =>
      simp only [hr] at h ⊢
      exact ih _ h
    | some r =>
      obtain ⟨ind, name⟩ := r
      simp only [hr] at h ⊢
      cases hg : Blocks.get blocks name with
      | none =>
        simp only [hg] at h ⊢
        cases ign with
        | true => exact ih _ (by simpa using h)
        | false => simp
      | some body =>
        simp only [hg] at h ⊢
        exact ih _ h

/-- The import loop over `a ++ b` runs over `a`, then over `b` from where `a` ended. -/
theorem importLoop_append (parse : Parser) (dir : Str) (lvl : Nat) (a b acc : List Str) :
    parseImportFileDirectivesLoop parse dir lvl (a ++ b) acc
      = match parseImportFileDirectivesLoop parse dir lvl a acc with
        | none => none
        | some (o, none) => parseImportFileDirectivesLoop parse dir lvl b o
        | some (o, some e) => some (o, some e) := by
  induction a generalizing acc with
  | nil => simp [parseImportFileDirectivesLoop]
  | cons line rest ih =>
    simp only [List.cons_append, parseImportFileDirectivesLoop]
    cases hr : regexImportFile line with
    | none => exact ih _
    | some r =>
      obtain ⟨ind, f⟩ := r
      dsimp only
      cases hp : parse (dir ++ "/".toList ++ f) (lvl + 1) with
      | none => rfl
      | some res =>
        obtain ⟨p, c, ls, err⟩ := res
        cases err with
        | none => exact ih _
        | some e => rfl

/-- The lines already written do not influence the import loop. -/
theorem importLoop_acc (parse : Parser) (dir : Str) (lvl : Nat) (ls acc : List Str) :
    parseImportFileDirectivesLoop parse dir lvl ls acc
      = match parseImportFileDirectivesLoop parse dir lvl ls [] with
        | none => none
        | some (o, none) => some (acc ++ o, none)
        | some (o, some e) => some (o, some e) := by
  induction ls generalizing acc with
  | nil => simp [parseImportFileDirectivesLoop]
  | cons line rest ih =>
    simp only [parseImportFileDirectivesLoop]
    cases hr : regexImportFile line with
    | none =>
      dsimp only
      rw [ih (acc ++ [line]), ih ([] ++ [line])]
      rcases parseImportFileDirectivesLoop parse dir lvl rest [] with _ | ⟨o, _ | e⟩ <;> simp
    | some r =>
      obtain ⟨ind, f⟩ := r
      dsimp only
      cases hp : parse (dir ++ "/".toList ++ f) (lvl + 1) with
      | none => rfl
      | some res =>
        obtain ⟨p, c, il, err⟩ := res
        cases err with
        | some e => rfl
        | none =>
          dsimp only
          rw [ih, ih (appendIndented _ _ _ ++ _)]
          rcases parseImportFileDirectivesLoop parse dir lvl rest [] with _ | ⟨o, _ | e⟩ <;>
            simp [appendIndented_eq]

/-- Lines that are not `import_file` directives go through the import loop unchanged. -/
theorem importLoop_plain (parse : Parser) (dir : Str) (lvl : Nat) (ls acc : List Str)
    (h : ∀ l ∈ ls, regexImportFile l = none) :
    parseImportFileDirectivesLoop parse dir lvl ls acc = some (acc ++ ls, none) := by
  induction ls generalizing acc with
  | nil => simp [parseImportFileDirectivesLoop]
  | cons line rest ih =>
    simp only [parseImportFileDirectivesLoop, h line (List.mem_cons_self _ _)]
    rw [ih _ (fun l hl => h l (List.mem_cons_of_mem _ hl))]
    simp

/-- Lines that are not `insert_block` directives go through the insertion loop unchanged. -/
theorem insertLoop_plain (blocks : Blocks) (ign : Bool) (ls acc : List Str)
    (h : ∀ l ∈ ls, regexInsertBlock l = none) :
    parseInsertBlockDirectivesLoop blocks ign ls acc = (acc ++ ls, none) := by
  induction ls generalizing acc with
  | nil => simp [parseInsertBlockDirectivesLoop]
  | cons line rest ih =>
    simp only [parseInsertBlockDirectivesLoop, h line (List.mem_cons_self _ _)]
    rw [ih _ (fun l hl => h l (List.mem_cons_of_mem _ hl))]
    simp

/-- Outside a block, lines that are neither `define_block` nor `end` go to `linesOut`. -/
theorem extractLoop_plain (ls rest : List Str) (blocks : Blocks) (cl out : List Str)
    (h : ∀ l ∈ ls, regexDefineBlock l = none ∧ regexEnd l = false) :
    extractBlocksLoop (ls ++ rest) blocks [] cl out
      = extractBlocksLoop rest blocks [] cl (out ++ ls) := by
  induction ls generalizing out with
  | nil => simp
  | cons line more ih =>
    obtain ⟨h1, h2⟩ := h line (List.mem_cons_self _ _)
    simp only [List.cons_append, extractBlocksLoop, h1, h2]
    simp only [ne_eq, not_true_eq_false, if_false, Bool.false_eq_true, List.append_eq]
    rw [ih _ (fun l hl => h l (List.mem_cons_of_mem _ hl))]
    simp

/-- Inside a block, lines that are neither `define_block` nor `end` go to the block. -/
theorem extractLoop_capture (ls rest : List Str) (blocks : Blocks) (cur : Str)
    (cl out : List Str) (hcur : cur ≠ [])
    (h : ∀ l ∈ ls, regexDefineBlock l = none ∧ regexEnd l = false) :
    extractBlocksLoop (ls ++ rest) blocks cur cl out
      = extractBlocksLoop rest blocks cur (cl ++ ls) out := by
  induction ls generalizing cl with
  | nil => simp
  | cons line more ih =>
    obtain ⟨h1, h2⟩ := h line (List.mem_cons_self _ _)
    simp only [List.cons_append, extractBlocksLoop, h1, h2]
    simp only [ne_eq, hcur, not_false_eq_true, if_true, Bool.false_eq_true, if_false,
      List.append_eq]
    rw [ih _ (fun l hl => h l (List.mem_cons_of_mem _ hl))]
    simp

theorem matchesDirective_false {line : Str} (h : matchesDirective line = false) :
    regexDefineBlock line = none ∧ regexEnd line = false ∧ regexInsertBlock line = none
      ∧ regexImportFile line = none := by
  unfold matchesDirective at h
  rcases hd : regexDefineBlock line with _ | a <;> rcases hi : regexInsertBlock line with _ | b
    <;> rcases hm : regexImportFile line with _ | c <;> simp_all

/-- The body of `parseTemplate` for a file of at least two lines whose first line is a
marker. -/
theorem parseTemplate_marked (readFile : Str → Except Str Str) (dirSource : Str)
    (fuel : Nat) (path : Str) (lvl : Nat) (text first : Str) (rest : List Str)
    (hread : readFile path = .ok text) (hsplit : stringsSplit text = first :: rest)
    (hrest : rest ≠ [])
    (hmark : regexIsParent first = true ∨ regexIsChild first = true) :
    parseTemplate readFile dirSource (fuel + 1) path lvl
      = match extractBlocks rest lvl with
        | (_, _, some e) => some (false, false, [], some e)
        | (blocks, lines, none) =>
          match parseImportFileDirectives (parseTemplate readFile dirSource fuel) dirSource
              lines blocks lvl with
          | none => none
          | some (_, some e) => some (false, false, [], some e)
          | some (lines, none) =>
            match parseInsertBlockDirectives lines blocks (regexIsChild first) lvl with
            | (_, some e) => some (false, false, [], some e)
            | (lines, none) => some (regexIsParent first, regexIsChild first, lines, none) := by
  have hlen : ¬ (first :: rest).length < 2 := by
    cases rest with
    | nil => exact absurd rfl hrest
    | cons r rs => simp
  have hm : (!regexIsParent first && !regexIsChild first) = false := by
    rcases hmark with h | h <;> simp [h]
  simp only [parseTemplate, hread, hsplit, hlen, if_false, List.headD_cons, hm,
    Bool.false_eq_true, List.tail_cons]

/-- One resolved `insert_block` line between two stretches of lines. -/
theorem insertLoop_expand (blocks : Blocks) (ign : Bool) (pre post : List Str)
    (line ind name : Str) (body a b : List Str)
    (hline : regexInsertBlock line = some (ind, name))
    (hget : Blocks.get blocks name = some body)
    (hpre : parseInsertBlockDirectivesLoop blocks ign pre [] = (a, none))
    (hpost : parseInsertBlockDirectivesLoop blocks ign post [] = (b, none)) :
    parseInsertBlockDirectivesLoop blocks ign (pre ++ [line] ++ post) []
      = (a ++ [ind ++ blockStart name] ++ body.map (fun l => ind ++ l)
          ++ [ind ++ blockEnd name] ++ b, none) := by
  rw [List.append_assoc, insertLoop_append, hpre]
  simp only [List.singleton_append, parseInsertBlockDirectivesLoop, hline, hget,
    List.append_eq, List.nil_append]
  rw [insertLoop_acc, hpost, appendIndented_eq]

/-- C1. Block round trip: a parent document whose lines after the marker are
`pre ++ [define_block n] ++ body ++ [end] ++ mid ++ [ind ++ insert_block n] ++ post`, where
no line of `pre`, `body`, `mid`, `post` matches a directive pattern, parses (with any
positive fuel) to `pre ++ mid ++ [ind ++ start marker n] ++ (body, each line prefixed by
ind) ++ [ind ++ end marker n] ++ post`; the `define_block` and `end` lines are gone. -/
theorem block_round_trip (readFile : Str → Except Str Str) (dirSource path text marker : Str)
    (fuel lvl : Nat) (n ind d e i : Str) (pre body mid post : List Str)
    (hread : readFile path = .ok text)
    (hsplit : stringsSplit text = marker :: (pre ++ [d] ++ body ++ [e] ++ mid ++ [i] ++ post))
    (hparent : regexIsParent marker = true)
    (hd : regexDefineBlock d = some n) (he : regexEnd e = true)
    (hi : regexInsertBlock i = some (ind, n))
    (hpre : ∀ l ∈ pre, matchesDirective l = false)
    (hbody : ∀ l ∈ body, matchesDirective l = false)
    (hmid : ∀ l ∈ mid, matchesDirective l = false)
    (hpost : ∀ l ∈ post, matchesDirective l = false) :
    parseTemplate readFile dirSource (fuel + 1) path lvl
      = some (true, false,
          pre ++ mid ++ [ind ++ blockStart n] ++ body.map (fun l => ind ++ l)
            ++ [ind ++ blockEnd n] ++ post, none) := by
  have hn : n ≠ [] := regexDefineBlock_ne_nil hd
  have hed : regexDefineBlock e = none := regexEnd_not_define he
  have hid : regexDefineBlock i = none := regexInsertBlock_not_define hi
  have hie : regexEnd i = false := regexInsertBlock_not_end hi
  have hii : regexImportFile i = none := regexInsertBlock_not_import hi
  have de : ∀ ls : List Str, (∀ l ∈ ls, matchesDirective l = false) →
      ∀ l ∈ ls, regexDefineBlock l = none ∧ regexEnd l = false := fun ls h l hl =>
    ⟨(matchesDirective_false (h l hl)).1, (matchesDirective_false (h l hl)).2.1⟩
  -- block extraction
  have hx : extractBlocks (pre ++ [d] ++ body ++ [e] ++ mid ++ [i] ++ post) lvl
      = ([(n, body)], pre ++ mid ++ [i] ++ post, none) := by
    unfold extractBlocks
    simp only [List.append_assoc]
    rw [extractLoop_plain pre _ _ _ _ (de pre hpre)]
    simp only [List.singleton_append, List.cons_append, List.nil_append, extractBlocksLoop, hd]
    simp only [ne_eq, not_true_eq_false, if_false, List.append_eq, List.nil_append]
    rw [extractLoop_capture body _ _ _ _ _ hn (de body hbody)]
    simp only [List.cons_append, extractBlocksLoop, hed, he, if_true, hn, if_false]
    rw [extractLoop_plain mid _ _ _ _ (de mid hmid)]
    simp only [List.cons_append, extractBlocksLoop, hid, hie, Bool.false_eq_true, if_false,
      ne_eq, not_true_eq_false, List.append_eq, List.nil_append]
    have := extractLoop_plain post [] (Blocks.set [] n body) [] (pre ++ mid ++ [i])
      (de post hpost)
    rw [List.append_nil] at this
    rw [this]
    simp [extractBlocksLoop, Blocks.set]
  -- import resolution
  have hm : parseImportFileDirectives (parseTemplate readFile dirSource fuel) dirSource
      (pre ++ mid ++ [i] ++ post) [(n, body)] lvl = some (pre ++ mid ++ [i] ++ post, none) := by
    unfold parseImportFileDirectives
    rw [importLoop_plain]
    · simp
    · intro l hl
      simp only [List.mem_append, List.mem_singleton] at hl
      rcases hl with ((hl | hl) | hl) | hl
      · exact (matchesDirective_false (hpre l hl)).2.2.2
      · exact (matchesDirective_false (hmid l hl)).2.2.2
      · rw [hl]; exact hii
      · exact (matchesDirective_false (hpost l hl)).2.2.2
  -- block insertion
  have hs : parseInsertBlockDirectives (pre ++ mid ++ [i] ++ post) [(n, body)]
      (regexIsChild marker) lvl
      = (pre ++ mid ++ [ind ++ blockStart n] ++ body.map (fun l => ind ++ l)
          ++ [ind ++ blockEnd n] ++ post, none) := by
    unfold parseInsertBlockDirectives
    have h1 := insertLoop_expand [(n, body)] (regexIsChild marker) (pre ++ mid) post i ind n
      body (pre ++ mid) post hi (by simp [Blocks.get])
      (by
        rw [insertLoop_plain]
        · simp
        · intro l hl
          rcases List.mem_append.1 hl with hl | hl
          · exact (matchesDirective_false (hpre l hl)).2.2.1
          · exact (matchesDirective_false (hmid l hl)).2.2.1)
      (by
        rw [insertLoop_plain]
        · simp
        · intro l hl
          exact (matchesDirective_false (hpost l hl)).2.2.1)
    exact h1
  rw [parseTemplate_marked readFile dirSource fuel path lvl text marker _ hread hsplit (by simp)
    (Or.inl hparent), hx]
  simp only [hm, hs, hparent]
  rw [regexIsParent_not_child hparent]

theorem block_round_trip_witness :
    parseTemplate (fun _ => .ok greetDoc) "src".toList 1 "src/greet.html".toList 1
      = some (true, false,
          ["A".toList, "B".toList, "  <!-- sg:block:start:greet -->".toList, "  Hello".toList,
            "  <!-- sg:block:end:greet -->".toList, "C".toList], none) :=
  block_round_trip (fun _ => .ok greetDoc) "src".toList "src/greet.html".toList greetDoc
    "\x7b\x7b staplegun parent \x7d\x7d".toList 0 1 "greet".toList "  ".toList
    "\x7b\x7b staplegun define_block greet \x7d\x7d".toList
    "\x7b\x7b staplegun end \x7d\x7d".toList
    "  \x7b\x7b staplegun insert_block greet \x7d\x7d".toList
    ["A".toList] ["Hello".toList] ["B".toList] ["C".toList]
    rfl (by decide) (by decide) (by decide) (by decide) (by decide) (by decide) (by decide)
    (by decide) (by decide)

theorem specUnbalanced_alternates (ls : List Str) :
    specUnbalanced false ls = !specAlternates (specDirectiveKinds ls)
      ∧ specUnbalanced true ls = !specAlternates (true :: specDirectiveKinds ls) := by
  induction ls with
  | nil => simp [specUnbalanced, specDirectiveKinds, specAlternates]
  | cons l ls ih =>
    obtain ⟨ih1, ih2⟩ := ih
    by_cases hd : (regexDefineBlock l).isSome = true
    · simp [specUnbalanced, specDirectiveKinds, specAlternates, hd, ih2]
    · by_cases he : regexEnd l = true
      · simp [specUnbalanced, specDirectiveKinds, specAlternates, hd, he, ih1]
      · simp [specUnbalanced, specDirectiveKinds, specAlternates, hd, he, ih1, ih2]

/-- The extraction loop fails exactly on an unbalanced rest, and then returns an empty map
and no lines. -/
theorem extractLoop_error (ls : List Str) (blocks : Blocks) (cur : Str) (cl out : List Str) :
    ((extractBlocksLoop ls blocks cur cl out).2.2.isSome
        = specUnbalanced (decide (cur ≠ [])) ls)
      ∧ ((extractBlocksLoop ls blocks cur cl out).2.2 ≠ none →
          (extractBlocksLoop ls blocks cur cl out).1 = []
            ∧ (extractBlocksLoop ls blocks cur cl out).2.1 = []) := by
  induction ls generalizing blocks cur cl out with
  | nil =>
    by_cases hc : cur = [] <;> simp [extractBlocksLoop, specUnbalanced, hc]
  | cons l ls ih =>
    cases hd : regexDefineBlock l with
    | some name =>
      have hn : name ≠ [] := regexDefineBlock_ne_nil hd
      by_cases hc : cur = []
      · have := ih blocks name [] out
        simpa [extractBlocksLoop, specUnbalanced, hd, hc, hn] using this
      · simp [extractBlocksLoop, specUnbalanced, hd, hc]
    | none =>
      by_cases he : regexEnd l = true
      · by_cases hc : cur = []
        · simp [extractBlocksLoop, specUnbalanced, hd, he, hc]
        · have := ih (Blocks.set blocks cur cl) [] [] out
          simpa [extractBlocksLoop, specUnbalanced, hd, he, hc] using this
      · by_cases hc : cur = []
        · have := ih blocks cur cl (out ++ [l])
          simpa [extractBlocksLoop, specUnbalanced, hd, he, hc] using this
        · have := ih blocks cur (cl ++ [l]) out
          simpa [extractBlocksLoop, specUnbalanced, hd, he, hc] using this

/-- C2. Structural errors are raised exactly when the document is unbalanced:
`extractBlocks` returns an error iff, reading the lines in order, a `define_block` line
occurs while a block is open, or an `end` line occurs while none is open, or a block is
open after the last line; it returns no error iff the subsequence of `define_block` / `end`
lines alternates `define_block, end, ...` with even length; and with an error it returns an
empty block map and an empty residual. -/
theorem extractBlocks_error_iff_unbalanced (ls : List Str) (lvl : Nat) :
    ((extractBlocks ls lvl).2.2 ≠ none ↔ specUnbalanced false ls = true)
      ∧ ((extractBlocks ls lvl).2.2 = none ↔ specAlternates (specDirectiveKinds ls) = true)
      ∧ ((extractBlocks ls lvl).2.2 ≠ none →
          (extractBlocks ls lvl).1 = [] ∧ (extractBlocks ls lvl).2.1 = []) := by
  obtain ⟨h1, h2⟩ := extractLoop_error ls [] [] [] []
  have h3 := (specUnbalanced_alternates ls).1
  simp only [ne_eq, not_true_eq_false, decide_False] at h1
  unfold extractBlocks
  refine ⟨?_, ?_, h2⟩
  · rw [← h1, ← Option.isSome_iff_ne_none]
  · rw [h3] at h1
    cases hr : (extractBlocksLoop ls [] [] [] []).2.2 with
    | none => rw [hr] at h1; simpa using h1.symm
    | some e => rw [hr] at h1; simpa using h1

/-- C3. Indentation propagation: with block `n` mapped to `body`, the insertion pass
replaces the line `ind ++ insert_block n` (`ind` whitespace) by `len(body) + 2` lines: `ind`
followed by the start marker of `n`, each line of `body` in order with `ind` put in front
of it and otherwise unchanged, and `ind` followed by the end marker of `n`; the lines before
and after keep their own results. -/
theorem insert_block_indentation (blocks : Blocks) (ign : Bool) (lvl : Nat)
    (n ind core : Str) (body pre post a b : List Str)
    (hind : ∀ c ∈ ind, isSpace c = true)
    (hcore : regexInsertBlock core = some ([], n))
    (hget : Blocks.get blocks n = some body)
    (hpre : parseInsertBlockDirectives pre blocks ign lvl = (a, none))
    (hpost : parseInsertBlockDirectives post blocks ign lvl = (b, none)) :
    parseInsertBlockDirectives (pre ++ [ind ++ core] ++ post) blocks ign lvl
        = (a ++ ([ind ++ blockStart n] ++ body.map (fun l => ind ++ l) ++ [ind ++ blockEnd n])
            ++ b, none)
      ∧ ([ind ++ blockStart n] ++ body.map (fun l => ind ++ l) ++ [ind ++ blockEnd n]).length
          = body.length + 2 := by
  have hline : regexInsertBlock (ind ++ core) = some (ind, n) := by
    have := regexInsertBlock_indent hind hcore
    simpa using this
  refine ⟨?_, by simp⟩
  unfold parseInsertBlockDirectives at *
  rw [insertLoop_expand blocks ign pre post (ind ++ core) ind n body a b hline hget hpre hpost]
  simp

theorem insert_block_indentation_witness :
    parseInsertBlockDirectives
        (["<body>".toList] ++ ["  ".toList ++ "\x7b\x7b staplegun insert_block nav \x7d\x7d".toList]
          ++ ["</body>".toList]) sampleBlocks false 1
        = (["<body>".toList] ++ (["  ".toList ++ blockStart "nav".toList]
            ++ ["<ul>".toList, "    <li>a</li>".toList, "</ul>".toList].map
                (fun l => "  ".toList ++ l)
            ++ ["  ".toList ++ blockEnd "nav".toList]) ++ ["</body>".toList], none)
      ∧ (["  ".toList ++ blockStart "nav".toList]
            ++ ["<ul>".toList, "    <li>a</li>".toList, "</ul>".toList].map
                (fun l => "  ".toList ++ l)
            ++ ["  ".toList ++ blockEnd "nav".toList]).length = 3 + 2 :=
  insert_block_indentation sampleBlocks false 1 "nav".toList "  ".toList
    "\x7b\x7b staplegun insert_block nav \x7d\x7d".toList
    ["<ul>".toList, "    <li>a</li>".toList, "</ul>".toList]
    ["<body>".toList] ["</body>".toList] ["<body>".toList] ["</body>".toList]
    (by decide) (by decide) (by decide) (by decide) (by decide)

theorem insertLoop_firstMissing (blocks : Blocks) (ls acc : List Str) :
    (parseInsertBlockDirectivesLoop blocks false ls acc).2
        = (specFirstMissing blocks ls).map errNotDefined
      ∧ ((specFirstMissing blocks ls).isSome = true →
          (parseInsertBlockDirectivesLoop blocks false ls acc).1 = []) := by
  induction ls generalizing acc with
  | nil => simp [parseInsertBlockDirectivesLoop, specFirstMissing]
  | cons l ls ih =>
    cases hr : regexInsertBlock l with
    | none =>
      simpa [parseInsertBlockDirectivesLoop, specFirstMissing, hr] using ih (acc ++ [l])
    | some r =>
      obtain ⟨ind, x⟩ := r
      cases hg : Blocks.get blocks x with
      | none => simp [parseInsertBlockDirectivesLoop, specFirstMissing, hr, hg]
      | some body =>
        simpa [parseInsertBlockDirectivesLoop, specFirstMissing, hr, hg] using ih _

theorem specFirstMissing_isSome (blocks : Blocks) (ls : List Str) :
    (specFirstMissing blocks ls).isSome = true
      ↔ ∃ l ∈ ls, ∃ ind x, regexInsertBlock l = some (ind, x) ∧ Blocks.get blocks x = none := by
  induction ls with
  | nil => simp [specFirstMissing]
  | cons l ls ih =>
    cases hr : regexInsertBlock l with
    | none => simp [specFirstMissing, hr, ih]
    | some r =>
      obtain ⟨ind, x⟩ := r
      cases hg : Blocks.get blocks x with
      | none =>
        simp only [specFirstMissing, hr, hg, Option.isNone_none, if_true, Option.isSome_some,
          true_iff]
        exact ⟨l, List.mem_cons_self _ _, ind, x, hr, hg⟩
      | some body => simp [specFirstMissing, hr, hg, ih]

/-- C5. Parent strictness: with `ignoreUndefinedBlocks = false` (the value `parseTemplate`
passes for a parent document) the insertion pass returns an error iff some line is an
`insert_block` directive whose name is absent from the block map; the error is
`insert_block target "x" not defined` for the first such name `x`, and no lines are
returned with it. -/
theorem parent_insert_strict (blocks : Blocks) (ls : List Str) (lvl : Nat) :
    ((parseInsertBlockDirectives ls blocks false lvl).2 ≠ none
        ↔ ∃ l ∈ ls, ∃ ind x, regexInsertBlock l = some (ind, x) ∧ Blocks.get blocks x = none)
      ∧ (parseInsertBlockDirectives ls blocks false lvl).2
          = (specFirstMissing blocks ls).map errNotDefined
      ∧ ((parseInsertBlockDirectives ls blocks false lvl).2 ≠ none →
          (parseInsertBlockDirectives ls blocks false lvl).1 = [])
      ∧ ∀ marker, regexIsParent marker = true → regexIsChild marker = false := by
  obtain ⟨h1, h2⟩ := insertLoop_firstMissing blocks ls []
  unfold parseInsertBlockDirectives
  refine ⟨?_, h1, ?_, fun _ h => regexIsParent_not_child h⟩
  · rw [← specFirstMissing_isSome, h1]
    cases specFirstMissing blocks ls <;> simp
  · intro h
    apply h2
    rw [h1] at h
    cases hs : specFirstMissing blocks ls with
    | none => rw [hs] at h; simp at h
    | some x => rfl

theorem regexIsChild_not_parent {line : Str} (h : regexIsChild line = true) :
    regexIsParent line = false := by
  cases hp : regexIsParent line with
  | false => rfl
  | true => rw [regexIsParent_not_child hp] at h; exact absurd h (by simp)

/-- With `ignoreUndefinedBlocks = true` the insertion loop returns no error. -/
theorem insertLoop_ignore_ok (blocks : Blocks) (ls acc : List Str) :
    (parseInsertBlockDirectivesLoop blocks true ls acc).2 = none := by
  induction ls generalizing acc with
  | nil => rfl
  | cons l ls ih =>
    cases hr : regexInsertBlock l with
    | none => simpa [parseInsertBlockDirectivesLoop, hr] using ih _
    | some r =>
      obtain ⟨ind, x⟩ := r
      cases hg : Blocks.get blocks x with
      | none => simpa [parseInsertBlockDirectivesLoop, hr, hg] using ih _
      | some body => simpa [parseInsertBlockDirectivesLoop, hr, hg] using ih _

theorem insertLoop_ignore_eq (blocks : Blocks) (ls : List Str) :
    parseInsertBlockDirectivesLoop blocks true ls []
      = ((parseInsertBlockDirectivesLoop blocks true ls []).1, none) := by
  have := insertLoop_ignore_ok blocks ls []
  rw [← this]

/-- An unresolved `insert_block` line kept between two stretches of lines. -/
theorem insertLoop_retain (blocks : Blocks) (pre post : List Str) (line ind x : Str)
    (hline : regexInsertBlock line = some (ind, x)) (hget : Blocks.get blocks x = none) :
    parseInsertBlockDirectivesLoop blocks true (pre ++ [line] ++ post) []
      = ((parseInsertBlockDirectivesLoop blocks true pre []).1 ++ [line]
          ++ (parseInsertBlockDirectivesLoop blocks true post []).1, none) := by
  rw [List.append_assoc, insertLoop_append, insertLoop_ignore_eq blocks pre]
  simp only [List.singleton_append, parseInsertBlockDirectivesLoop, hline, hget, if_true,
    List.append_eq, List.nil_append]
  rw [insertLoop_acc, insertLoop_ignore_eq blocks post]

/-- A successful import loop over `pre ++ [line] ++ post`, `line` not an `import_file`
directive, is made of successful runs over `pre` and over `post`. -/
theorem importLoop_split (parse : Parser) (dir : Str) (lvl : Nat) (pre post : List Str)
    (line : Str) (out : List Str) (hline : regexImportFile line = none)
    (h : parseImportFileDirectivesLoop parse dir lvl (pre ++ [line] ++ post) []
      = some (out, none)) :
    ∃ o1 o2, parseImportFileDirectivesLoop parse dir lvl pre [] = some (o1, none)
      ∧ parseImportFileDirectivesLoop parse dir lvl post [] = some (o2, none)
      ∧ out = o1 ++ [line] ++ o2 := by
  rw [List.append_assoc, importLoop_append] at h
  rcases h1 : parseImportFileDirectivesLoop parse dir lvl pre [] with _ | ⟨o1, _ | e⟩
  · rw [h1] at h; simp at h
  · rw [h1] at h
    simp only [List.singleton_append, parseImportFileDirectivesLoop, hline, List.append_eq,
      List.nil_append] at h
    rw [importLoop_acc] at h
    rcases h2 : parseImportFileDirectivesLoop parse dir lvl post [] with _ | ⟨o2, _ | e⟩
    · rw [h2] at h; simp at h
    · rw [h2] at h
      simp only [Option.some.injEq, Prod.mk.injEq, and_true] at h
      exact ⟨o1, o2, rfl, rfl, h.symm⟩
    · rw [h2] at h; simp at h
  · rw [h1] at h; simp at h

/-- C4 (amended). Deferred resolution: a child document that passes block extraction
and import resolution parses without error whatever names its `insert_block` lines
reference, and every `insert_block` line outside a block definition whose name the document does not
define is returned verbatim at its place, between the results of the lines before it and
of the lines after it, with no markers. -/
theorem child_defers_undefined (readFile : Str → Except Str Str)
    (dirSource path text marker : Str) (fuel lvl : Nat) (rest : List Str) (blocks : Blocks)
    (res ls1 : List Str)
    (hread : readFile path = .ok text) (hsplit : stringsSplit text = marker :: rest)
    (hrest : rest ≠ []) (hchild : regexIsChild marker = true)
    (hx : extractBlocks rest lvl = (blocks, res, none))
    (hm : parseImportFileDirectives (parseTemplate readFile dirSource fuel) dirSource res
      blocks lvl = some (ls1, none)) :
    parseTemplate readFile dirSource (fuel + 1) path lvl
        = some (false, true, (parseInsertBlockDirectives ls1 blocks true lvl).1, none)
      ∧ ∀ pre post i ind x, res = pre ++ [i] ++ post →
          regexInsertBlock i = some (ind, x) → Blocks.get blocks x = none →
          ∃ o1 o2,
            parseImportFileDirectives (parseTemplate readFile dirSource fuel) dirSource pre
                blocks lvl = some (o1, none)
              ∧ parseImportFileDirectives (parseTemplate readFile dirSource fuel) dirSource
                post blocks lvl = some (o2, none)
              ∧ (parseInsertBlockDirectives ls1 blocks true lvl).1
                = (parseInsertBlockDirectives o1 blocks true lvl).1 ++ [i]
                    ++ (parseInsertBlockDirectives o2 blocks true lvl).1 := by
  constructor
  · rw [parseTemplate_marked readFile dirSource fuel path lvl text marker rest hread hsplit
      hrest (Or.inr hchild), hx]
    simp only [hm, hchild, regexIsChild_not_parent hchild]
    unfold parseInsertBlockDirectives
    rw [insertLoop_ignore_eq blocks ls1]
  · intro pre post i ind x hres hi hget
    subst hres
    unfold parseImportFileDirectives at hm ⊢
    obtain ⟨o1, o2, h1, h2, hout⟩ := importLoop_split _ _ _ pre post i ls1
      (regexInsertBlock_not_import hi) hm
    refine ⟨o1, o2, h1, h2, ?_⟩
    unfold parseInsertBlockDirectives
    rw [hout, insertLoop_retain blocks o1 o2 i ind x hi hget]

theorem child_defers_undefined_witness :
    parseTemplate (fun _ => .ok deferDoc) "src".toList 1 "src/nav.html".toList 1
        = some (false, true,
            (parseInsertBlockDirectives
              ["<nav>".toList, "  \x7b\x7b staplegun insert_block menu \x7d\x7d".toList,
                "</nav>".toList] [] true 1).1, none)
      ∧ ∀ pre post i ind x,
          ["<nav>".toList, "  \x7b\x7b staplegun insert_block menu \x7d\x7d".toList,
            "</nav>".toList] = pre ++ [i] ++ post →
          regexInsertBlock i = some (ind, x) → Blocks.get [] x = none →
          ∃ o1 o2,
            parseImportFileDirectives (parseTemplate (fun _ => .ok deferDoc) "src".toList 0)
                "src".toList pre [] 1 = some (o1, none)
              ∧ parseImportFileDirectives (parseTemplate (fun _ => .ok deferDoc) "src".toList 0)
                "src".toList post [] 1 = some (o2, none)
              ∧ (parseInsertBlockDirectives
                  ["<nav>".toList, "  \x7b\x7b staplegun insert_block menu \x7d\x7d".toList,
                    "</nav>".toList] [] true 1).1
                = (parseInsertBlockDirectives o1 [] true 1).1 ++ [i]
                    ++ (parseInsertBlockDirectives o2 [] true 1).1 :=
  child_defers_undefined (fun _ => .ok deferDoc) "src".toList "src/nav.html".toList deferDoc
    "\x7b\x7b staplegun child \x7d\x7d".toList 0 1
    ["<nav>".toList, "  \x7b\x7b staplegun insert_block menu \x7d\x7d".toList, "</nav>".toList]
    []
    ["<nav>".toList, "  \x7b\x7b staplegun insert_block menu \x7d\x7d".toList, "</nav>".toList]
    ["<nav>".toList, "  \x7b\x7b staplegun insert_block menu \x7d\x7d".toList, "</nav>".toList]
    rfl (by decide) (by decide) (by decide) (by decide) (by decide)

/-- C4, counterexample: a child document in which the line `insert_block x` lies inside the
definition of block `a`.  The document does not define `x`, it parses without error, and
the `insert_block x` line is not among the returned lines (no line is returned). -/
theorem child_defers_undefined_counterexample :
    "\x7b\x7b staplegun insert_block x \x7d\x7d".toList ∈ stringsSplit capturedInsertDoc
      ∧ regexInsertBlock "\x7b\x7b staplegun insert_block x \x7d\x7d".toList
          = some ([], "x".toList)
      ∧ Blocks.get (extractBlocks (stringsSplit capturedInsertDoc).tail 1).1 "x".toList = none
      ∧ parseTemplate (fun _ => .ok capturedInsertDoc) "src".toList 1 "src/c.html".toList 1
          = some (false, true, [], none)
      ∧ ¬ ∀ out, parseTemplate (fun _ => .ok capturedInsertDoc) "src".toList 1
            "src/c.html".toList 1 = some (false, true, out, none) →
          "\x7b\x7b staplegun insert_block x \x7d\x7d".toList ∈ out := by
  refine ⟨by decide, by decide, by decide, by decide, ?_⟩
  intro h
  exact absurd (h [] (by decide)) (by decide)

/-- One resolved `import_file` line between two stretches of lines. -/
theorem importLoop_expand (parse : Parser) (dir : Str) (lvl : Nat) (pre post : List Str)
    (line ind f : Str) (p c : Bool) (L a b : List Str)
    (hline : regexImportFile line = some (ind, f))
    (hparse : parse (dir ++ "/".toList ++ f) (lvl + 1) = some (p, c, L, none))
    (hpre : parseImportFileDirectivesLoop parse dir lvl pre [] = some (a, none))
    (hpost : parseImportFileDirectivesLoop parse dir lvl post [] = some (b, none)) :
    parseImportFileDirectivesLoop parse dir lvl (pre ++ [line] ++ post) []
      = some (a ++ [ind ++ fileStart f] ++ L.map (fun l => ind ++ l)
          ++ [ind ++ fileEnd f] ++ b, none) := by
  rw [List.append_assoc, importLoop_append, hpre]
  simp only [List.singleton_append, parseImportFileDirectivesLoop, hline, hparse,
    List.append_eq, List.nil_append]
  rw [importLoop_acc, hpost, appendIndented_eq]

/-- The insertion loop stops at an `insert_block` line for an undefined block when
undefined blocks are not ignored. -/
theorem insertLoop_undefined (blocks : Blocks) (pre post : List Str) (line ind x : Str)
    (a : List Str) (hline : regexInsertBlock line = some (ind, x))
    (hget : Blocks.get blocks x = none)
    (hpre : parseInsertBlockDirectivesLoop blocks false pre [] = (a, none)) :
    parseInsertBlockDirectivesLoop blocks false (pre ++ [line] ++ post) []
      = ([], some (errNotDefined x)) := by
  rw [List.append_assoc, insertLoop_append, hpre]
  simp [parseInsertBlockDirectivesLoop, hline, hget]

/-- A failure before the end of the insertion loop is the result of the loop. -/
theorem insertLoop_fail_prefix (blocks : Blocks) (ign : Bool) (pre post : List Str)
    (o : List Str) (e : Str)
    (hpre : parseInsertBlockDirectivesLoop blocks ign pre [] = (o, some e)) :
    parseInsertBlockDirectivesLoop blocks ign (pre ++ post) [] = ([], some e) := by
  have := insertLoop_fail_nil blocks ign pre [] e (by rw [hpre])
  rw [hpre] at this
  rw [insertLoop_append, hpre]
  simp only at this ⊢
  rw [this]

/-- A document that imports, outside its block definitions, a file whose resolved lines
contain the `insert_block` line `r`: its insertion pass runs over the imported lines, and
there `r` stands with the indentation of the `import_file` line in front of it. -/
theorem parseTemplate_import_retained (readFile : Str → Except Str Str)
    (dirSource path text marker : Str) (fuel lvl : Nat) (rest : List Str) (blocks : Blocks)
    (pre post : List Str) (imp iind f : Str) (p c : Bool) (l1 l2 : List Str) (r : Str)
    (o1 o2 : List Str)
    (hread : readFile path = .ok text) (hsplit : stringsSplit text = marker :: rest)
    (hmark : regexIsParent marker = true ∨ regexIsChild marker = true)
    (hx : extractBlocks rest lvl = (blocks, pre ++ [imp] ++ post, none))
    (himp : regexImportFile imp = some (iind, f))
    (hfile : parseTemplate readFile dirSource fuel (dirSource ++ "/".toList ++ f) (lvl + 1)
      = some (p, c, l1 ++ [r] ++ l2, none))
    (h1 : parseImportFileDirectives (parseTemplate readFile dirSource fuel) dirSource pre
      blocks lvl = some (o1, none))
    (h2 : parseImportFileDirectives (parseTemplate readFile dirSource fuel) dirSource post
      blocks lvl = some (o2, none)) :
    parseTemplate readFile dirSource (fuel + 1) path lvl
      = match parseInsertBlockDirectives
            ((o1 ++ [iind ++ fileStart f] ++ l1.map (fun l => iind ++ l)) ++ [iind ++ r]
              ++ (l2.map (fun l => iind ++ l) ++ [iind ++ fileEnd f] ++ o2))
            blocks (regexIsChild marker) lvl with
        | (_, some e) => some (false, false, [], some e)
        | (lines, none) => some (regexIsParent marker, regexIsChild marker, lines, none) := by
  have hrest : rest ≠ [] := by
    intro h
    rw [h] at hx
    simp [extractBlocks, extractBlocksLoop] at hx
  unfold parseImportFileDirectives at h1 h2
  have hm := importLoop_expand (parseTemplate readFile dirSource fuel) dirSource lvl pre post
    imp iind f p c (l1 ++ [r] ++ l2) o1 o2 himp hfile h1 h2
  rw [parseTemplate_marked readFile dirSource fuel path lvl text marker rest hread hsplit
    hrest hmark, hx]
  simp only [parseImportFileDirectives, hm]
  simp only [List.map_append, List.map_cons, List.map_nil, List.append_assoc]

/-- C6 (amended). A deferred `insert_block x` line that surfaces from an imported file is
scanned by the importing document's insertion pass, with the indentation of the
`import_file` line in front of it.  It stays unresolved only when the importing document
is a child that does not define `x`; when the importing document defines `x` the line is
replaced by the block between its markers (the lines around it resolving to `a`, `b`). -/
theorem deferred_insert_revisited (readFile : Str → Except Str Str)
    (dirSource path text marker : Str) (fuel lvl : Nat) (rest : List Str) (blocks : Blocks)
    (pre post : List Str) (imp iind f : Str) (p c : Bool) (l1 l2 : List Str) (r rind x : Str)
    (o1 o2 : List Str)
    (hread : readFile path = .ok text) (hsplit : stringsSplit text = marker :: rest)
    (hmark : regexIsParent marker = true ∨ regexIsChild marker = true)
    (hx : extractBlocks rest lvl = (blocks, pre ++ [imp] ++ post, none))
    (himp : regexImportFile imp = some (iind, f))
    (hfile : parseTemplate readFile dirSource fuel (dirSource ++ "/".toList ++ f) (lvl + 1)
      = some (p, c, l1 ++ [r] ++ l2, none))
    (hr : regexInsertBlock r = some (rind, x))
    (h1 : parseImportFileDirectives (parseTemplate readFile dirSource fuel) dirSource pre
      blocks lvl = some (o1, none))
    (h2 : parseImportFileDirectives (parseTemplate readFile dirSource fuel) dirSource post
      blocks lvl = some (o2, none)) :
    (regexIsChild marker = true → Blocks.get blocks x = none →
        parseTemplate readFile dirSource (fuel + 1) path lvl
          = some (false, true,
              (parseInsertBlockDirectives
                  (o1 ++ [iind ++ fileStart f] ++ l1.map (fun l => iind ++ l)) blocks true lvl).1
                ++ [iind ++ r]
                ++ (parseInsertBlockDirectives
                  (l2.map (fun l => iind ++ l) ++ [iind ++ fileEnd f] ++ o2) blocks true lvl).1,
              none))
      ∧ ∀ body a b, Blocks.get blocks x = some body →
          parseInsertBlockDirectives (o1 ++ [iind ++ fileStart f] ++ l1.map (fun l => iind ++ l))
            blocks (regexIsChild marker) lvl = (a, none) →
          parseInsertBlockDirectives (l2.map (fun l => iind ++ l) ++ [iind ++ fileEnd f] ++ o2)
            blocks (regexIsChild marker) lvl = (b, none) →
          parseTemplate readFile dirSource (fuel + 1) path lvl
            = some (regexIsParent marker, regexIsChild marker,
                a ++ [(iind ++ rind) ++ blockStart x]
                  ++ body.map (fun l => (iind ++ rind) ++ l)
                  ++ [(iind ++ rind) ++ blockEnd x] ++ b, none) := by
  have hline : regexInsertBlock (iind ++ r) = some (iind ++ rind, x) :=
    regexInsertBlock_indent (regexImportFile_indent_isSpace himp) hr
  have hp := parseTemplate_import_retained readFile dirSource path text marker fuel lvl rest
    blocks pre post imp iind f p c l1 l2 r o1 o2 hread hsplit hmark hx himp hfile h1 h2
  constructor
  · intro hchild hget
    rw [hp, hchild]
    unfold parseInsertBlockDirectives
    rw [insertLoop_retain blocks _ _ (iind ++ r) (iind ++ rind) x hline hget]
    simp only [regexIsChild_not_parent hchild]
  · intro body a b hget ha hb
    rw [hp]
    unfold parseInsertBlockDirectives at ha hb ⊢
    rw [insertLoop_expand blocks _ _ _ (iind ++ r) (iind ++ rind) x body a b hline hget ha hb]

theorem deferred_insert_revisited_witness :
    parseTemplate importFs "src".toList 2 "src/d.html".toList 1
      = some (false, true,
          ["<div>".toList, "  <!-- sg:file:start:c.html -->".toList,
            "   \x7b\x7b staplegun insert_block x \x7d\x7d".toList,
            "  <!-- sg:file:end:c.html -->".toList], none) :=
  (deferred_insert_revisited importFs "src".toList "src/d.html".toList
    ("\x7b\x7b staplegun child \x7d\x7d\n<div>\n"
      ++ "  \x7b\x7b staplegun import_file c.html \x7d\x7d").toList
    "\x7b\x7b staplegun child \x7d\x7d".toList 1 1
    ["<div>".toList, "  \x7b\x7b staplegun import_file c.html \x7d\x7d".toList] []
    ["<div>".toList] [] "  \x7b\x7b staplegun import_file c.html \x7d\x7d".toList
    "  ".toList "c.html".toList false true [] []
    " \x7b\x7b staplegun insert_block x \x7d\x7d".toList " ".toList "x".toList
    ["<div>".toList] []
    rfl (by decide) (by decide) (by decide) (by decide) (by decide) (by decide)
    (by decide) (by decide)).1 (by decide) (by decide)

/-- C6, counterexample: the parent `p.html` defines block `x` and imports the child
`c.html`, whose resolved output retains the line `insert_block x`.  The parent's output
holds the lines of `x` between block markers and no `insert_block` line. -/
theorem deferred_insert_revisited_counterexample :
    parseTemplate importFs "src".toList 1 "src/c.html".toList 2
        = some (false, true, [" \x7b\x7b staplegun insert_block x \x7d\x7d".toList], none)
      ∧ parseTemplate importFs "src".toList 2 "src/p.html".toList 1
        = some (true, false,
            ["  <!-- sg:file:start:c.html -->".toList, "   <!-- sg:block:start:x -->".toList,
              "   Hello".toList, "   <!-- sg:block:end:x -->".toList,
              "  <!-- sg:file:end:c.html -->".toList], none)
      ∧ ∀ l ∈ ["  <!-- sg:file:start:c.html -->".toList, "   <!-- sg:block:start:x -->".toList,
              "   Hello".toList, "   <!-- sg:block:end:x -->".toList,
              "  <!-- sg:file:end:c.html -->".toList], regexInsertBlock l = none := by
  refine ⟨by decide, by decide, by decide⟩

/-- C7 (amended). An `insert_block x` line retained by an imported child is resolved by the
parent that imports it or is an error there.  If the parent defines `x` and the lines before
and after the retained line resolve to `a` and `b`, its output has at that place the lines
of `x` between the block markers, each prefixed by the indentation of the `import_file` line
followed by that of the retained line; if the parent does not define `x` and the lines
before the retained line resolve, its parse fails with `insert_block target "x" not
defined`.  In every case the parse returns, and either fails with no lines or has the block
in the place of the retained line. -/
theorem retained_insert_resolved_by_parent (readFile : Str → Except Str Str)
    (dirSource path text marker : Str) (fuel lvl : Nat) (rest : List Str) (blocks : Blocks)
    (pre post : List Str) (imp iind f : Str) (p c : Bool) (l1 l2 : List Str) (r rind x : Str)
    (o1 o2 : List Str)
    (hread : readFile path = .ok text) (hsplit : stringsSplit text = marker :: rest)
    (hparent : regexIsParent marker = true)
    (hx : extractBlocks rest lvl = (blocks, pre ++ [imp] ++ post, none))
    (himp : regexImportFile imp = some (iind, f))
    (hfile : parseTemplate readFile dirSource fuel (dirSource ++ "/".toList ++ f) (lvl + 1)
      = some (p, c, l1 ++ [r] ++ l2, none))
    (hr : regexInsertBlock r = some (rind, x))
    (h1 : parseImportFileDirectives (parseTemplate readFile dirSource fuel) dirSource pre
      blocks lvl = some (o1, none))
    (h2 : parseImportFileDirectives (parseTemplate readFile dirSource fuel) dirSource post
      blocks lvl = some (o2, none)) :
    (∀ body a b, Blocks.get blocks x = some body →
        parseInsertBlockDirectives (o1 ++ [iind ++ fileStart f] ++ l1.map (fun l => iind ++ l))
          blocks false lvl = (a, none) →
        parseInsertBlockDirectives (l2.map (fun l => iind ++ l) ++ [iind ++ fileEnd f] ++ o2)
          blocks false lvl = (b, none) →
        parseTemplate readFile dirSource (fuel + 1) path lvl
          = some (true, false,
              a ++ [(iind ++ rind) ++ blockStart x] ++ body.map (fun l => (iind ++ rind) ++ l)
                ++ [(iind ++ rind) ++ blockEnd x] ++ b, none))
      ∧ (∀ a, Blocks.get blocks x = none →
          parseInsertBlockDirectives (o1 ++ [iind ++ fileStart f] ++ l1.map (fun l => iind ++ l))
            blocks false lvl = (a, none) →
          parseTemplate readFile dirSource (fuel + 1) path lvl
            = some (false, false, [], some (errNotDefined x)))
      ∧ ((∃ e, parseTemplate readFile dirSource (fuel + 1) path lvl
            = some (false, false, [], some e))
          ∨ ∃ body a b, Blocks.get blocks x = some body
              ∧ parseTemplate readFile dirSource (fuel + 1) path lvl
                = some (true, false,
                    a ++ [(iind ++ rind) ++ blockStart x]
                      ++ body.map (fun l => (iind ++ rind) ++ l)
                      ++ [(iind ++ rind) ++ blockEnd x] ++ b, none)) := by
  have hline : regexInsertBlock (iind ++ r) = some (iind ++ rind, x) :=
    regexInsertBlock_indent (regexImportFile_indent_isSpace himp) hr
  have hc : regexIsChild marker = false := regexIsParent_not_child hparent
  have hp := parseTemplate_import_retained readFile dirSource path text marker fuel lvl rest
    blocks pre post imp iind f p c l1 l2 r o1 o2 hread hsplit (Or.inl hparent) hx himp hfile
    h1 h2
  rw [hc, hparent] at hp
  have hdef : ∀ body a b, Blocks.get blocks x = some body →
      parseInsertBlockDirectives (o1 ++ [iind ++ fileStart f] ++ l1.map (fun l => iind ++ l))
        blocks false lvl = (a, none) →
      parseInsertBlockDirectives (l2.map (fun l => iind ++ l) ++ [iind ++ fileEnd f] ++ o2)
        blocks false lvl = (b, none) →
      parseTemplate readFile dirSource (fuel + 1) path lvl
        = some (true, false,
            a ++ [(iind ++ rind) ++ blockStart x] ++ body.map (fun l => (iind ++ rind) ++ l)
              ++ [(iind ++ rind) ++ blockEnd x] ++ b, none) := by
    intro body a b hget ha hb
    rw [hp]
    unfold parseInsertBlockDirectives at ha hb ⊢
    rw [insertLoop_expand blocks _ _ _ (iind ++ r) (iind ++ rind) x body a b hline hget ha hb]
  have hundef : ∀ a, Blocks.get blocks x = none →
      parseInsertBlockDirectives (o1 ++ [iind ++ fileStart f] ++ l1.map (fun l => iind ++ l))
        blocks false lvl = (a, none) →
      parseTemplate readFile dirSource (fuel + 1) path lvl
        = some (false, false, [], some (errNotDefined x)) := by
    intro a hget ha
    rw [hp]
    unfold parseInsertBlockDirectives at ha ⊢
    rw [insertLoop_undefined blocks _ _ (iind ++ r) (iind ++ rind) x a hline hget ha]
  refine ⟨hdef, hundef, ?_⟩
  rcases ha : parseInsertBlockDirectives
      (o1 ++ [iind ++ fileStart f] ++ l1.map (fun l => iind ++ l)) blocks false lvl
    with ⟨a, _ | e⟩
  · cases hget : Blocks.get blocks x with
    | none => exact Or.inl ⟨_, hundef a hget ha⟩
    | some body =>
      rcases hb : parseInsertBlockDirectives
          (l2.map (fun l => iind ++ l) ++ [iind ++ fileEnd f] ++ o2) blocks false lvl
        with ⟨b, _ | e⟩
      · exact Or.inr ⟨body, a, b, rfl, hdef body a b hget ha hb⟩
      · left
        refine ⟨e, ?_⟩
        rw [hp]
        unfold parseInsertBlockDirectives at ha hb ⊢
        rw [List.append_assoc, insertLoop_append, ha]
        simp only [List.singleton_append, parseInsertBlockDirectivesLoop, hline, hget,
          List.append_eq, List.nil_append]
        rw [insertLoop_acc, hb]
  · left
    refine ⟨e, ?_⟩
    rw [hp]
    unfold parseInsertBlockDirectives at ha ⊢
    rw [List.append_assoc, insertLoop_fail_prefix blocks false _ _ a e ha]

theorem retained_insert_resolved_by_parent_witness :
    parseTemplate importFs "src".toList 2 "src/p.html".toList 1
      = some (true, false,
          ["  <!-- sg:file:start:c.html -->".toList, "   <!-- sg:block:start:x -->".toList,
            "   Hello".toList, "   <!-- sg:block:end:x -->".toList,
            "  <!-- sg:file:end:c.html -->".toList], none) :=
  (retained_insert_resolved_by_parent importFs "src".toList "src/p.html".toList
    ("\x7b\x7b staplegun parent \x7d\x7d\n\x7b\x7b staplegun define_block x \x7d\x7d\n"
      ++ "Hello\n\x7b\x7b staplegun end \x7d\x7d\n"
      ++ "  \x7b\x7b staplegun import_file c.html \x7d\x7d").toList
    "\x7b\x7b staplegun parent \x7d\x7d".toList 1 1
    ["\x7b\x7b staplegun define_block x \x7d\x7d".toList, "Hello".toList,
      "\x7b\x7b staplegun end \x7d\x7d".toList,
      "  \x7b\x7b staplegun import_file c.html \x7d\x7d".toList]
    [("x".toList, ["Hello".toList])]
    [] [] "  \x7b\x7b staplegun import_file c.html \x7d\x7d".toList
    "  ".toList "c.html".toList false true [] []
    " \x7b\x7b staplegun insert_block x \x7d\x7d".toList " ".toList "x".toList
    [] []
    rfl (by decide) (by decide) (by decide) (by decide) (by decide) (by decide)
    (by decide) (by decide)).1 ["Hello".toList] ["  <!-- sg:file:start:c.html -->".toList]
    ["  <!-- sg:file:end:c.html -->".toList] (by decide) (by decide) (by decide)

/-- C10. Import substitution shape: when parsing the file `f` gives the lines `L` (whatever
its `isParent` / `isChild` flags), the import pass replaces the line `ind ++ import_file f`
by `ind` + the file start marker of `f`, the lines of `L` in order each with `ind` in front,
and `ind` + the file end marker of `f`, between the results `a`, `b` of the lines before
and after it; lines that are not `import_file` directives are left unchanged and in place. -/
theorem substitution_shape_of_import (parse : Parser) (dirSource : Str) (lvl : Nat)
    (blocks : Blocks) (pre post : List Str) (line ind f : Str) (isParent isChild : Bool)
    (L a b : List Str)
    (hline : regexImportFile line = some (ind, f))
    (hparse : parse (dirSource ++ "/".toList ++ f) (lvl + 1)
      = some (isParent, isChild, L, none))
    (hpre : parseImportFileDirectives parse dirSource pre blocks lvl = some (a, none))
    (hpost : parseImportFileDirectives parse dirSource post blocks lvl = some (b, none)) :
    parseImportFileDirectives parse dirSource (pre ++ [line] ++ post) blocks lvl
        = some (a ++ ([ind ++ fileStart f] ++ L.map (fun l => ind ++ l) ++ [ind ++ fileEnd f])
            ++ b, none)
      ∧ ((∀ l ∈ pre, regexImportFile l = none) → a = pre)
      ∧ ((∀ l ∈ post, regexImportFile l = none) → b = post) := by
  unfold parseImportFileDirectives at *
  refine ⟨?_, ?_, ?_⟩
  · rw [importLoop_expand parse dirSource lvl pre post line ind f isParent isChild L a b hline
      hparse hpre hpost]
    simp
  · intro h
    rw [importLoop_plain parse dirSource lvl pre [] h] at hpre
    simpa using hpre.symm
  · intro h
    rw [importLoop_plain parse dirSource lvl post [] h] at hpost
    simpa using hpost.symm

theorem substitution_shape_of_import_witness :
    parseImportFileDirectives (parseTemplate importFs "src".toList 1) "src".toList
        (["<div>".toList] ++ ["  \x7b\x7b staplegun import_file c.html \x7d\x7d".toList]
          ++ ["</div>".toList]) [] 1
        = some (["<div>".toList] ++ (["  ".toList ++ fileStart "c.html".toList]
            ++ [" \x7b\x7b staplegun insert_block x \x7d\x7d".toList].map
                (fun l => "  ".toList ++ l)
            ++ ["  ".toList ++ fileEnd "c.html".toList]) ++ ["</div>".toList], none)
      ∧ ((∀ l ∈ ["<div>".toList], regexImportFile l = none) → ["<div>".toList] = ["<div>".toList])
      ∧ ((∀ l ∈ ["</div>".toList], regexImportFile l = none)
          → ["</div>".toList] = ["</div>".toList]) :=
  substitution_shape_of_import (parseTemplate importFs "src".toList 1) "src".toList 1 []
    ["<div>".toList] ["</div>".toList]
    "  \x7b\x7b staplegun import_file c.html \x7d\x7d".toList "  ".toList "c.html".toList
    false true [" \x7b\x7b staplegun insert_block x \x7d\x7d".toList]
    ["<div>".toList] ["</div>".toList]
    (by decide) (by decide) (by decide) (by decide)

theorem stringsSplit_ne_nil (text : Str) : stringsSplit text ≠ [] := by
  cases text with
  | nil => simp [stringsSplit]
  | cons c cs =>
    by_cases h : c = '\n'
    · simp [stringsSplit, h]
    · cases hs : stringsSplit cs <;> simp [stringsSplit, h, hs]

/-- A text without a newline is a single line. -/
theorem stringsSplit_no_newline (text : Str) (h : '\n' ∉ text) : stringsSplit text = [text] := by
  induction text with
  | nil => rfl
  | cons c cs ih =>
    have hc : c ≠ '\n' := fun hc => h (hc ▸ List.mem_cons_self _ _)
    have hcs : '\n' ∉ cs := fun hm => h (List.mem_cons_of_mem _ hm)
    simp [stringsSplit, hc, ih hcs]

/-- The first line of a text ends at its first newline. -/
theorem stringsSplit_line (line rest : Str) (h : '\n' ∉ line) :
    stringsSplit (line ++ '\n' :: rest) = line :: stringsSplit rest := by
  induction line with
  | nil => simp [stringsSplit]
  | cons c cs ih =>
    have hc : c ≠ '\n' := fun hc => h (hc ▸ List.mem_cons_self _ _)
    have hcs : '\n' ∉ cs := fun hm => h (List.mem_cons_of_mem _ hm)
    simp [stringsSplit, hc, ih hcs]

/-- A file whose first line is neither marker gives no flags, no lines and no error. -/
theorem parseTemplate_unmarked (readFile : Str → Except Str Str) (dirSource : Str)
    (fuel : Nat) (path : Str) (lvl : Nat) (text first : Str) (rest : List Str)
    (hread : readFile path = .ok text) (hsplit : stringsSplit text = first :: rest)
    (hp : regexIsParent first = false) (hc : regexIsChild first = false) :
    parseTemplate readFile dirSource (fuel + 1) path lvl = some (false, false, [], none) := by
  simp [parseTemplate, hread, hsplit, hp, hc]

/-- A file of fewer than two lines gives no flags, no lines and no error. -/
theorem parseTemplate_short (readFile : Str → Except Str Str) (dirSource : Str)
    (fuel : Nat) (path : Str) (lvl : Nat) (text : Str)
    (hread : readFile path = .ok text) (hlen : (stringsSplit text).length < 2) :
    parseTemplate readFile dirSource (fuel + 1) path lvl = some (false, false, [], none) := by
  simp [parseTemplate, hread, hlen]

/-- C8 (amended). Classification: for a file of at least two lines (its text contains a
newline) whose first line is the parent marker and whose remaining lines pass the three
passes, `parseTemplate` returns `isParent = true`, `isChild = false` and the resolved
lines; likewise with the child marker it returns `isParent = false`, `isChild = true`; and
a file whose first line is neither marker gives `(false, false, [])` with no error. -/
theorem classification (readFile : Str → Except Str Str) (dirSource path text first : Str)
    (rest : List Str) (fuel lvl : Nat)
    (hread : readFile path = .ok text) (hsplit : stringsSplit text = first :: rest) :
    (rest ≠ [] → regexIsParent first = true → ∀ blocks res ls1 ls2,
        extractBlocks rest lvl = (blocks, res, none) →
        parseImportFileDirectives (parseTemplate readFile dirSource fuel) dirSource res blocks
          lvl = some (ls1, none) →
        parseInsertBlockDirectives ls1 blocks false lvl = (ls2, none) →
        parseTemplate readFile dirSource (fuel + 1) path lvl = some (true, false, ls2, none))
      ∧ (rest ≠ [] → regexIsChild first = true → ∀ blocks res ls1 ls2,
        extractBlocks rest lvl = (blocks, res, none) →
        parseImportFileDirectives (parseTemplate readFile dirSource fuel) dirSource res blocks
          lvl = some (ls1, none) →
        parseInsertBlockDirectives ls1 blocks true lvl = (ls2, none) →
        parseTemplate readFile dirSource (fuel + 1) path lvl = some (false, true, ls2, none))
      ∧ (regexIsParent first = false → regexIsChild first = false →
        parseTemplate readFile dirSource (fuel + 1) path lvl = some (false, false, [], none)) := by
  refine ⟨?_, ?_, ?_⟩
  · intro hrest hp blocks res ls1 ls2 hx hm hs
    rw [parseTemplate_marked readFile dirSource fuel path lvl text first rest hread hsplit
      hrest (Or.inl hp), hx]
    simp only [hm, regexIsParent_not_child hp, hs, hp]
  · intro hrest hc blocks res ls1 ls2 hx hm hs
    rw [parseTemplate_marked readFile dirSource fuel path lvl text first rest hread hsplit
      hrest (Or.inr hc), hx]
    simp only [hm, regexIsChild_not_parent hc, hs, hc]
  · intro hp hc
    exact parseTemplate_unmarked readFile dirSource fuel path lvl text first rest hread hsplit
      hp hc

theorem classification_witness :
    parseTemplate (fun _ => .ok plainParentDoc) "src".toList 1 "src/a.html".toList 1
      = some (true, false, ["<p>".toList, "</p>".toList], none) :=
  (classification (fun _ => .ok plainParentDoc) "src".toList "src/a.html".toList
    plainParentDoc "  \x7b\x7b staplegun parent \x7d\x7d ".toList
    ["<p>".toList, "</p>".toList] 0 1 rfl (by decide)).1 (by decide) (by decide)
    [] ["<p>".toList, "</p>".toList] ["<p>".toList, "</p>".toList]
    ["<p>".toList, "</p>".toList] (by decide) (by decide) (by decide)

/-- C8, counterexample: a file that holds the parent marker and no newline.  Its first
line is the parent marker, nothing remains to be parsed, and `parseTemplate` returns
`isParent = false`. -/
theorem classification_counterexample :
    regexIsParent ((stringsSplit markerOnlyDoc).headD []) = true
      ∧ (stringsSplit markerOnlyDoc).tail = []
      ∧ parseTemplate (fun _ => .ok markerOnlyDoc) "src".toList 1 "src/a.html".toList 1
          = some (false, false, [], none) := by
  refine ⟨by decide, by decide, by decide⟩

/-- C9 (amended). A file without a newline character (the empty file, or a single line
that is not terminated) yields `(false, false, [])` with no error whatever it contains;
so does a single line followed by a newline when the line is neither marker. -/
theorem short_file_ignored (readFile : Str → Except Str Str) (dirSource path text : Str)
    (fuel lvl : Nat) (hread : readFile path = .ok text) :
    ('\n' ∉ text →
        parseTemplate readFile dirSource (fuel + 1) path lvl = some (false, false, [], none))
      ∧ ∀ line, text = line ++ ['\n'] → '\n' ∉ line →
          regexIsParent line = false → regexIsChild line = false →
          parseTemplate readFile dirSource (fuel + 1) path lvl
            = some (false, false, [], none) := by
  constructor
  · intro h
    apply parseTemplate_short readFile dirSource fuel path lvl text hread
    rw [stringsSplit_no_newline text h]
    simp
  · intro line htext hline hp hc
    have hs : stringsSplit text = line :: [[]] := by
      rw [htext, stringsSplit_line line [] hline]
      rfl
    exact parseTemplate_unmarked readFile dirSource fuel path lvl text line _ hread hs hp hc

theorem short_file_ignored_witness :
    parseTemplate (fun _ => .ok markerOnlyDoc) "src".toList 1 "src/a.html".toList 1
      = some (false, false, [], none) :=
  (short_file_ignored (fun _ => .ok markerOnlyDoc) "src".toList "src/a.html".toList
    markerOnlyDoc 0 1 rfl).1 (by decide)

/-- C9, counterexample: a file that is the parent marker followed by a terminating
newline is classified parent and returns one (empty) line. -/
theorem short_file_ignored_counterexample :
    parseTemplate (fun _ => .ok markerLineDoc) "src".toList 1 "src/a.html".toList 1
      = some (true, false, [[]], none) := by
  decide

/-- Outside a block, a whole block definition is moved into the block map. -/
theorem extractLoop_define (d e n : Str) (body rest : List Str) (blocks : Blocks)
    (cl out : List Str)
    (hd : regexDefineBlock d = some n) (he : regexEnd e = true)
    (hbody : ∀ l ∈ body, regexDefineBlock l = none ∧ regexEnd l = false) :
    extractBlocksLoop ([d] ++ body ++ [e] ++ rest) blocks [] cl out
      = extractBlocksLoop rest (Blocks.set blocks n body) [] [] out := by
  have hn : n ≠ [] := regexDefineBlock_ne_nil hd
  have hed : regexDefineBlock e = none := regexEnd_not_define he
  simp only [List.append_assoc, List.singleton_append, List.cons_append, List.nil_append,
    extractBlocksLoop, hd]
  simp only [ne_eq, not_true_eq_false, if_false, List.append_eq, List.nil_append]
  rw [List.append_assoc, extractLoop_capture body _ _ _ _ _ hn hbody]
  simp only [List.singleton_append, extractBlocksLoop, hed, he, if_true, hn, if_false,
    List.append_eq, List.nil_append]

theorem Blocks.set_set (blocks : Blocks) (n : Str) (b1 b2 : List Str) :
    Blocks.set (Blocks.set blocks n b1) n b2 = Blocks.set blocks n b2 := by
  simp [Blocks.set, List.filter_filter]

theorem Blocks.get_set (blocks : Blocks) (n : Str) (b : List Str) :
    Blocks.get (Blocks.set blocks n b) n = some b := by
  simp [Blocks.set, Blocks.get]

/-- Two definitions of the same block with lines around them: the second body is kept. -/
theorem extractBlocks_redefine (n d1 e1 d2 e2 : Str) (b1 b2 pre mid post : List Str)
    (lvl : Nat)
    (hd1 : regexDefineBlock d1 = some n) (he1 : regexEnd e1 = true)
    (hd2 : regexDefineBlock d2 = some n) (he2 : regexEnd e2 = true)
    (hb1 : ∀ l ∈ b1, regexDefineBlock l = none ∧ regexEnd l = false)
    (hb2 : ∀ l ∈ b2, regexDefineBlock l = none ∧ regexEnd l = false)
    (hpre : ∀ l ∈ pre, regexDefineBlock l = none ∧ regexEnd l = false)
    (hmid : ∀ l ∈ mid, regexDefineBlock l = none ∧ regexEnd l = false)
    (hpost : ∀ l ∈ post, regexDefineBlock l = none ∧ regexEnd l = false) :
    extractBlocks (pre ++ ([d1] ++ b1 ++ [e1] ++ (mid ++ ([d2] ++ b2 ++ [e2] ++ post)))) lvl
      = ([(n, b2)], pre ++ mid ++ post, none) := by
  unfold extractBlocks
  rw [extractLoop_plain pre _ _ _ _ hpre, extractLoop_define d1 e1 n b1 _ _ _ _ hd1 he1 hb1,
    extractLoop_plain mid _ _ _ _ hmid, extractLoop_define d2 e2 n b2 _ _ _ _ hd2 he2 hb2]
  have := extractLoop_plain post [] (Blocks.set (Blocks.set [] n b1) n b2) []
    ([] ++ pre ++ mid) hpost
  rw [List.append_nil] at this
  rw [this, Blocks.set_set]
  simp [extractBlocksLoop, Blocks.set]

/-- C18 (amended). Redefining a block after it was closed is not an error and the last
definition wins: `extractBlocks` on `[define_block n] ++ b1 ++ [end] ++ [define_block n] ++
b2 ++ [end]` (no `define_block` / `end` line in `b1`, `b2`) returns no error, the map with
the single entry `n ↦ b2`, and an empty residual; and in a document with an `insert_block n`
line before, between and after the two definitions each of the three lines expands to
`b2` between the block markers. -/
theorem redefinition_last_wins (n d1 e1 d2 e2 : Str) (b1 b2 : List Str) (lvl : Nat)
    (hd1 : regexDefineBlock d1 = some n) (he1 : regexEnd e1 = true)
    (hd2 : regexDefineBlock d2 = some n) (he2 : regexEnd e2 = true)
    (hb1 : ∀ l ∈ b1, regexDefineBlock l = none ∧ regexEnd l = false)
    (hb2 : ∀ l ∈ b2, regexDefineBlock l = none ∧ regexEnd l = false) :
    extractBlocks ([d1] ++ b1 ++ [e1] ++ [d2] ++ b2 ++ [e2]) lvl = ([(n, b2)], [], none)
      ∧ ∀ (readFile : Str → Except Str Str) (dirSource path text marker : Str) (fuel : Nat)
          (i0 i1 i2 ind0 ind1 ind2 : Str),
          readFile path = .ok text →
          stringsSplit text
            = marker :: ([i0] ++ [d1] ++ b1 ++ [e1] ++ [i1] ++ [d2] ++ b2 ++ [e2] ++ [i2]) →
          (regexIsParent marker = true ∨ regexIsChild marker = true) →
          regexInsertBlock i0 = some (ind0, n) → regexInsertBlock i1 = some (ind1, n) →
          regexInsertBlock i2 = some (ind2, n) →
          parseTemplate readFile dirSource (fuel + 1) path lvl
            = some (regexIsParent marker, regexIsChild marker,
                ([ind0 ++ blockStart n] ++ b2.map (fun l => ind0 ++ l) ++ [ind0 ++ blockEnd n])
                  ++ ([ind1 ++ blockStart n] ++ b2.map (fun l => ind1 ++ l)
                    ++ [ind1 ++ blockEnd n])
                  ++ ([ind2 ++ blockStart n] ++ b2.map (fun l => ind2 ++ l)
                    ++ [ind2 ++ blockEnd n]), none) := by
  constructor
  · have := extractBlocks_redefine n d1 e1 d2 e2 b1 b2 [] [] [] lvl hd1 he1 hd2 he2 hb1 hb2
      (by simp) (by simp) (by simp)
    simpa [List.append_assoc] using this
  · intro readFile dirSource path text marker fuel i0 i1 i2 ind0 ind1 ind2 hread hsplit hmark
      hi0 hi1 hi2
    have hde : ∀ (i ind : Str), regexInsertBlock i = some (ind, n) →
        ∀ l ∈ [i], regexDefineBlock l = none ∧ regexEnd l = false := by
      intro i ind hi l hl
      rw [List.mem_singleton] at hl
      subst hl
      exact ⟨regexInsertBlock_not_define hi, regexInsertBlock_not_end hi⟩
    have hx := extractBlocks_redefine n d1 e1 d2 e2 b1 b2 [i0] [i1] [i2] lvl hd1 he1 hd2 he2
      hb1 hb2 (hde i0 ind0 hi0) (hde i1 ind1 hi1) (hde i2 ind2 hi2)
    have hlist : [i0] ++ [d1] ++ b1 ++ [e1] ++ [i1] ++ [d2] ++ b2 ++ [e2] ++ [i2]
        = [i0] ++ ([d1] ++ b1 ++ [e1] ++ ([i1] ++ ([d2] ++ b2 ++ [e2] ++ [i2]))) := by
      simp [List.append_assoc]
    rw [hlist] at hsplit
    have hm : parseImportFileDirectives (parseTemplate readFile dirSource fuel) dirSource
        ([i0] ++ [i1] ++ [i2]) [(n, b2)] lvl = some ([i0] ++ [i1] ++ [i2], none) := by
      unfold parseImportFileDirectives
      rw [importLoop_plain]
      · simp
      · intro l hl
        simp only [List.mem_append, List.mem_singleton] at hl
        rcases hl with (hl | hl) | hl <;> subst hl
        · exact regexInsertBlock_not_import hi0
        · exact regexInsertBlock_not_import hi1
        · exact regexInsertBlock_not_import hi2
    have hs : ∀ ign, parseInsertBlockDirectives ([i0] ++ [i1] ++ [i2]) [(n, b2)] ign lvl
        = (([ind0 ++ blockStart n] ++ b2.map (fun l => ind0 ++ l) ++ [ind0 ++ blockEnd n])
            ++ ([ind1 ++ blockStart n] ++ b2.map (fun l => ind1 ++ l) ++ [ind1 ++ blockEnd n])
            ++ ([ind2 ++ blockStart n] ++ b2.map (fun l => ind2 ++ l) ++ [ind2 ++ blockEnd n]),
          none) := by
      intro ign
      simp [parseInsertBlockDirectives, parseInsertBlockDirectivesLoop, hi0, hi1, hi2,
        Blocks.get, appendIndented_eq]
    rw [parseTemplate_marked readFile dirSource fuel path lvl text marker _ hread hsplit
      (by simp) hmark, hx]
    simp only [hm, hs]

theorem redefinition_last_wins_witness :
    parseTemplate (fun _ => .ok redefineInsertDoc) "src".toList 1 "src/r.html".toList 1
      = some (true, false,
          ["<!-- sg:block:start:n -->".toList, "new".toList, "<!-- sg:block:end:n -->".toList,
            " <!-- sg:block:start:n -->".toList, " new".toList,
            " <!-- sg:block:end:n -->".toList,
            "  <!-- sg:block:start:n -->".toList, "  new".toList,
            "  <!-- sg:block:end:n -->".toList], none) :=
  (redefinition_last_wins "n".toList "\x7b\x7b staplegun define_block n \x7d\x7d".toList
    "\x7b\x7b staplegun end \x7d\x7d".toList
    "\x7b\x7b staplegun define_block n \x7d\x7d".toList
    "\x7b\x7b staplegun end \x7d\x7d".toList ["old".toList] ["new".toList] 1
    (by decide) (by decide) (by decide) (by decide) (by decide) (by decide)).2
    (fun _ => .ok redefineInsertDoc) "src".toList "src/r.html".toList redefineInsertDoc
    "\x7b\x7b staplegun parent \x7d\x7d".toList 0
    "\x7b\x7b staplegun insert_block n \x7d\x7d".toList
    " \x7b\x7b staplegun insert_block n \x7d\x7d".toList
    "  \x7b\x7b staplegun insert_block n \x7d\x7d".toList [] " ".toList "  ".toList
    rfl (by decide) (by decide) (by decide) (by decide) (by decide)

/-- C18, counterexample: the second definition of `n` holds an `insert_block n` line (it has
no `define_block` / `end` line).  The map sends `n` to that line, and the parent's output
keeps the line between the markers as it is: this `insert_block n` of the document is not
expanded to the lines of the block. -/
theorem redefinition_last_wins_counterexample :
    (∀ l ∈ ["\x7b\x7b staplegun insert_block n \x7d\x7d".toList],
        regexDefineBlock l = none ∧ regexEnd l = false)
      ∧ extractBlocks (stringsSplit redefineDoc).tail 1
          = ([("n".toList, ["\x7b\x7b staplegun insert_block n \x7d\x7d".toList])],
              ["\x7b\x7b staplegun insert_block n \x7d\x7d".toList], none)
      ∧ parseTemplate (fun _ => .ok redefineDoc) "src".toList 1 "src/r.html".toList 1
          = some (true, false,
              ["<!-- sg:block:start:n -->".toList,
                "\x7b\x7b staplegun insert_block n \x7d\x7d".toList,
                "<!-- sg:block:end:n -->".toList], none)
      ∧ regexInsertBlock "\x7b\x7b staplegun insert_block n \x7d\x7d".toList
          = some ([], "n".toList) := by
  refine ⟨by decide, by decide, by decide, by decide⟩

theorem stringsJoin_cons_cons (c : Char) (l : Str) (ls : List Str) (sep : Str) :
    stringsJoin ((c :: l) :: ls) sep = c :: stringsJoin (l :: ls) sep := by
  cases ls with
  | nil => rfl
  | cons b rest => simp [stringsJoin]

/-- Joining the pieces of a text with newlines gives the text back. -/
theorem stringsJoin_stringsSplit (text : Str) :
    stringsJoin (stringsSplit text) "\n".toList = text := by
  induction text with
  | nil => rfl
  | cons c cs ih =>
    by_cases hc : c = '\n'
    · subst hc
      cases hs : stringsSplit cs with
      | nil => exact absurd hs (stringsSplit_ne_nil cs)
      | cons l ls =>
        rw [hs] at ih
        simp only [stringsSplit, if_true, hs, stringsJoin]
        rw [ih]
        rfl
    · cases hs : stringsSplit cs with
      | nil => exact absurd hs (stringsSplit_ne_nil cs)
      | cons l ls =>
        rw [hs] at ih
        simp only [stringsSplit, hc, if_false, hs]
        rw [stringsJoin_cons_cons, ih]

/-- Without `define_block` and `end` lines nothing is extracted. -/
theorem extractBlocks_plain (ls : List Str) (lvl : Nat)
    (h : ∀ l ∈ ls, regexDefineBlock l = none ∧ regexEnd l = false) :
    extractBlocks ls lvl = ([], ls, none) := by
  unfold extractBlocks
  have := extractLoop_plain ls [] [] [] [] h
  rw [List.append_nil] at this
  rw [this]
  simp [extractBlocksLoop]

/-- C20. Directive-free parent documents are copied verbatim minus the marker line: for a
text `first ++ "\n" ++ tail` whose first line `first` is the parent marker and whose later
lines (the pieces of `tail`) match no directive pattern, `parseTemplate` returns exactly the
later lines, and joining them with `"\n"` (the text `MakeTemplates` writes) gives `tail`, the
text after the first newline, unchanged up to and including a trailing newline. -/
theorem directive_free_parent_copied (readFile : Str → Except Str Str)
    (dirSource path text first tail : Str) (fuel lvl : Nat)
    (hread : readFile path = .ok text) (htext : text = first ++ '\n' :: tail)
    (hfirst : '\n' ∉ first) (hparent : regexIsParent first = true)
    (hplain : ∀ l ∈ stringsSplit tail, matchesDirective l = false) :
    stringsSplit text = first :: stringsSplit tail
      ∧ parseTemplate readFile dirSource (fuel + 1) path lvl
          = some (true, false, stringsSplit tail, none)
      ∧ stringsJoin (stringsSplit tail) "\n".toList = tail := by
  have hsplit : stringsSplit text = first :: stringsSplit tail := by
    rw [htext, stringsSplit_line first tail hfirst]
  refine ⟨hsplit, ?_, stringsJoin_stringsSplit tail⟩
  have hx := extractBlocks_plain (stringsSplit tail) lvl (fun l hl =>
    ⟨(matchesDirective_false (hplain l hl)).1, (matchesDirective_false (hplain l hl)).2.1⟩)
  have hm : parseImportFileDirectives (parseTemplate readFile dirSource fuel) dirSource
      (stringsSplit tail) [] lvl = some (stringsSplit tail, none) := by
    unfold parseImportFileDirectives
    rw [importLoop_plain _ _ _ _ _ (fun l hl => (matchesDirective_false (hplain l hl)).2.2.2)]
    simp
  have hs : parseInsertBlockDirectives (stringsSplit tail) [] false lvl
      = (stringsSplit tail, none) := by
    unfold parseInsertBlockDirectives
    rw [insertLoop_plain _ _ _ _ (fun l hl => (matchesDirective_false (hplain l hl)).2.2.1)]
    simp
  rw [parseTemplate_marked readFile dirSource fuel path lvl text first _ hread hsplit
    (stringsSplit_ne_nil tail) (Or.inl hparent), hx]
  simp only [hm, regexIsParent_not_child hparent, hs, hparent]

theorem directive_free_parent_copied_witness :
    stringsSplit verbatimDoc
        = "\x7b\x7b staplegun parent \x7d\x7d".toList :: stringsSplit "<p>\n  text\n</p>\n".toList
      ∧ parseTemplate (fun _ => .ok verbatimDoc) "src".toList 1 "src/v.html".toList 1
          = some (true, false, stringsSplit "<p>\n  text\n</p>\n".toList, none)
      ∧ stringsJoin (stringsSplit "<p>\n  text\n</p>\n".toList) "\n".toList
          = "<p>\n  text\n</p>\n".toList :=
  directive_free_parent_copied (fun _ => .ok verbatimDoc) "src".toList "src/v.html".toList
    verbatimDoc "\x7b\x7b staplegun parent \x7d\x7d".toList "<p>\n  text\n</p>\n".toList 0 1
    rfl (by decide) (by decide) (by decide) (by decide)

/-- The patterns start with whitespace and `{`, so a line that starts with whitespace and
`<`, as the marker lines do, matches none of them. -/
theorem matchHead_marker {ind : Str} (h : ∀ c ∈ ind, isSpace c = true) (keyword s : Str) :
    matchHead keyword (ind ++ '<' :: s) = none := by
  have hb : directiveBody (ind ++ '<' :: s) = none := by
    unfold directiveBody
    rw [skipSpace_append h]
    have : skipSpace ('<' :: s) = '<' :: s := by
      simp [skipSpace, List.dropWhile, isSpace]
    rw [this]
    simp [stripPrefix]
  unfold matchHead
  rw [hb]

theorem regexInsertBlock_marker {ind : Str} (h : ∀ c ∈ ind, isSpace c = true) (s : Str) :
    regexInsertBlock (ind ++ '<' :: s) = none := by
  unfold regexInsertBlock
  rw [matchHead_marker h]

theorem matchesDirective_marker {ind : Str} (h : ∀ c ∈ ind, isSpace c = true) (s : Str) :
    matchesDirective (ind ++ '<' :: s) = false := by
  unfold matchesDirective regexDefineBlock regexEnd regexInsertBlock regexImportFile
  simp only [matchHead_marker h]
  rfl

/-- The marker lines of an import go through the insertion loop unchanged. -/
theorem insertLoop_file_markers (blocks : Blocks) (ign : Bool) (pre post : List Str)
    (ind f : Str) (mid a b : List Str) (hind : ∀ c ∈ ind, isSpace c = true)
    (hmid : ∀ l ∈ mid, regexInsertBlock l = none)
    (hpre : parseInsertBlockDirectivesLoop blocks ign pre [] = (a, none))
    (hpost : parseInsertBlockDirectivesLoop blocks ign post [] = (b, none)) :
    parseInsertBlockDirectivesLoop blocks ign
        (pre ++ ([ind ++ fileStart f] ++ mid ++ [ind ++ fileEnd f]) ++ post) []
      = (a ++ ([ind ++ fileStart f] ++ mid ++ [ind ++ fileEnd f]) ++ b, none) := by
  have hplain : ∀ l ∈ [ind ++ fileStart f] ++ mid ++ [ind ++ fileEnd f],
      regexInsertBlock l = none := by
    intro l hl
    simp only [List.mem_append, List.mem_singleton] at hl
    rcases hl with (hl | hl) | hl
    · rw [hl]; exact regexInsertBlock_marker hind _
    · exact hmid l hl
    · rw [hl]; exact regexInsertBlock_marker hind _
  rw [List.append_assoc, insertLoop_append, hpre]
  simp only
  rw [insertLoop_append, insertLoop_plain blocks ign _ a hplain]
  simp only
  rw [insertLoop_acc, hpost]

/-- C19. Importing a file that is not a staplegun document silently drops its content: when
the target of an `import_file` line (outside any block) is readable but has fewer than two
lines or a first line that is neither marker, its parse returns no lines and no error,
the import pass replaces the directive by the indented file start marker immediately
followed by the indented file end marker, and the two lines stand so in the document's output, the
lines before and after them resolving to `a` and `b`. -/
theorem import_of_plain_file_dropped (readFile : Str → Except Str Str)
    (dirSource path text marker : Str) (fuel lvl : Nat) (rest : List Str) (blocks : Blocks)
    (pre post : List Str) (imp iind f target : Str) (o1 o2 : List Str)
    (hread : readFile path = .ok text) (hsplit : stringsSplit text = marker :: rest)
    (hmark : regexIsParent marker = true ∨ regexIsChild marker = true)
    (hx : extractBlocks rest lvl = (blocks, pre ++ [imp] ++ post, none))
    (himp : regexImportFile imp = some (iind, f))
    (htarget : readFile (dirSource ++ "/".toList ++ f) = .ok target)
    (hplain : (stringsSplit target).length < 2
      ∨ (regexIsParent ((stringsSplit target).headD []) = false
          ∧ regexIsChild ((stringsSplit target).headD []) = false))
    (h1 : parseImportFileDirectives (parseTemplate readFile dirSource (fuel + 1)) dirSource pre
      blocks lvl = some (o1, none))
    (h2 : parseImportFileDirectives (parseTemplate readFile dirSource (fuel + 1)) dirSource post
      blocks lvl = some (o2, none)) :
    parseTemplate readFile dirSource (fuel + 1) (dirSource ++ "/".toList ++ f) (lvl + 1)
        = some (false, false, [], none)
      ∧ parseImportFileDirectives (parseTemplate readFile dirSource (fuel + 1)) dirSource
          (pre ++ [imp] ++ post) blocks lvl
        = some (o1 ++ [iind ++ fileStart f, iind ++ fileEnd f] ++ o2, none)
      ∧ ∀ a b, parseInsertBlockDirectives o1 blocks (regexIsChild marker) lvl = (a, none) →
          parseInsertBlockDirectives o2 blocks (regexIsChild marker) lvl = (b, none) →
          parseTemplate readFile dirSource (fuel + 2) path lvl
            = some (regexIsParent marker, regexIsChild marker,
                a ++ [iind ++ fileStart f, iind ++ fileEnd f] ++ b, none) := by
  have ht : parseTemplate readFile dirSource (fuel + 1) (dirSource ++ "/".toList ++ f) (lvl + 1)
      = some (false, false, [], none) := by
    rcases hplain with hlen | ⟨hp, hc⟩
    · exact parseTemplate_short readFile dirSource fuel _ _ target htarget hlen
    · cases hs : stringsSplit target with
      | nil => exact absurd hs (stringsSplit_ne_nil target)
      | cons first more =>
        rw [hs] at hp hc
        exact parseTemplate_unmarked readFile dirSource fuel _ _ target first more htarget hs
          hp hc
  have hrest : rest ≠ [] := by
    intro h
    rw [h] at hx
    simp [extractBlocks, extractBlocksLoop] at hx
  have hm : parseImportFileDirectives (parseTemplate readFile dirSource (fuel + 1)) dirSource
      (pre ++ [imp] ++ post) blocks lvl
      = some (o1 ++ [iind ++ fileStart f, iind ++ fileEnd f] ++ o2, none) := by
    unfold parseImportFileDirectives at h1 h2 ⊢
    rw [importLoop_expand _ dirSource lvl pre post imp iind f false false [] o1 o2 himp ht h1
      h2]
    simp
  refine ⟨ht, hm, ?_⟩
  intro a b ha hb
  rw [parseTemplate_marked readFile dirSource (fuel + 1) path lvl text marker rest hread hsplit
    hrest hmark, hx]
  simp only [hm]
  unfold parseInsertBlockDirectives at ha hb ⊢
  have := insertLoop_file_markers blocks (regexIsChild marker) o1 o2 iind f [] a b
    (regexImportFile_indent_isSpace himp) (by simp) ha hb
  simp only [List.append_nil, List.singleton_append] at this
  rw [this]

theorem import_of_plain_file_dropped_witness :
    parseTemplate plainImportFs "src".toList 2 "src/p.html".toList 1
      = some (true, false,
          ["<div>".toList, "  <!-- sg:file:start:notes.txt -->".toList,
            "  <!-- sg:file:end:notes.txt -->".toList, "</div>".toList], none) :=
  (import_of_plain_file_dropped plainImportFs "src".toList "src/p.html".toList
    ("\x7b\x7b staplegun parent \x7d\x7d\n<div>\n"
      ++ "  \x7b\x7b staplegun import_file notes.txt \x7d\x7d\n</div>").toList
    "\x7b\x7b staplegun parent \x7d\x7d".toList 0 1
    ["<div>".toList, "  \x7b\x7b staplegun import_file notes.txt \x7d\x7d".toList,
      "</div>".toList] []
    ["<div>".toList] ["</div>".toList]
    "  \x7b\x7b staplegun import_file notes.txt \x7d\x7d".toList "  ".toList
    "notes.txt".toList "first note\nsecond note\n".toList ["<div>".toList] ["</div>".toList]
    rfl (by decide) (by decide) (by decide) (by decide) rfl (by decide) (by decide)
    (by decide)).2.2 ["<div>".toList] ["</div>".toList] (by decide) (by decide)

/-- The import loop stops at an `import_file` line whose file does not parse. -/
theorem importLoop_error (parse : Parser) (dir : Str) (lvl : Nat) (pre post : List Str)
    (line ind f : Str) (p c : Bool) (L a : List Str) (e : Str)
    (hline : regexImportFile line = some (ind, f))
    (hparse : parse (dir ++ "/".toList ++ f) (lvl + 1) = some (p, c, L, some e))
    (hpre : parseImportFileDirectivesLoop parse dir lvl pre [] = some (a, none)) :
    parseImportFileDirectivesLoop parse dir lvl (pre ++ [line] ++ post) []
      = some ([], some e) := by
  rw [List.append_assoc, importLoop_append, hpre]
  simp only [List.singleton_append, parseImportFileDirectivesLoop, hline, hparse]

/-- The import loop runs out of fuel at an `import_file` line whose file does. -/
theorem importLoop_out_of_fuel (parse : Parser) (dir : Str) (lvl : Nat) (pre post : List Str)
    (line ind f : Str)
    (hline : regexImportFile line = some (ind, f))
    (hparse : parse (dir ++ "/".toList ++ f) (lvl + 1) = none)
    (hpre : ∀ o e, parseImportFileDirectivesLoop parse dir lvl pre [] ≠ some (o, some e)) :
    parseImportFileDirectivesLoop parse dir lvl (pre ++ [line] ++ post) [] = none := by
  rw [List.append_assoc, importLoop_append]
  rcases h : parseImportFileDirectivesLoop parse dir lvl pre [] with _ | ⟨o, _ | e⟩
  · rfl
  · simp only [List.singleton_append, parseImportFileDirectivesLoop, hline, hparse]
  · exact absurd h (hpre o e)

/-- Next to an error `parseTemplate` returns no flags and no lines. -/
theorem parseTemplate_error_shape (readFile : Str → Except Str Str) (dirSource : Str)
    (fuel : Nat) (path : Str) (lvl : Nat) (p c : Bool) (ls : List Str) (e : Str)
    (h : parseTemplate readFile dirSource fuel path lvl = some (p, c, ls, some e)) :
    p = false ∧ c = false ∧ ls = [] := by
  cases fuel with
  | zero => simp [parseTemplate] at h
  | succ fuel =>
    unfold parseTemplate at h
    split at h
    · simp only [Option.some.injEq, Prod.mk.injEq] at h
      exact ⟨h.1.symm, h.2.1.symm, h.2.2.1.symm⟩
    · simp only at h
      split at h
      · simp at h
      · split at h
        · simp at h
        · split at h
          · simp only [Option.some.injEq, Prod.mk.injEq] at h
            exact ⟨h.1.symm, h.2.1.symm, h.2.2.1.symm⟩
          · split at h
            · simp at h
            · simp only [Option.some.injEq, Prod.mk.injEq] at h
              exact ⟨h.1.symm, h.2.1.symm, h.2.2.1.symm⟩
            · split at h
              · simp only [Option.some.injEq, Prod.mk.injEq] at h
                exact ⟨h.1.symm, h.2.1.symm, h.2.2.1.symm⟩
              · simp at h

/-- C15 (amended). Fail-fast import errors: for a parent or child document whose block
extraction succeeds, with an `import_file` line outside any block, the lines before it
being imported without error: if the recursive parse of the referenced
file returns an error (whatever its depth), or the file cannot be read, the parse of the
document returns that same error with `(false, false, [])`: none of the lines resolved
before the directive is returned.  Every error of `parseTemplate` comes with
`(false, false, [])`. -/
theorem import_error_fail_fast (readFile : Str → Except Str Str)
    (dirSource path text marker : Str) (fuel lvl : Nat) (rest : List Str) (blocks : Blocks)
    (pre post : List Str) (imp iind f : Str) (o1 : List Str)
    (hread : readFile path = .ok text) (hsplit : stringsSplit text = marker :: rest)
    (hmark : regexIsParent marker = true ∨ regexIsChild marker = true)
    (hx : extractBlocks rest lvl = (blocks, pre ++ [imp] ++ post, none))
    (himp : regexImportFile imp = some (iind, f))
    (h1 : parseImportFileDirectives (parseTemplate readFile dirSource fuel) dirSource pre
      blocks lvl = some (o1, none)) :
    (∀ p c ls e,
        parseTemplate readFile dirSource fuel (dirSource ++ "/".toList ++ f) (lvl + 1)
          = some (p, c, ls, some e) →
        parseTemplate readFile dirSource (fuel + 1) path lvl = some (false, false, [], some e))
      ∧ (∀ e, readFile (dirSource ++ "/".toList ++ f) = .error e → 0 < fuel →
        parseTemplate readFile dirSource (fuel + 1) path lvl = some (false, false, [], some e))
      ∧ ∀ fuel1 path1 lvl1 p c ls e,
          parseTemplate readFile dirSource fuel1 path1 lvl1 = some (p, c, ls, some e) →
          p = false ∧ c = false ∧ ls = [] := by
  have hrest : rest ≠ [] := by
    intro h
    rw [h] at hx
    simp [extractBlocks, extractBlocksLoop] at hx
  have hfail : ∀ p c ls e,
      parseTemplate readFile dirSource fuel (dirSource ++ "/".toList ++ f) (lvl + 1)
        = some (p, c, ls, some e) →
      parseTemplate readFile dirSource (fuel + 1) path lvl
        = some (false, false, [], some e) := by
    intro p c ls e hfile
    unfold parseImportFileDirectives at h1
    have hm := importLoop_error (parseTemplate readFile dirSource fuel) dirSource lvl pre post
      imp iind f p c ls o1 e himp hfile h1
    rw [parseTemplate_marked readFile dirSource fuel path lvl text marker rest hread hsplit
      hrest hmark, hx]
    simp only [parseImportFileDirectives, hm]
  refine ⟨hfail, ?_, ?_⟩
  · intro e herr hfuel
    obtain ⟨fuel0, rfl⟩ : ∃ k, fuel = k + 1 := ⟨fuel - 1, by omega⟩
    apply hfail false false [] e
    simp only [parseTemplate, herr]
  · intro fuel1 path1 lvl1 p c ls e h
    exact parseTemplate_error_shape readFile dirSource fuel1 path1 lvl1 p c ls e h

theorem import_error_fail_fast_witness :
    parseTemplate plainImportFs "src".toList 2 "src/broken.html".toList 1
      = some (false, false, [], some "open: no such file or directory".toList) :=
  (import_error_fail_fast plainImportFs "src".toList "src/broken.html".toList
    ("\x7b\x7b staplegun parent \x7d\x7d\n<div>\n"
      ++ "  \x7b\x7b staplegun import_file gone.html \x7d\x7d\n</div>").toList
    "\x7b\x7b staplegun parent \x7d\x7d".toList 1 1
    ["<div>".toList, "  \x7b\x7b staplegun import_file gone.html \x7d\x7d".toList,
      "</div>".toList] []
    ["<div>".toList] ["</div>".toList]
    "  \x7b\x7b staplegun import_file gone.html \x7d\x7d".toList "  ".toList
    "gone.html".toList ["<div>".toList]
    rfl (by decide) (by decide) (by decide) (by decide) (by decide)).2.1
    "open: no such file or directory".toList rfl (by decide)

/-- C14 (amended). Cyclic imports never return: for a parent or child document whose lines
outside block definitions hold an `import_file` line that names the document itself (the path
`dirSource + "/" + f` reads the same text), the block extraction succeeding and no import
before that line returning an error, `parseTemplate` returns nothing for any amount of
fuel: there is no recursion limit and no circular-import error. -/
theorem cyclic_import_never_returns (readFile : Str → Except Str Str)
    (dirSource path text marker : Str) (lvl0 : Nat) (rest : List Str) (blocks : Blocks)
    (pre post : List Str) (imp iind f : Str)
    (hread : readFile path = .ok text)
    (hself : readFile (dirSource ++ "/".toList ++ f) = .ok text)
    (hsplit : stringsSplit text = marker :: rest)
    (hmark : regexIsParent marker = true ∨ regexIsChild marker = true)
    (hx : extractBlocks rest lvl0 = (blocks, pre ++ [imp] ++ post, none))
    (himp : regexImportFile imp = some (iind, f))
    (hpre : ∀ fuel lvl o e,
      parseImportFileDirectives (parseTemplate readFile dirSource fuel) dirSource pre blocks lvl
        ≠ some (o, some e)) :
    ∀ fuel lvl, parseTemplate readFile dirSource fuel path lvl = none := by
  have hrest : rest ≠ [] := by
    intro h
    rw [h] at hx
    simp [extractBlocks, extractBlocksLoop] at hx
  have hall : ∀ fuel q lvl, readFile q = .ok text →
      parseTemplate readFile dirSource fuel q lvl = none := by
    intro fuel
    induction fuel with
    | zero => intro q lvl _; rfl
    | succ fuel ih =>
      intro q lvl hq
      have hx1 : extractBlocks rest lvl = (blocks, pre ++ [imp] ++ post, none) := hx
      have hm := importLoop_out_of_fuel (parseTemplate readFile dirSource fuel) dirSource lvl
        pre post imp iind f himp (ih _ (lvl + 1) hself) (hpre fuel lvl)
      rw [parseTemplate_marked readFile dirSource fuel q lvl text marker rest hq hsplit hrest
        hmark, hx1]
      simp only [parseImportFileDirectives, hm]
  intro fuel lvl
  exact hall fuel path lvl hread

theorem cyclic_import_never_returns_witness :
    parseTemplate plainImportFs "src".toList 1000 "src/loop.html".toList 1 = none :=
  cyclic_import_never_returns plainImportFs "src".toList "src/loop.html".toList
    ("\x7b\x7b staplegun child \x7d\x7d\n<div>\n"
      ++ "  \x7b\x7b staplegun import_file loop.html \x7d\x7d\n</div>").toList
    "\x7b\x7b staplegun child \x7d\x7d".toList 1
    ["<div>".toList, "  \x7b\x7b staplegun import_file loop.html \x7d\x7d".toList,
      "</div>".toList] []
    ["<div>".toList] ["</div>".toList]
    "  \x7b\x7b staplegun import_file loop.html \x7d\x7d".toList "  ".toList
    "loop.html".toList
    rfl rfl (by decide) (by decide) (by decide) (by decide)
    (by
      intro fuel lvl o e
      have : parseImportFileDirectives (parseTemplate plainImportFs "src".toList fuel)
          "src".toList ["<div>".toList] [] lvl = some (["<div>".toList], none) := by
        unfold parseImportFileDirectives
        rw [importLoop_plain _ _ _ _ _ (by decide)]
        rfl
      rw [this]
      simp) 1000 1

/-- The import loop calls its parser only on paths `dir + "/" + q`; the indent level plays
no part. -/
theorem importLoop_congr (parse1 parse2 : Parser) (dir : Str) (l1 l2 : Nat)
    (h : ∀ q k1 k2, parse1 (dir ++ "/".toList ++ q) k1 = parse2 (dir ++ "/".toList ++ q) k2)
    (ls acc : List Str) :
    parseImportFileDirectivesLoop parse1 dir l1 ls acc
      = parseImportFileDirectivesLoop parse2 dir l2 ls acc := by
  induction ls generalizing acc with
  | nil => rfl
  | cons line rest ih =>
    simp only [parseImportFileDirectivesLoop]
    cases hr : regexImportFile line with
    | none => exact ih _
    | some r =>
      obtain ⟨ind, f⟩ := r
      dsimp only
      rw [h f (l1 + 1) (l2 + 1)]
      cases parse2 (dir ++ "/".toList ++ f) (l2 + 1) with
      | none => rfl
      | some res =>
        obtain ⟨p, c, ls, err⟩ := res
        cases err with
        | none => exact ih _
        | some e => rfl

/-- The result of `parseTemplate` depends on the file system through the text of the
document and through the texts at the paths `dirSource + "/" + q` only; neither the path of
the document nor the indent level plays a part. -/
theorem parseTemplate_congr (rf1 rf2 : Str → Except Str Str) (dirSource : Str)
    (hroot : ∀ q, rf1 (dirSource ++ "/".toList ++ q) = rf2 (dirSource ++ "/".toList ++ q))
    (fuel : Nat) :
    ∀ p1 p2 l1 l2, rf1 p1 = rf2 p2 →
      parseTemplate rf1 dirSource fuel p1 l1 = parseTemplate rf2 dirSource fuel p2 l2 := by
  induction fuel with
  | zero => intro p1 p2 l1 l2 _; rfl
  | succ fuel ih =>
    intro p1 p2 l1 l2 hp
    have e1 : ∀ ls, extractBlocks ls l1 = extractBlocks ls l2 := fun _ => rfl
    have e2 : ∀ ls b, parseImportFileDirectives (parseTemplate rf1 dirSource fuel) dirSource
        ls b l1 = parseImportFileDirectives (parseTemplate rf2 dirSource fuel) dirSource
        ls b l2 := by
      intro ls b
      unfold parseImportFileDirectives
      exact importLoop_congr _ _ dirSource l1 l2 (fun q k1 k2 => ih _ _ k1 k2 (hroot q)) ls []
    have e3 : ∀ ls b i, parseInsertBlockDirectives ls b i l1
        = parseInsertBlockDirectives ls b i l2 := fun _ _ _ => rfl
    simp only [parseTemplate, hp, e1, e2, e3]


theorem osWriteFile_ok {fs fs1 : FileSystem} {path data : Str}
    (h : osWriteFile fs path data = .ok fs1) :
    fs1 = fun q => if q = path then some (Node.file data) else fs q := by
  unfold osWriteFile at h
  split at h
  · simp at h
  · simp only [Except.ok.injEq] at h
    exact h.symm

/-- One round of the loop of `MakeTemplates` that ends without error either writes nothing,
or writes the resolved lines of a file that is not a directory and was classified parent. -/
theorem MakeTemplatesLoop_cons (ds dd : Str) (fuel : Nat) (f : Str) (rest : List Str)
    (s s' : FileSystem)
    (h : MakeTemplatesLoop ds dd fuel (f :: rest) s = some (s', none)) :
    MakeTemplatesLoop ds dd fuel rest s = some (s', none)
      ∨ (isDirectory s f = false
          ∧ ∃ lines, parseTemplate (osReadFile s) ds fuel f 1 = some (true, false, lines, none)
            ∧ MakeTemplatesLoop ds dd fuel rest
                (fun q => if q = dd ++ "/".toList ++ filepathBase f
                  then some (Node.file (stringsJoin lines "\n".toList)) else s q)
              = some (s', none)) := by
  unfold MakeTemplatesLoop at h
  by_cases hdir : isDirectory s f = true
  · left
    simpa only [hdir, if_true] using h
  · simp only [hdir, Bool.false_eq_true, if_false] at h
    rcases hp : parseTemplate (osReadFile s) ds fuel f 1 with _ | ⟨p, c, ls, _ | e⟩
    · rw [hp] at h; simp at h
    · rw [hp] at h
      simp only at h
      cases c with
      | true => left; simpa using h
      | false =>
        cases p with
        | false => left; simpa using h
        | true =>
          right
          simp only [Bool.false_eq_true, if_false, Bool.not_true, Bool.not_false,
            Bool.and_true, if_true] at h
          cases hw : osWriteFile s (dd ++ "/".toList ++ filepathBase f)
              (stringsJoin ls "\n".toList) with
          | error e => rw [hw] at h; simp at h
          | ok s1 =>
            rw [hw] at h
            simp only at h
            rw [osWriteFile_ok hw] at h
            exact ⟨by simpa using hdir, ls, rfl, h⟩
    · rw [hp] at h; simp at h

/-- A run of the loop leaves alone every path that is not a destination entry of one of its
source files. -/
theorem MakeTemplatesLoop_frame (ds dd : Str) (fuel : Nat) (files : List Str)
    (s s' : FileSystem) (h : MakeTemplatesLoop ds dd fuel files s = some (s', none)) (q : Str)
    (hq : ∀ g ∈ files, q ≠ dd ++ "/".toList ++ filepathBase g) : s' q = s q := by
  induction files generalizing s with
  | nil =>
    simp only [MakeTemplatesLoop, Option.some.injEq, Prod.mk.injEq, and_true] at h
    rw [h]
  | cons f rest ih =>
    have hrest : ∀ g ∈ rest, q ≠ dd ++ "/".toList ++ filepathBase g :=
      fun g hg => hq g (List.mem_cons_of_mem _ hg)
    rcases MakeTemplatesLoop_cons ds dd fuel f rest s s' h with h1 | ⟨_, lines, _, h1⟩
    · exact ih s h1 hrest
    · rw [ih _ h1 hrest]
      rw [if_neg (hq f (List.mem_cons_self _ _))]

/-- Every path changed by a run of the loop is the destination entry of a source file that
was not a directory and was classified parent when its turn came, and holds the resolved
lines of that file joined by newlines. -/
theorem MakeTemplatesLoop_changed (ds dd : Str) (fuel : Nat) (files : List Str)
    (s s' : FileSystem) (h : MakeTemplatesLoop ds dd fuel files s = some (s', none)) (q : Str)
    (hq : s' q ≠ s q) :
    ∃ f ∈ files, ∃ t lines,
      (∀ r, (∀ g ∈ files, r ≠ dd ++ "/".toList ++ filepathBase g) → t r = s r)
        ∧ isDirectory t f = false
        ∧ parseTemplate (osReadFile t) ds fuel f 1 = some (true, false, lines, none)
        ∧ q = dd ++ "/".toList ++ filepathBase f
        ∧ s' q = some (Node.file (stringsJoin lines "\n".toList)) := by
  induction files generalizing s with
  | nil =>
    simp only [MakeTemplatesLoop, Option.some.injEq, Prod.mk.injEq, and_true] at h
    rw [h] at hq
    exact absurd rfl hq
  | cons f rest ih =>
    rcases MakeTemplatesLoop_cons ds dd fuel f rest s s' h with h1 | ⟨hdir, lines, hp, h1⟩
    · obtain ⟨g, hg, t, ls, ht, hd, hpt, hqg, hs'⟩ := ih s h1 hq
      exact ⟨g, List.mem_cons_of_mem _ hg, t, ls,
        fun r hr => ht r (fun g' hg' => hr g' (List.mem_cons_of_mem _ hg')), hd, hpt, hqg, hs'⟩
    · by_cases hc : s' q = (fun r => if r = dd ++ "/".toList ++ filepathBase f
          then some (Node.file (stringsJoin lines "\n".toList)) else s r) q
      · by_cases hqf : q = dd ++ "/".toList ++ filepathBase f
        · refine ⟨f, List.mem_cons_self _ _, s, lines, fun _ _ => rfl, hdir, hp, hqf, ?_⟩
          rw [hc]
          dsimp only
          rw [if_pos hqf]
        · exfalso
          apply hq
          rw [hc]
          dsimp only
          rw [if_neg hqf]
      · obtain ⟨g, hg, t, ls, ht, hd, hpt, hqg, hs'⟩ := ih _ h1 hc
        refine ⟨g, List.mem_cons_of_mem _ hg, t, ls, ?_, hd, hpt, hqg, hs'⟩
        intro r hr
        rw [ht r (fun g' hg' => hr g' (List.mem_cons_of_mem _ hg'))]
        rw [if_neg (hr f (List.mem_cons_self _ _))]

/-- The loop over `a ++ b` runs over `a`, then over `b` from the state `a` left. -/
theorem MakeTemplatesLoop_append (ds dd : Str) (fuel : Nat) (a b : List Str) (s : FileSystem) :
    MakeTemplatesLoop ds dd fuel (a ++ b) s
      = match MakeTemplatesLoop ds dd fuel a s with
        | none => none
        | some (s1, none) => MakeTemplatesLoop ds dd fuel b s1
        | some (s1, some e) => some (s1, some e) := by
  induction a generalizing s with
  | nil => simp [MakeTemplatesLoop]
  | cons f rest ih =>
    simp only [List.cons_append, MakeTemplatesLoop]
    by_cases hdir : isDirectory s f = true
    · simp only [hdir, if_true]
      exact ih s
    · simp only [hdir, Bool.false_eq_true, if_false]
      rcases parseTemplate (osReadFile s) ds fuel f 1 with _ | ⟨p, c, ls, _ | e⟩
      · rfl
      · dsimp only
        cases c with
        | true => simpa using ih s
        | false =>
          cases p with
          | false => simpa using ih s
          | true =>
            simp only [Bool.false_eq_true, if_false, Bool.not_true, Bool.not_false,
              Bool.and_true, if_true]
            cases osWriteFile s (dd ++ "/".toList ++ filepathBase f)
                (stringsJoin ls "\n".toList) with
            | error e => rfl
            | ok s1 => exact ih s1
      · rfl

/-- A directory, a child document and a file that is not a staplegun document are skipped:
the loop goes on with the state unchanged. -/
theorem MakeTemplatesLoop_skip (ds dd : Str) (fuel : Nat) (f : Str) (rest : List Str)
    (s : FileSystem)
    (h : isDirectory s f = true
      ∨ ∃ c ls, parseTemplate (osReadFile s) ds fuel f 1 = some (false, c, ls, none)) :
    MakeTemplatesLoop ds dd fuel (f :: rest) s = MakeTemplatesLoop ds dd fuel rest s := by
  by_cases hdir : isDirectory s f = true
  · simp only [MakeTemplatesLoop, hdir, if_true]
  · rcases h with h | ⟨c, ls, hp⟩
    · exact absurd h hdir
    · simp only [MakeTemplatesLoop, hdir, Bool.false_eq_true, if_false, hp]
      cases c <;> simp

/-- A file that is not a directory and is classified parent is written to the destination
under its base name. -/
theorem MakeTemplatesLoop_parent (ds dd : Str) (fuel : Nat) (f : Str) (rest : List Str)
    (s : FileSystem) (lines : List Str) (hdir : isDirectory s f = false)
    (hp : parseTemplate (osReadFile s) ds fuel f 1 = some (true, false, lines, none)) :
    MakeTemplatesLoop ds dd fuel (f :: rest) s
      = match osWriteFile s (dd ++ "/".toList ++ filepathBase f)
          (stringsJoin lines "\n".toList) with
        | .error e => some (s, some e)
        | .ok s1 => MakeTemplatesLoop ds dd fuel rest s1 := by
  cases hw : osWriteFile s (dd ++ "/".toList ++ filepathBase f)
      (stringsJoin lines "\n".toList) with
  | error e =>
    simp only [MakeTemplatesLoop, hdir, Bool.false_eq_true, if_false, hp, Bool.not_true,
      Bool.not_false, Bool.and_true, if_true, hw]
  | ok s1 =>
    simp only [MakeTemplatesLoop, hdir, Bool.false_eq_true, if_false, hp, Bool.not_true,
      Bool.not_false, Bool.and_true, if_true, hw]

/-- C17. Directory-level effect: after a run of `MakeTemplates` that returns no error, with
`sourceFiles` the paths `filepath.Glob` found in the source directory, (1) every path whose
entry differs from before is `dirDest + "/" + base` of a source file that was not a
directory and was classified parent when it was parsed, and holds that file's resolved
lines joined by `"\n"`; (2) every source file that is not a directory and is classified
parent has its resolved lines, joined by `"\n"`, at `dirDest + "/" + base` after the run (no
later source file having the same base name); (3) a directory, a child document and a
document that is neither parent nor child cause no write. -/
theorem makeTemplates_directory_effect (glob : FileSystem → Str → Except Str (List Str))
    (fuel : Nat) (fs fs' : FileSystem) (dirSource dirDest : Str) (verbose : Bool)
    (h : MakeTemplates glob fuel fs dirSource dirDest verbose = some (fs', none)) :
    ∃ sourceFiles, glob fs (dirSource ++ "/*".toList) = .ok sourceFiles
      ∧ (∀ q, fs' q ≠ fs q → ∃ f ∈ sourceFiles, ∃ s lines,
          (∀ r, (∀ g ∈ sourceFiles, r ≠ dirDest ++ "/".toList ++ filepathBase g) → s r = fs r)
            ∧ isDirectory s f = false
            ∧ parseTemplate (osReadFile s) dirSource fuel f 1 = some (true, false, lines, none)
            ∧ q = dirDest ++ "/".toList ++ filepathBase f
            ∧ fs' q = some (Node.file (stringsJoin lines "\n".toList)))
      ∧ (∀ pre f post s lines, sourceFiles = pre ++ [f] ++ post →
          MakeTemplatesLoop dirSource dirDest fuel pre fs = some (s, none) →
          isDirectory s f = false →
          parseTemplate (osReadFile s) dirSource fuel f 1 = some (true, false, lines, none) →
          (∀ g ∈ post, filepathBase g ≠ filepathBase f) →
          fs' (dirDest ++ "/".toList ++ filepathBase f)
            = some (Node.file (stringsJoin lines "\n".toList)))
      ∧ ∀ f rest s,
          (isDirectory s f = true
            ∨ ∃ c ls, parseTemplate (osReadFile s) dirSource fuel f 1
                = some (false, c, ls, none)) →
          MakeTemplatesLoop dirSource dirDest fuel (f :: rest) s
            = MakeTemplatesLoop dirSource dirDest fuel rest s := by
  unfold MakeTemplates at h
  by_cases hs : isDirectory fs dirSource = false
  · simp [hs] at h
  by_cases hd : isDirectory fs dirDest = false
  · simp [hs, hd] at h
  simp only [hs, hd, if_false] at h
  cases hg : glob fs (dirSource ++ "/*".toList) with
  | error e => rw [hg] at h; simp at h
  | ok sourceFiles =>
    rw [hg] at h
    simp only at h
    refine ⟨sourceFiles, rfl, ?_, ?_, ?_⟩
    · intro q hq
      exact MakeTemplatesLoop_changed dirSource dirDest fuel sourceFiles fs fs' h q hq
    · intro pre f post s lines hfiles hpre hdir hp hbase
      rw [hfiles, List.append_assoc, MakeTemplatesLoop_append, hpre] at h
      simp only [List.singleton_append] at h
      rw [MakeTemplatesLoop_parent dirSource dirDest fuel f post s lines hdir hp] at h
      cases hw : osWriteFile s (dirDest ++ "/".toList ++ filepathBase f)
          (stringsJoin lines "\n".toList) with
      | error e => rw [hw] at h; simp at h
      | ok s1 =>
        rw [hw] at h
        simp only at h
        rw [MakeTemplatesLoop_frame dirSource dirDest fuel post s1 fs' h _ (by
          intro g hg heq
          exact hbase g hg (List.append_cancel_left heq).symm)]
        rw [osWriteFile_ok hw]
        simp
    · intro f rest s hskip
      exact MakeTemplatesLoop_skip dirSource dirDest fuel f rest s hskip

theorem makeTemplates_directory_effect_witness :
    ∃ sourceFiles, dirGlob dirFs ("src".toList ++ "/*".toList) = .ok sourceFiles
      ∧ (∀ q, dirFsAfter q ≠ dirFs q → ∃ f ∈ sourceFiles, ∃ s lines,
          (∀ r, (∀ g ∈ sourceFiles, r ≠ "out".toList ++ "/".toList ++ filepathBase g)
              → s r = dirFs r)
            ∧ isDirectory s f = false
            ∧ parseTemplate (osReadFile s) "src".toList 3 f 1 = some (true, false, lines, none)
            ∧ q = "out".toList ++ "/".toList ++ filepathBase f
            ∧ dirFsAfter q = some (Node.file (stringsJoin lines "\n".toList)))
      ∧ (∀ pre f post s lines, sourceFiles = pre ++ [f] ++ post →
          MakeTemplatesLoop "src".toList "out".toList 3 pre dirFs = some (s, none) →
          isDirectory s f = false →
          parseTemplate (osReadFile s) "src".toList 3 f 1 = some (true, false, lines, none) →
          (∀ g ∈ post, filepathBase g ≠ filepathBase f) →
          dirFsAfter ("out".toList ++ "/".toList ++ filepathBase f)
            = some (Node.file (stringsJoin lines "\n".toList)))
      ∧ ∀ f rest s,
          (isDirectory s f = true
            ∨ ∃ c ls, parseTemplate (osReadFile s) "src".toList 3 f 1
                = some (false, c, ls, none)) →
          MakeTemplatesLoop "src".toList "out".toList 3 (f :: rest) s
            = MakeTemplatesLoop "src".toList "out".toList 3 rest s :=
  makeTemplates_directory_effect dirGlob 3 dirFs dirFsAfter "src".toList "out".toList false rfl

/-- C13, the failing input: the source directory `src` exists and nothing exists at the
destination path `out`.  `MakeTemplates` returns an error before it parses any file, and the
message is `"src" is not a directory`: it names the source path, not the destination path
that failed the check. -/
theorem makeTemplates_dest_error_names_source :
    isDirectory destMissingFs "src".toList = true
      ∧ isDirectory destMissingFs "out".toList = false
      ∧ MakeTemplates (fun _ _ => .ok []) 1 destMissingFs "src".toList "out".toList false
          = some (destMissingFs, some (sharpV "src".toList ++ " is not a directory".toList))
      ∧ sharpV "src".toList ++ " is not a directory".toList
          ≠ sharpV "out".toList ++ " is not a directory".toList := by
  refine ⟨by decide, by decide, rfl, by decide⟩

/-- The residual of a successful extraction is made of the lines outside block
definitions. -/
theorem extractLoop_outside (ls : List Str) (blocks : Blocks) (cur : Str) (cl out : List Str)
    (b : Blocks) (r : List Str)
    (h : extractBlocksLoop ls blocks cur cl out = (b, r, none)) :
    r = out ++ specOutside (decide (cur ≠ [])) ls := by
  induction ls generalizing blocks cur cl out with
  | nil =>
    by_cases hc : cur = []
    · simp only [extractBlocksLoop, hc, ne_eq, not_true_eq_false, if_false, Prod.mk.injEq,
        and_true] at h
      simp [specOutside, h.2]
    · simp [extractBlocksLoop, hc] at h
  | cons l ls ih =>
    cases hd : regexDefineBlock l with
    | some name =>
      have hn : name ≠ [] := regexDefineBlock_ne_nil hd
      by_cases hc : cur = []
      · simp only [extractBlocksLoop, hd, hc, ne_eq, not_true_eq_false, if_false] at h
        have := ih _ _ _ _ h
        simpa [specOutside, hd, hn] using this
      · simp [extractBlocksLoop, hd, hc] at h
    | none =>
      by_cases he : regexEnd l = true
      · by_cases hc : cur = []
        · simp [extractBlocksLoop, hd, he, hc] at h
        · simp only [extractBlocksLoop, hd, he, hc, if_true, if_false] at h
          have := ih _ _ _ _ h
          simpa [specOutside, hd, he] using this
      · by_cases hc : cur = []
        · simp only [extractBlocksLoop, hd, he, hc, ne_eq, not_true_eq_false, if_false,
            Bool.false_eq_true] at h
          have := ih _ _ _ _ h
          simpa [specOutside, hd, he, hc] using this
        · simp only [extractBlocksLoop, hd, he, hc, ne_eq, not_false_eq_true, if_true,
            if_false, Bool.false_eq_true] at h
          have := ih _ _ _ _ h
          simpa [specOutside, hd, he, hc] using this

theorem matchesDirective_of_import {l : Str} {r : Str × Str}
    (h : regexImportFile l = some r) : matchesDirective l = true := by
  simp [matchesDirective, h]

theorem matchesDirective_of_insert {l : Str} {r : Str × Str}
    (h : regexInsertBlock l = some r) : matchesDirective l = true := by
  simp [matchesDirective, h]

/-- The lines that match no directive pattern stand, in order, in the result of a
successful import loop. -/
theorem importLoop_sublist (parse : Parser) (dir : Str) (lvl : Nat) (ls out : List Str)
    (h : parseImportFileDirectivesLoop parse dir lvl ls [] = some (out, none)) :
    List.Sublist (ls.filter (fun l => !matchesDirective l)) out := by
  induction ls generalizing out with
  | nil =>
    simp only [parseImportFileDirectivesLoop, Option.some.injEq, Prod.mk.injEq, and_true] at h
    simp [← h]
  | cons l rest ih =>
    simp only [parseImportFileDirectivesLoop] at h
    cases hr : regexImportFile l with
    | none =>
      rw [hr] at h
      simp only at h
      rw [importLoop_acc] at h
      rcases hrest : parseImportFileDirectivesLoop parse dir lvl rest [] with _ | ⟨o, _ | e⟩
      · rw [hrest] at h; simp at h
      · rw [hrest] at h
        simp only [List.nil_append, Option.some.injEq, Prod.mk.injEq, and_true] at h
        rw [← h]
        have hsub := ih o hrest
        by_cases hm : matchesDirective l = true
        · simp only [List.filter, hm, Bool.not_true]
          exact List.Sublist.cons _ hsub
        · simp only [Bool.not_eq_true] at hm
          simp only [List.filter, hm, Bool.not_false]
          exact List.Sublist.cons₂ _ hsub
      · rw [hrest] at h; simp at h
    | some r =>
      obtain ⟨ind, f⟩ := r
      rw [hr] at h
      simp only at h
      rcases hp : parse (dir ++ "/".toList ++ f) (lvl + 1) with _ | ⟨p, c, il, _ | e⟩
      · rw [hp] at h; simp at h
      · rw [hp] at h
        simp only at h
        rw [importLoop_acc] at h
        rcases hrest : parseImportFileDirectivesLoop parse dir lvl rest [] with _ | ⟨o, _ | e⟩
        · rw [hrest] at h; simp at h
        · rw [hrest] at h
          simp only [Option.some.injEq, Prod.mk.injEq, and_true] at h
          rw [← h]
          simp only [List.filter, matchesDirective_of_import hr, Bool.not_true]
          exact List.sublist_append_of_sublist_right (ih o hrest)
        · rw [hrest] at h; simp at h
      · rw [hp] at h; simp at h

/-- The lines that match no directive pattern stand, in order, in the result of a successful
insertion loop. -/
theorem insertLoop_sublist (blocks : Blocks) (ign : Bool) (ls out : List Str)
    (h : parseInsertBlockDirectivesLoop blocks ign ls [] = (out, none)) :
    List.Sublist (ls.filter (fun l => !matchesDirective l)) out := by
  induction ls generalizing out with
  | nil =>
    simp only [parseInsertBlockDirectivesLoop, Prod.mk.injEq, and_true] at h
    simp [← h]
  | cons l rest ih =>
    have key : ∀ X : List Str,
        parseInsertBlockDirectivesLoop blocks ign rest X = (out, none) →
        ∃ o, parseInsertBlockDirectivesLoop blocks ign rest [] = (o, none) ∧ out = X ++ o := by
      intro X hX
      rw [insertLoop_acc] at hX
      rcases hrest : parseInsertBlockDirectivesLoop blocks ign rest [] with ⟨o, _ | e⟩
      · rw [hrest] at hX
        simp only [Prod.mk.injEq, and_true] at hX
        exact ⟨o, rfl, hX.symm⟩
      · rw [hrest] at hX; simp at hX
    simp only [parseInsertBlockDirectivesLoop] at h
    cases hr : regexInsertBlock l with
    | none =>
      rw [hr] at h
      simp only [List.nil_append] at h
      obtain ⟨o, ho, rfl⟩ := key _ h
      have hsub := ih o ho
      by_cases hm : matchesDirective l = true
      · simp only [List.filter, hm, Bool.not_true]
        exact List.Sublist.cons _ hsub
      · simp only [Bool.not_eq_true] at hm
        simp only [List.filter, hm, Bool.not_false]
        exact List.Sublist.cons₂ _ hsub
    | some r =>
      obtain ⟨ind, x⟩ := r
      rw [hr] at h
      simp only at h
      simp only [List.filter, matchesDirective_of_insert hr, Bool.not_true]
      cases hg : Blocks.get blocks x with
      | none =>
        rw [hg] at h
        cases ign with
        | true =>
          simp only [if_true] at h
          obtain ⟨o, ho, rfl⟩ := key _ h
          exact List.sublist_append_of_sublist_right (ih o ho)
        | false => simp at h
      | some body =>
        rw [hg] at h
        simp only at h
        obtain ⟨o, ho, rfl⟩ := key _ h
        exact List.sublist_append_of_sublist_right (ih o ho)

/-- C12 (amended). Pass-through of non-directive lines: when block extraction returns no
error its residual is exactly the lines outside block definitions (without the
`define_block` and `end` lines), in order, so every line outside a block definition that
matches no directive pattern is in it unchanged; when import resolution, respectively block
insertion, returns no error, the input lines that match no directive pattern stand in its
output unchanged and in their original order. -/
theorem non_directive_lines_pass_through (ls : List Str) (lvl : Nat) :
    (∀ blocks out, extractBlocks ls lvl = (blocks, out, none) →
        out = specOutside false ls
          ∧ List.Sublist ((specOutside false ls).filter (fun l => !matchesDirective l)) out)
      ∧ (∀ parse dirSource blocks out,
          parseImportFileDirectives parse dirSource ls blocks lvl = some (out, none) →
          List.Sublist (ls.filter (fun l => !matchesDirective l)) out)
      ∧ ∀ blocks ign out, parseInsertBlockDirectives ls blocks ign lvl = (out, none) →
          List.Sublist (ls.filter (fun l => !matchesDirective l)) out := by
  refine ⟨?_, ?_, ?_⟩
  · intro blocks out h
    have := extractLoop_outside ls [] [] [] [] blocks out h
    simp only [ne_eq, not_true_eq_false, decide_False, List.nil_append] at this
    rw [this]
    exact ⟨rfl, List.filter_sublist _⟩
  · intro parse dirSource blocks out h
    exact importLoop_sublist parse dirSource lvl ls out h
  · intro blocks ign out h
    exact insertLoop_sublist blocks ign ls out h

/-- C12, counterexample: block extraction over two definitions of `n`.  The input line
`first body` matches no directive pattern; the pass returns no error, an empty residual and
a map whose only block does not hold the line. -/
theorem non_directive_lines_pass_through_counterexample :
    "first body".toList ∈ twiceDefinedLines
      ∧ matchesDirective "first body".toList = false
      ∧ extractBlocks twiceDefinedLines 1 = ([("n".toList, ["second body".toList])], [], none)
      ∧ "first body".toList ∉ (extractBlocks twiceDefinedLines 1).2.1
      ∧ ∀ kv ∈ (extractBlocks twiceDefinedLines 1).1, "first body".toList ∉ kv.2 := by
  refine ⟨by decide, by decide, by decide, by decide, by decide⟩

theorem regexDefineBlock_indent {ind : Str} (h : ∀ c ∈ ind, isSpace c = true) (line : Str) :
    regexDefineBlock (ind ++ line) = regexDefineBlock line := by
  unfold regexDefineBlock
  rw [matchHead_indent h]
  cases matchHead "define_block".toList line with
  | none => rfl
  | some r => rfl

theorem regexEnd_indent {ind : Str} (h : ∀ c ∈ ind, isSpace c = true) (line : Str) :
    regexEnd (ind ++ line) = regexEnd line := by
  unfold regexEnd
  rw [matchHead_indent h]
  cases matchHead "end".toList line with
  | none => rfl
  | some r => rfl

theorem regexInsertBlock_indent_isSome {ind : Str} (h : ∀ c ∈ ind, isSpace c = true)
    (line : Str) : (regexInsertBlock (ind ++ line)).isSome = (regexInsertBlock line).isSome := by
  unfold regexInsertBlock
  rw [matchHead_indent h]
  cases matchHead "insert_block".toList line with
  | none => rfl
  | some r =>
    obtain ⟨i, s⟩ := r
    simp only [Option.map_some']
    cases matchName s <;> rfl

theorem regexImportFile_indent_isSome {ind : Str} (h : ∀ c ∈ ind, isSpace c = true)
    (line : Str) : (regexImportFile (ind ++ line)).isSome = (regexImportFile line).isSome := by
  unfold regexImportFile
  rw [matchHead_indent h]
  cases matchHead "import_file".toList line with
  | none => rfl
  | some r =>
    obtain ⟨i, s⟩ := r
    simp only [Option.map_some']
    cases matchPath s <;> rfl

/-- Whitespace in front of a line does not change whether the line is a directive. -/
theorem matchesDirective_indent {ind : Str} (h : ∀ c ∈ ind, isSpace c = true) (line : Str) :
    matchesDirective (ind ++ line) = matchesDirective line := by
  unfold matchesDirective
  rw [regexDefineBlock_indent h, regexEnd_indent h, regexInsertBlock_indent_isSome h,
    regexImportFile_indent_isSome h]

theorem matchesDirective_fileStart {ind : Str} (h : ∀ c ∈ ind, isSpace c = true) (f : Str) :
    matchesDirective (ind ++ fileStart f) = false :=
  matchesDirective_marker h ("!-- sg:file:start:".toList ++ f ++ " -->".toList)

theorem matchesDirective_fileEnd {ind : Str} (h : ∀ c ∈ ind, isSpace c = true) (f : Str) :
    matchesDirective (ind ++ fileEnd f) = false :=
  matchesDirective_marker h ("!-- sg:file:end:".toList ++ f ++ " -->".toList)

theorem matchesDirective_blockStart {ind : Str} (h : ∀ c ∈ ind, isSpace c = true) (n : Str) :
    matchesDirective (ind ++ blockStart n) = false :=
  matchesDirective_marker h ("!-- sg:block:start:".toList ++ n ++ " -->".toList)

theorem matchesDirective_blockEnd {ind : Str} (h : ∀ c ∈ ind, isSpace c = true) (n : Str) :
    matchesDirective (ind ++ blockEnd n) = false :=
  matchesDirective_marker h ("!-- sg:block:end:".toList ++ n ++ " -->".toList)

/-- The lines outside block definitions are lines of the input that are neither
`define_block` nor `end` lines. -/
theorem specOutside_mem (isOpen : Bool) (ls : List Str) :
    ∀ l ∈ specOutside isOpen ls, l ∈ ls ∧ regexDefineBlock l = none ∧ regexEnd l = false := by
  induction ls generalizing isOpen with
  | nil => simp [specOutside]
  | cons a rest ih =>
    intro l hl
    unfold specOutside at hl
    by_cases hd : (regexDefineBlock a).isSome = true
    · simp only [hd, if_true] at hl
      exact ⟨List.mem_cons_of_mem _ (ih _ l hl).1, (ih _ l hl).2⟩
    · by_cases he : regexEnd a = true
      · simp only [hd, he, if_true, Bool.false_eq_true, if_false] at hl
        exact ⟨List.mem_cons_of_mem _ (ih _ l hl).1, (ih _ l hl).2⟩
      · cases isOpen with
        | true =>
          simp only [hd, he, if_true, Bool.false_eq_true, if_false] at hl
          exact ⟨List.mem_cons_of_mem _ (ih _ l hl).1, (ih _ l hl).2⟩
        | false =>
          simp only [hd, he, Bool.false_eq_true, if_false, List.mem_cons] at hl
          rcases hl with rfl | hl
          · refine ⟨List.mem_cons_self _ _, ?_, ?_⟩
            · cases hx : regexDefineBlock l with
              | none => rfl
              | some n => rw [hx] at hd; simp at hd
            · simpa using he
          · exact ⟨List.mem_cons_of_mem _ (ih _ l hl).1, (ih _ l hl).2⟩

/-- The residual of a successful extraction holds no `define_block` and no `end` line. -/
theorem extractBlocks_residual (ls : List Str) (lvl : Nat) (blocks : Blocks) (res : List Str)
    (h : extractBlocks ls lvl = (blocks, res, none)) :
    ∀ l ∈ res, regexDefineBlock l = none ∧ regexEnd l = false := by
  have := extractLoop_outside ls [] [] [] [] blocks res h
  simp only [ne_eq, not_true_eq_false, decide_False, List.nil_append] at this
  intro l hl
  rw [this] at hl
  exact (specOutside_mem false ls l hl).2

/-- Where the lines of a successful import loop come from: they were written before, or
match no directive pattern (marker lines and the lines of imported files, when every file
that is imported parses to lines that match none), or are input lines that are not
`import_file` directives. -/
theorem importLoop_origin (parse : Parser) (dir : Str) (lvl : Nat) (ls acc out : List Str)
    (hparse : ∀ l ∈ ls, ∀ ind g, regexImportFile l = some (ind, g) → ∀ k p c L,
      parse (dir ++ "/".toList ++ g) k = some (p, c, L, none) →
      ∀ x ∈ L, matchesDirective x = false)
    (h : parseImportFileDirectivesLoop parse dir lvl ls acc = some (out, none)) :
    ∀ l ∈ out, l ∈ acc ∨ matchesDirective l = false
      ∨ (l ∈ ls ∧ regexImportFile l = none) := by
  induction ls generalizing acc with
  | nil =>
    simp only [parseImportFileDirectivesLoop, Option.some.injEq, Prod.mk.injEq, and_true] at h
    intro l hl
    rw [← h] at hl
    exact Or.inl hl
  | cons a rest ih =>
    have hrest : ∀ l ∈ rest, ∀ ind g, regexImportFile l = some (ind, g) → ∀ k p c L,
        parse (dir ++ "/".toList ++ g) k = some (p, c, L, none) →
        ∀ x ∈ L, matchesDirective x = false :=
      fun l hl => hparse l (List.mem_cons_of_mem _ hl)
    simp only [parseImportFileDirectivesLoop] at h
    cases hr : regexImportFile a with
    | none =>
      rw [hr] at h
      simp only at h
      intro l hl
      rcases ih _ hrest h l hl with h1 | h1 | h1
      · rcases List.mem_append.1 h1 with h2 | h2
        · exact Or.inl h2
        · rw [List.mem_singleton] at h2
          subst h2
          exact Or.inr (Or.inr ⟨List.mem_cons_self _ _, hr⟩)
      · exact Or.inr (Or.inl h1)
      · exact Or.inr (Or.inr ⟨List.mem_cons_of_mem _ h1.1, h1.2⟩)
    | some r =>
      obtain ⟨ind, g⟩ := r
      have hind := regexImportFile_indent_isSpace hr
      rw [hr] at h
      simp only at h
      rcases hp : parse (dir ++ "/".toList ++ g) (lvl + 1) with _ | ⟨p, c, L, _ | e⟩
      · rw [hp] at h; simp at h
      · rw [hp] at h
        simp only at h
        have hL := hparse a (List.mem_cons_self _ _) ind g hr (lvl + 1) p c L hp
        intro l hl
        rcases ih _ hrest h l hl with h1 | h1 | h1
        · rw [appendIndented_eq] at h1
          simp only [List.mem_append, List.mem_singleton, List.mem_map] at h1
          rcases h1 with ((h2 | h2) | ⟨x, hx, h2⟩) | h2
          · exact Or.inl h2
          · rw [h2]; exact Or.inr (Or.inl (matchesDirective_fileStart hind g))
          · rw [← h2, matchesDirective_indent hind]
            exact Or.inr (Or.inl (hL x hx))
          · rw [h2]; exact Or.inr (Or.inl (matchesDirective_fileEnd hind g))
        · exact Or.inr (Or.inl h1)
        · exact Or.inr (Or.inr ⟨List.mem_cons_of_mem _ h1.1, h1.2⟩)
      · rw [hp] at h; simp at h

/-- When every block holds lines that match no directive pattern and every line is either
such a line or an `insert_block` line for a defined block, a successful insertion loop
writes only lines that match no directive pattern. -/
theorem insertLoop_clean (blocks : Blocks) (ign : Bool) (ls acc out : List Str)
    (hbody : ∀ n body, Blocks.get blocks n = some body → ∀ x ∈ body, matchesDirective x = false)
    (hls : ∀ l ∈ ls, matchesDirective l = false
      ∨ ∃ ind n, regexInsertBlock l = some (ind, n) ∧ Blocks.get blocks n ≠ none)
    (hacc : ∀ l ∈ acc, matchesDirective l = false)
    (h : parseInsertBlockDirectivesLoop blocks ign ls acc = (out, none)) :
    ∀ l ∈ out, matchesDirective l = false := by
  induction ls generalizing acc with
  | nil =>
    simp only [parseInsertBlockDirectivesLoop, Prod.mk.injEq, and_true] at h
    rw [← h]
    exact hacc
  | cons a rest ih =>
    have hrest : ∀ l ∈ rest, matchesDirective l = false
        ∨ ∃ ind n, regexInsertBlock l = some (ind, n) ∧ Blocks.get blocks n ≠ none :=
      fun l hl => hls l (List.mem_cons_of_mem _ hl)
    simp only [parseInsertBlockDirectivesLoop] at h
    cases hr : regexInsertBlock a with
    | none =>
      rw [hr] at h
      simp only at h
      refine ih _ hrest ?_ h
      intro l hl
      rcases List.mem_append.1 hl with h1 | h1
      · exact hacc l h1
      · rw [List.mem_singleton] at h1
        subst h1
        rcases hls l (List.mem_cons_self _ _) with h2 | ⟨ind, n, h2, _⟩
        · exact h2
        · rw [hr] at h2; simp at h2
    | some r =>
      obtain ⟨ind, n⟩ := r
      have hind := regexInsertBlock_indent_isSpace hr
      have hdef : Blocks.get blocks n ≠ none := by
        rcases hls a (List.mem_cons_self _ _) with h2 | ⟨ind2, n2, h2, h3⟩
        · rw [matchesDirective_of_insert hr] at h2; simp at h2
        · rw [hr] at h2
          simp only [Option.some.injEq, Prod.mk.injEq] at h2
          rw [h2.2]; exact h3
      rw [hr] at h
      simp only at h
      cases hg : Blocks.get blocks n with
      | none => exact absurd hg hdef
      | some body =>
        rw [hg] at h
        simp only at h
        refine ih _ hrest ?_ h
        intro l hl
        rw [appendIndented_eq] at hl
        simp only [List.mem_append, List.mem_singleton, List.mem_map] at hl
        rcases hl with ((h2 | h2) | ⟨x, hx, h2⟩) | h2
        · exact hacc l h2
        · rw [h2]; exact matchesDirective_blockStart hind n
        · rw [← h2, matchesDirective_indent hind]
          exact hbody n body hg x hx
        · rw [h2]; exact matchesDirective_blockEnd hind n

/-- Over a set `S` of files closed under import in which every staplegun document has,
outside its block definitions, only `insert_block` lines for blocks it defines, and inside
them no line that matches a directive pattern, a parse without error returns only lines
that match no directive pattern. -/
theorem parseTemplate_clean (readFile : Str → Except Str Str) (dirSource : Str)
    (S : Str → Prop)
    (hS : ∀ q, S q → ∀ text first rest blocks res lvl, readFile q = .ok text →
      stringsSplit text = first :: rest →
      (regexIsParent first = true ∨ regexIsChild first = true) →
      extractBlocks rest lvl = (blocks, res, none) →
      (∀ n body, Blocks.get blocks n = some body → ∀ x ∈ body, matchesDirective x = false)
        ∧ (∀ l ∈ res, ∀ ind n, regexInsertBlock l = some (ind, n) → Blocks.get blocks n ≠ none)
        ∧ (∀ l ∈ res, ∀ ind g, regexImportFile l = some (ind, g) →
            S (dirSource ++ "/".toList ++ g)))
    (fuel : Nat) :
    ∀ q lvl p c out, S q → parseTemplate readFile dirSource fuel q lvl = some (p, c, out, none) →
      ∀ l ∈ out, matchesDirective l = false := by
  induction fuel with
  | zero =>
    intro q lvl p c out _ h
    simp [parseTemplate] at h
  | succ fuel ih =>
    intro q lvl p c out hq h
    cases hread : readFile q with
    | error e => simp [parseTemplate, hread] at h
    | ok text =>
      cases hsplit : stringsSplit text with
      | nil => exact absurd hsplit (stringsSplit_ne_nil text)
      | cons first rest =>
        by_cases hmark : regexIsParent first = true ∨ regexIsChild first = true
        · by_cases hrest : rest = []
          · rw [parseTemplate_short readFile dirSource fuel q lvl text hread
              (by rw [hsplit, hrest]; simp)] at h
            simp only [Option.some.injEq, Prod.mk.injEq] at h
            rw [← h.2.2.1]
            simp
          · rw [parseTemplate_marked readFile dirSource fuel q lvl text first rest hread hsplit
              hrest hmark] at h
            rcases hx : extractBlocks rest lvl with ⟨blocks, res, _ | e⟩
            · rw [hx] at h
              simp only at h
              obtain ⟨hbody, hins, himp⟩ := hS q hq text first rest blocks res lvl hread hsplit
                hmark hx
              rcases hm : parseImportFileDirectives (parseTemplate readFile dirSource fuel)
                  dirSource res blocks lvl with _ | ⟨ls1, _ | e⟩
              · rw [hm] at h; simp at h
              · rw [hm] at h
                simp only at h
                rcases hs : parseInsertBlockDirectives ls1 blocks (regexIsChild first) lvl
                  with ⟨o, _ | e⟩
                · rw [hs] at h
                  simp only [Option.some.injEq, Prod.mk.injEq, and_true] at h
                  rw [← h.2.2]
                  unfold parseImportFileDirectives at hm
                  unfold parseInsertBlockDirectives at hs
                  have horigin := importLoop_origin (parseTemplate readFile dirSource fuel)
                    dirSource lvl res [] ls1
                    (fun l hl ind g hlg k p c L hp =>
                      ih _ k p c L (himp l hl ind g hlg) hp) hm
                  have hres := extractBlocks_residual rest lvl blocks res hx
                  refine insertLoop_clean blocks (regexIsChild first) ls1 [] o hbody ?_
                    (by simp) hs
                  intro l hl
                  rcases horigin l hl with h1 | h1 | ⟨h1, h2⟩
                  · simp at h1
                  · exact Or.inl h1
                  · cases hi : regexInsertBlock l with
                    | none =>
                      left
                      simp [matchesDirective, (hres l h1).1, (hres l h1).2, hi, h2]
                    | some r =>
                      obtain ⟨ind, n⟩ := r
                      exact Or.inr ⟨ind, n, rfl, hins l h1 ind n hi⟩
                · rw [hs] at h; simp at h
              · rw [hm] at h; simp at h
            · rw [hx] at h; simp at h
        · have hp : regexIsParent first = false := by
            cases hx : regexIsParent first with
            | false => rfl
            | true => exact absurd (Or.inl hx) hmark
          have hc : regexIsChild first = false := by
            cases hx : regexIsChild first with
            | false => rfl
            | true => exact absurd (Or.inr hx) hmark
          rw [parseTemplate_unmarked readFile dirSource fuel q lvl text first rest hread hsplit
            hp hc] at h
          simp only [Option.some.injEq, Prod.mk.injEq] at h
          rw [← h.2.2.1]
          simp

/-- C11 (amended). Import flattening leaves no residual directives.  Let the parent `P`
have, outside its block definitions, the line `import_file f`, the lines before and after
it resolving to `a` and `b`.  Let `S` be a set of files that holds `dirSource + "/" + f` and
every file imported by a document of `S`, such that every staplegun document of `S` names in
each `insert_block` line outside its block definitions a block it defines and has no line
matching a directive pattern inside its block definitions.  If the parse of the file gives
the lines `L` without error, then the output of `P` holds, between the file start and end
markers naming `f`, exactly the lines of `L` with the indentation of the `import_file` line
in front, and none of them matches a directive pattern. -/
theorem flattened_import_clean (readFile : Str → Except Str Str)
    (dirSource path text marker : Str) (fuel lvl : Nat) (rest : List Str) (blocks : Blocks)
    (pre post : List Str) (imp iind f : Str) (p c : Bool) (L o1 o2 a b : List Str)
    (S : Str → Prop)
    (hread : readFile path = .ok text) (hsplit : stringsSplit text = marker :: rest)
    (hparent : regexIsParent marker = true)
    (hx : extractBlocks rest lvl = (blocks, pre ++ [imp] ++ post, none))
    (himp : regexImportFile imp = some (iind, f))
    (hother : S (dirSource ++ "/".toList ++ f))
    (hS : ∀ q, S q → ∀ text first rest blocks res lvl, readFile q = .ok text →
      stringsSplit text = first :: rest →
      (regexIsParent first = true ∨ regexIsChild first = true) →
      extractBlocks rest lvl = (blocks, res, none) →
      (∀ n body, Blocks.get blocks n = some body → ∀ x ∈ body, matchesDirective x = false)
        ∧ (∀ l ∈ res, ∀ ind n, regexInsertBlock l = some (ind, n) → Blocks.get blocks n ≠ none)
        ∧ (∀ l ∈ res, ∀ ind g, regexImportFile l = some (ind, g) →
            S (dirSource ++ "/".toList ++ g)))
    (hfile : parseTemplate readFile dirSource fuel (dirSource ++ "/".toList ++ f) (lvl + 1)
      = some (p, c, L, none))
    (h1 : parseImportFileDirectives (parseTemplate readFile dirSource fuel) dirSource pre
      blocks lvl = some (o1, none))
    (h2 : parseImportFileDirectives (parseTemplate readFile dirSource fuel) dirSource post
      blocks lvl = some (o2, none))
    (ha : parseInsertBlockDirectives o1 blocks false lvl = (a, none))
    (hb : parseInsertBlockDirectives o2 blocks false lvl = (b, none)) :
    parseTemplate readFile dirSource (fuel + 1) path lvl
        = some (true, false,
            a ++ ([iind ++ fileStart f] ++ L.map (fun l => iind ++ l) ++ [iind ++ fileEnd f])
              ++ b, none)
      ∧ ∀ l ∈ L.map (fun l => iind ++ l), matchesDirective l = false := by
  have hind := regexImportFile_indent_isSpace himp
  have hL := parseTemplate_clean readFile dirSource S hS fuel _ (lvl + 1) p c L hother hfile
  have hclean : ∀ l ∈ L.map (fun l => iind ++ l), matchesDirective l = false := by
    intro l hl
    obtain ⟨x, hx1, hx2⟩ := List.mem_map.1 hl
    rw [← hx2, matchesDirective_indent hind]
    exact hL x hx1
  refine ⟨?_, hclean⟩
  have hrest : rest ≠ [] := by
    intro h
    rw [h] at hx
    simp [extractBlocks, extractBlocksLoop] at hx
  have hm : parseImportFileDirectives (parseTemplate readFile dirSource fuel) dirSource
      (pre ++ [imp] ++ post) blocks lvl
      = some (o1 ++ ([iind ++ fileStart f] ++ L.map (fun l => iind ++ l) ++ [iind ++ fileEnd f])
          ++ o2, none) := by
    unfold parseImportFileDirectives at h1 h2 ⊢
    rw [importLoop_expand _ dirSource lvl pre post imp iind f p c L o1 o2 himp hfile h1 h2]
    simp
  rw [parseTemplate_marked readFile dirSource fuel path lvl text marker rest hread hsplit
    hrest (Or.inl hparent), hx]
  simp only [hm, regexIsParent_not_child hparent, hparent]
  unfold parseInsertBlockDirectives at ha hb ⊢
  rw [insertLoop_file_markers blocks false o1 o2 iind f (L.map (fun l => iind ++ l)) a b hind
    (fun l hl => (matchesDirective_false (hclean l hl)).2.2.1) ha hb]

theorem flattened_import_clean_witness :
    parseTemplate flattenFs "src".toList 2 "src/p.html".toList 1
        = some (true, false,
            ["<body>".toList] ++ (["  ".toList ++ fileStart "other.html".toList]
              ++ ["<p>hi</p>".toList, "<p>there</p>".toList].map (fun l => "  ".toList ++ l)
              ++ ["  ".toList ++ fileEnd "other.html".toList]) ++ ["</body>".toList], none)
      ∧ ∀ l ∈ ["<p>hi</p>".toList, "<p>there</p>".toList].map (fun l => "  ".toList ++ l),
          matchesDirective l = false :=
  flattened_import_clean flattenFs "src".toList "src/p.html".toList
    ("\x7b\x7b staplegun parent \x7d\x7d\n<body>\n"
      ++ "  \x7b\x7b staplegun import_file other.html \x7d\x7d\n</body>").toList
    "\x7b\x7b staplegun parent \x7d\x7d".toList 1 1
    ["<body>".toList, "  \x7b\x7b staplegun import_file other.html \x7d\x7d".toList,
      "</body>".toList] []
    ["<body>".toList] ["</body>".toList]
    "  \x7b\x7b staplegun import_file other.html \x7d\x7d".toList "  ".toList
    "other.html".toList false true ["<p>hi</p>".toList, "<p>there</p>".toList]
    ["<body>".toList] ["</body>".toList] ["<body>".toList] ["</body>".toList]
    (fun q => q = "src/other.html".toList)
    rfl (by decide) (by decide) (by decide) (by decide) (by decide)
    (by
      intro q hq text first rest blocks res lvl hread hsplit _ hx
      subst hq
      have ht : flattenFs "src/other.html".toList
          = .ok "\x7b\x7b staplegun child \x7d\x7d\n<p>hi</p>\n<p>there</p>".toList := rfl
      rw [ht] at hread
      injection hread with hread
      subst hread
      have hs : stringsSplit "\x7b\x7b staplegun child \x7d\x7d\n<p>hi</p>\n<p>there</p>".toList
          = "\x7b\x7b staplegun child \x7d\x7d".toList
            :: ["<p>hi</p>".toList, "<p>there</p>".toList] := by decide
      rw [hs] at hsplit
      injection hsplit with _ hrest
      subst hrest
      rw [extractBlocks_plain _ lvl (by decide)] at hx
      simp only [Prod.mk.injEq, and_true] at hx
      obtain ⟨hb, hr⟩ := hx
      subst hb
      subst hr
      have hi : ∀ l ∈ ["<p>hi</p>".toList, "<p>there</p>".toList],
          regexInsertBlock l = none ∧ regexImportFile l = none := by decide
      refine ⟨?_, ?_, ?_⟩
      · intro n body hget
        simp [Blocks.get] at hget
      · intro l hl ind n hln
        rw [(hi l hl).1] at hln
        simp at hln
      · intro l hl ind g hlg
        rw [(hi l hl).2] at hlg
        simp at hlg)
    (by decide) (by decide) (by decide) (by decide) (by decide)

/-- C11, counterexample: the child `tricky.html` defines block `a`, whose only line is an
`import_file` line, and inserts it: its one `insert_block` line names a block it defines and
its parse succeeds.  The parent `q.html` imports it and parses without error, and its output
holds, between the file markers naming `tricky.html`, a line that matches the `import_file`
pattern. -/
theorem flattened_import_clean_counterexample :
    extractBlocks (stringsSplit ("\x7b\x7b staplegun child \x7d\x7d\n"
        ++ "\x7b\x7b staplegun define_block a \x7d\x7d\n"
        ++ "\x7b\x7b staplegun import_file z.html \x7d\x7d\n\x7b\x7b staplegun end \x7d\x7d\n"
        ++ "\x7b\x7b staplegun insert_block a \x7d\x7d").toList).tail 2
        = ([("a".toList, ["\x7b\x7b staplegun import_file z.html \x7d\x7d".toList])],
            ["\x7b\x7b staplegun insert_block a \x7d\x7d".toList], none)
      ∧ parseTemplate flattenFs "src".toList 1 "src/tricky.html".toList 2
        = some (false, true,
            ["<!-- sg:block:start:a -->".toList,
              "\x7b\x7b staplegun import_file z.html \x7d\x7d".toList,
              "<!-- sg:block:end:a -->".toList], none)
      ∧ parseTemplate flattenFs "src".toList 2 "src/q.html".toList 1
        = some (true, false,
            ["<body>".toList, "  <!-- sg:file:start:tricky.html -->".toList,
              "  <!-- sg:block:start:a -->".toList,
              "  \x7b\x7b staplegun import_file z.html \x7d\x7d".toList,
              "  <!-- sg:block:end:a -->".toList,
              "  <!-- sg:file:end:tricky.html -->".toList, "</body>".toList], none)
      ∧ regexImportFile "  \x7b\x7b staplegun import_file z.html \x7d\x7d".toList
        = some ("  ".toList, "z.html".toList) := by
  refine ⟨by decide, by decide, by decide, by decide⟩

/-- C7, counterexample.  The child `c.html` retains the line `insert_block x`.  The parent
`keep.html` defines `x`, imports `c.html` and parses without error, and the retained line
stands in its output (it is the line of block `x`).  The parent `early.html` does not define
`x`, imports `c.html`, and its parse fails with the error that names `y`, not `x`. -/
theorem retained_insert_resolved_by_parent_counterexample :
    parseTemplate sideFs "src".toList 1 "src/c.html".toList 2
        = some (false, true, ["\x7b\x7b staplegun insert_block x \x7d\x7d".toList], none)
      ∧ parseTemplate sideFs "src".toList 2 "src/keep.html".toList 1
        = some (true, false,
            ["<!-- sg:file:start:c.html -->".toList, "<!-- sg:block:start:x -->".toList,
              "\x7b\x7b staplegun insert_block x \x7d\x7d".toList,
              "<!-- sg:block:end:x -->".toList, "<!-- sg:file:end:c.html -->".toList], none)
      ∧ "\x7b\x7b staplegun insert_block x \x7d\x7d".toList
          ∈ ["<!-- sg:file:start:c.html -->".toList, "<!-- sg:block:start:x -->".toList,
              "\x7b\x7b staplegun insert_block x \x7d\x7d".toList,
              "<!-- sg:block:end:x -->".toList, "<!-- sg:file:end:c.html -->".toList]
      ∧ Blocks.get (extractBlocks (stringsSplit ("\x7b\x7b staplegun parent \x7d\x7d\n"
            ++ "\x7b\x7b staplegun insert_block y \x7d\x7d\n"
            ++ "\x7b\x7b staplegun import_file c.html \x7d\x7d").toList).tail 1).1 "x".toList
          = none
      ∧ parseTemplate sideFs "src".toList 2 "src/early.html".toList 1
        = some (false, false, [], some (errNotDefined "y".toList))
      ∧ errNotDefined "y".toList ≠ errNotDefined "x".toList := by
  refine ⟨by decide, by decide, by decide, by decide, by decide, by decide⟩

/-- C14, counterexample.  The child `stray.html` has at least two lines and, before any
`define_block` line, an `import_file` line whose path is the document's own; its last line
is an `end` line.  For every positive fuel its parse returns, with the error of block
extraction: the import is never reached. -/
theorem cyclic_import_never_returns_counterexample :
    regexIsChild ((stringsSplit ("\x7b\x7b staplegun child \x7d\x7d\n"
        ++ "\x7b\x7b staplegun import_file stray.html \x7d\x7d\n"
        ++ "\x7b\x7b staplegun end \x7d\x7d").toList).headD []) = true
      ∧ regexImportFile "\x7b\x7b staplegun import_file stray.html \x7d\x7d".toList
        = some ([], "stray.html".toList)
      ∧ "src".toList ++ "/".toList ++ "stray.html".toList = "src/stray.html".toList
      ∧ ∀ fuel lvl, parseTemplate sideFs "src".toList (fuel + 1) "src/stray.html".toList lvl
          = some (false, false, [], some errEndNoBlock) := by
  refine ⟨by decide, by decide, by decide, ?_⟩
  intro fuel lvl
  rw [parseTemplate_marked sideFs "src".toList fuel "src/stray.html".toList lvl
    ("\x7b\x7b staplegun child \x7d\x7d\n\x7b\x7b staplegun import_file stray.html \x7d\x7d\n"
      ++ "\x7b\x7b staplegun end \x7d\x7d").toList
    "\x7b\x7b staplegun child \x7d\x7d".toList
    ["\x7b\x7b staplegun import_file stray.html \x7d\x7d".toList,
      "\x7b\x7b staplegun end \x7d\x7d".toList] rfl (by decide) (by decide) (by decide)]
  have hx : extractBlocks ["\x7b\x7b staplegun import_file stray.html \x7d\x7d".toList,
      "\x7b\x7b staplegun end \x7d\x7d".toList] lvl = ([], [], some errEndNoBlock) := by
    have : extractBlocks ["\x7b\x7b staplegun import_file stray.html \x7d\x7d".toList,
      "\x7b\x7b staplegun end \x7d\x7d".toList] 0 = ([], [], some errEndNoBlock) := by decide
    exact this
  rw [hx]

/-- C15, counterexample.  The parent `two.html` has, outside any block, an `import_file`
line for `gone.html`, which cannot be read.  Its parse fails, but with the error of the
line before it (`bad.html`, imported there, has an unclosed block), not with the error of
reading `gone.html`. -/
theorem import_error_fail_fast_counterexample :
    sideFs "src/gone.html".toList = .error "open: no such file or directory".toList
      ∧ regexImportFile "\x7b\x7b staplegun import_file gone.html \x7d\x7d".toList
        = some ([], "gone.html".toList)
      ∧ (extractBlocks (stringsSplit ("\x7b\x7b staplegun parent \x7d\x7d\n"
            ++ "\x7b\x7b staplegun import_file bad.html \x7d\x7d\n"
            ++ "\x7b\x7b staplegun import_file gone.html \x7d\x7d").toList).tail 1)
        = ([], ["\x7b\x7b staplegun import_file bad.html \x7d\x7d".toList,
            "\x7b\x7b staplegun import_file gone.html \x7d\x7d".toList], none)
      ∧ parseTemplate sideFs "src".toList 2 "src/two.html".toList 1
        = some (false, false, [], some (errNotClosed "a".toList))
      ∧ errNotClosed "a".toList ≠ "open: no such file or directory".toList := by
  refine ⟨rfl, by decide, by decide, by decide, by decide⟩

/-- A marked document without directive lines resolves to its lines after the marker. -/
theorem parseTemplate_plain (readFile : Str → Except Str Str) (dirSource path first tail : Str)
    (fuel lvl : Nat)
    (hread : readFile path = .ok (first ++ '\n' :: tail)) (hfirst : '\n' ∉ first)
    (hmark : regexIsParent first = true ∨ regexIsChild first = true)
    (hplain : ∀ l ∈ stringsSplit tail, matchesDirective l = false) :
    parseTemplate readFile dirSource (fuel + 1) path lvl
      = some (regexIsParent first, regexIsChild first, stringsSplit tail, none) := by
  have hsplit : stringsSplit (first ++ '\n' :: tail) = first :: stringsSplit tail :=
    stringsSplit_line first tail hfirst
  have hx := extractBlocks_plain (stringsSplit tail) lvl (fun l hl =>
    ⟨(matchesDirective_false (hplain l hl)).1, (matchesDirective_false (hplain l hl)).2.1⟩)
  have hm : parseImportFileDirectives (parseTemplate readFile dirSource fuel) dirSource
      (stringsSplit tail) [] lvl = some (stringsSplit tail, none) := by
    unfold parseImportFileDirectives
    rw [importLoop_plain _ _ _ _ _ (fun l hl => (matchesDirective_false (hplain l hl)).2.2.2)]
    simp
  have hs : parseInsertBlockDirectives (stringsSplit tail) [] (regexIsChild first) lvl
      = (stringsSplit tail, none) := by
    unfold parseInsertBlockDirectives
    rw [insertLoop_plain _ _ _ _ (fun l hl => (matchesDirective_false (hplain l hl)).2.2.1)]
    simp
  rw [parseTemplate_marked readFile dirSource fuel path lvl _ first _ hread hsplit
    (stringsSplit_ne_nil tail) hmark, hx]
  simp only [hm, hs]

/-- A document whose import of `f` returns an error returns that error. -/
theorem parseTemplate_import_failed (readFile : Str → Except Str Str)
    (dirSource path text marker : Str) (fuel lvl : Nat) (rest : List Str) (blocks : Blocks)
    (pre post : List Str) (imp iind f : Str) (o1 : List Str) (p c : Bool) (ls : List Str)
    (e : Str)
    (hread : readFile path = .ok text) (hsplit : stringsSplit text = marker :: rest)
    (hmark : regexIsParent marker = true ∨ regexIsChild marker = true)
    (hx : extractBlocks rest lvl = (blocks, pre ++ [imp] ++ post, none))
    (himp : regexImportFile imp = some (iind, f))
    (h1 : parseImportFileDirectives (parseTemplate readFile dirSource fuel) dirSource pre
      blocks lvl = some (o1, none))
    (hfile : parseTemplate readFile dirSource fuel (dirSource ++ "/".toList ++ f) (lvl + 1)
      = some (p, c, ls, some e)) :
    parseTemplate readFile dirSource (fuel + 1) path lvl = some (false, false, [], some e) := by
  have hrest : rest ≠ [] := by
    intro h
    rw [h] at hx
    simp [extractBlocks, extractBlocksLoop] at hx
  unfold parseImportFileDirectives at h1
  have hm := importLoop_error (parseTemplate readFile dirSource fuel) dirSource lvl pre post
    imp iind f p c ls o1 e himp hfile h1
  rw [parseTemplate_marked readFile dirSource fuel path lvl text marker rest hread hsplit
    hrest hmark, hx]
  simp only [parseImportFileDirectives, hm]

/-- A document whose import of `f` gives lines that match no directive pattern has them,
indented, between the file markers. -/
theorem parseTemplate_import_plain (readFile : Str → Except Str Str)
    (dirSource path text marker : Str) (fuel lvl : Nat) (rest : List Str) (blocks : Blocks)
    (pre post : List Str) (imp iind f : Str) (o1 o2 a b : List Str) (p c : Bool)
    (L : List Str)
    (hread : readFile path = .ok text) (hsplit : stringsSplit text = marker :: rest)
    (hmark : regexIsParent marker = true ∨ regexIsChild marker = true)
    (hx : extractBlocks rest lvl = (blocks, pre ++ [imp] ++ post, none))
    (himp : regexImportFile imp = some (iind, f))
    (h1 : parseImportFileDirectives (parseTemplate readFile dirSource fuel) dirSource pre
      blocks lvl = some (o1, none))
    (h2 : parseImportFileDirectives (parseTemplate readFile dirSource fuel) dirSource post
      blocks lvl = some (o2, none))
    (ha : parseInsertBlockDirectives o1 blocks (regexIsChild marker) lvl = (a, none))
    (hb : parseInsertBlockDirectives o2 blocks (regexIsChild marker) lvl = (b, none))
    (hfile : parseTemplate readFile dirSource fuel (dirSource ++ "/".toList ++ f) (lvl + 1)
      = some (p, c, L, none))
    (hL : ∀ l ∈ L, matchesDirective l = false) :
    parseTemplate readFile dirSource (fuel + 1) path lvl
      = some (regexIsParent marker, regexIsChild marker,
          a ++ ([iind ++ fileStart f] ++ L.map (fun l => iind ++ l) ++ [iind ++ fileEnd f])
            ++ b, none) := by
  have hind := regexImportFile_indent_isSpace himp
  have hclean : ∀ l ∈ L.map (fun l => iind ++ l), regexInsertBlock l = none := by
    intro l hl
    obtain ⟨x, hx1, hx2⟩ := List.mem_map.1 hl
    have : matchesDirective l = false := by
      rw [← hx2, matchesDirective_indent hind]
      exact hL x hx1
    exact (matchesDirective_false this).2.2.1
  have hrest : rest ≠ [] := by
    intro h
    rw [h] at hx
    simp [extractBlocks, extractBlocksLoop] at hx
  have hm : parseImportFileDirectives (parseTemplate readFile dirSource fuel) dirSource
      (pre ++ [imp] ++ post) blocks lvl
      = some (o1 ++ ([iind ++ fileStart f] ++ L.map (fun l => iind ++ l) ++ [iind ++ fileEnd f])
          ++ o2, none) := by
    unfold parseImportFileDirectives at h1 h2 ⊢
    rw [importLoop_expand _ dirSource lvl pre post imp iind f p c L o1 o2 himp hfile h1 h2]
    simp
  rw [parseTemplate_marked readFile dirSource fuel path lvl text marker rest hread hsplit
    hrest hmark, hx]
  simp only [hm]
  unfold parseInsertBlockDirectives at ha hb ⊢
  rw [insertLoop_file_markers blocks (regexIsChild marker) o1 o2 iind f
    (L.map (fun l => iind ++ l)) a b hind hclean ha hb]

/-- C16. Import paths resolve against the fixed source root.  Take a document at any path
(in a subdirectory or not, parsed at any depth: any fuel and indent level) with a line
`import_file p` outside its block definitions, the lines around it resolving to `a` and
`b`.  What its parse returns is decided by the file at `dirSource + "/" + p`: (1) if that
file cannot be read, the parse fails with the error of reading it; (2) if that file is a
marked document of plain lines, the parse returns exactly those lines, indented, between
the file markers of `p`; (3) the result is the same for the same text at another path, and
(4) for another file system with the same text and the same files at the paths
`dirSource + "/" + q`; (5) `MakeTemplates` called with `dirSource` on such a parent writes
the lines of (2): the root is the `dirSource` it was given. -/
theorem import_path_from_source_root (readFile : Str → Except Str Str)
    (dirSource path text marker : Str) (fuel lvl : Nat) (rest : List Str) (blocks : Blocks)
    (pre post : List Str) (imp ind p : Str) (o1 o2 a b : List Str)
    (hread : readFile path = .ok text) (hsplit : stringsSplit text = marker :: rest)
    (hmark : regexIsParent marker = true ∨ regexIsChild marker = true)
    (hx : extractBlocks rest lvl = (blocks, pre ++ [imp] ++ post, none))
    (himp : regexImportFile imp = some (ind, p))
    (h1 : parseImportFileDirectives (parseTemplate readFile dirSource (fuel + 1)) dirSource pre
      blocks lvl = some (o1, none))
    (h2 : parseImportFileDirectives (parseTemplate readFile dirSource (fuel + 1)) dirSource post
      blocks lvl = some (o2, none))
    (ha : parseInsertBlockDirectives o1 blocks (regexIsChild marker) lvl = (a, none))
    (hb : parseInsertBlockDirectives o2 blocks (regexIsChild marker) lvl = (b, none)) :
    (∀ e, readFile (dirSource ++ "/".toList ++ p) = .error e →
        parseTemplate readFile dirSource (fuel + 2) path lvl = some (false, false, [], some e))
      ∧ (∀ first tail, readFile (dirSource ++ "/".toList ++ p) = .ok (first ++ '\n' :: tail) →
          '\n' ∉ first → (regexIsParent first = true ∨ regexIsChild first = true) →
          (∀ l ∈ stringsSplit tail, matchesDirective l = false) →
          parseTemplate readFile dirSource (fuel + 2) path lvl
            = some (regexIsParent marker, regexIsChild marker,
                a ++ ([ind ++ fileStart p] ++ (stringsSplit tail).map (fun l => ind ++ l)
                  ++ [ind ++ fileEnd p]) ++ b, none))
      ∧ (∀ path2 lvl2 k, readFile path2 = readFile path →
          parseTemplate readFile dirSource k path2 lvl2
            = parseTemplate readFile dirSource k path lvl)
      ∧ (∀ readFile2 k, readFile2 path = readFile path →
          (∀ q, readFile2 (dirSource ++ "/".toList ++ q)
            = readFile (dirSource ++ "/".toList ++ q)) →
          parseTemplate readFile2 dirSource k path lvl
            = parseTemplate readFile dirSource k path lvl)
      ∧ ∀ glob fs dirDest verbose files first tail, readFile = osReadFile fs →
          isDirectory fs dirSource = true → isDirectory fs dirDest = true →
          glob fs (dirSource ++ "/*".toList) = .ok (path :: files) →
          isDirectory fs path = false → regexIsParent marker = true →
          readFile (dirSource ++ "/".toList ++ p) = .ok (first ++ '\n' :: tail) →
          '\n' ∉ first → (regexIsParent first = true ∨ regexIsChild first = true) →
          (∀ l ∈ stringsSplit tail, matchesDirective l = false) →
          MakeTemplates glob (fuel + 2) fs dirSource dirDest verbose
            = match osWriteFile fs (dirDest ++ "/".toList ++ filepathBase path)
                (stringsJoin (a ++ ([ind ++ fileStart p]
                  ++ (stringsSplit tail).map (fun l => ind ++ l) ++ [ind ++ fileEnd p]) ++ b)
                  "\n".toList) with
              | .error e => some (fs, some e)
              | .ok fs1 => MakeTemplatesLoop dirSource dirDest (fuel + 2) files fs1 := by
  have hplain : ∀ first tail,
      readFile (dirSource ++ "/".toList ++ p) = .ok (first ++ '\n' :: tail) →
      '\n' ∉ first → (regexIsParent first = true ∨ regexIsChild first = true) →
      (∀ l ∈ stringsSplit tail, matchesDirective l = false) →
      parseTemplate readFile dirSource (fuel + 2) path lvl
        = some (regexIsParent marker, regexIsChild marker,
            a ++ ([ind ++ fileStart p] ++ (stringsSplit tail).map (fun l => ind ++ l)
              ++ [ind ++ fileEnd p]) ++ b, none) := by
    intro first tail hfile hfirst hm hl
    exact parseTemplate_import_plain readFile dirSource path text marker (fuel + 1) lvl rest
      blocks pre post imp ind p o1 o2 a b (regexIsParent first) (regexIsChild first)
      (stringsSplit tail) hread hsplit hmark hx himp h1 h2 ha hb
      (parseTemplate_plain readFile dirSource _ first tail fuel (lvl + 1) hfile hfirst hm hl) hl
  refine ⟨?_, hplain, ?_, ?_, ?_⟩
  · intro e herr
    refine parseTemplate_import_failed readFile dirSource path text marker (fuel + 1) lvl rest
      blocks pre post imp ind p o1 false false [] e hread hsplit hmark hx himp h1 ?_
    simp only [parseTemplate, herr]
  · intro path2 lvl2 k h
    exact parseTemplate_congr readFile readFile dirSource (fun _ => rfl) k path2 path lvl2 lvl h
  · intro readFile2 k h hroot
    exact parseTemplate_congr readFile2 readFile dirSource hroot k path path lvl lvl h
  · intro glob fs dirDest verbose files first tail hfs hs hd hg hdir hparent hfile hfirst hm hl
    have hp := hplain first tail hfile hfirst hm hl
    rw [hparent, regexIsParent_not_child hparent] at hp
    have hp1 : parseTemplate (osReadFile fs) dirSource (fuel + 2) path 1
        = some (true, false,
            a ++ ([ind ++ fileStart p] ++ (stringsSplit tail).map (fun l => ind ++ l)
              ++ [ind ++ fileEnd p]) ++ b, none) := by
      rw [← hfs, ← hp]
      exact parseTemplate_congr readFile readFile dirSource (fun _ => rfl) (fuel + 2) path path
        1 lvl rfl
    simp only [MakeTemplates, hs, hd, hg, Bool.true_eq_false, if_false]
    exact MakeTemplatesLoop_parent dirSource dirDest (fuel + 2) path files fs _ hdir hp1

theorem import_path_from_source_root_witness :
    parseTemplate rootFs "src".toList 2 "src/sub/a.html".toList 1
        = some (true, false,
            ["  <!-- sg:file:start:b.html -->".toList, "  <p>root</p>".toList,
              "  <!-- sg:file:end:b.html -->".toList], none)
      ∧ parseTemplate rootFs "src".toList 3 "src/top.html".toList 1
        = some (true, false,
            [" <!-- sg:file:start:sub/a.html -->".toList,
              "   <!-- sg:file:start:b.html -->".toList, "   <p>root</p>".toList,
              "   <!-- sg:file:end:b.html -->".toList,
              " <!-- sg:file:end:sub/a.html -->".toList], none) :=
  ⟨(import_path_from_source_root rootFs "src".toList "src/sub/a.html".toList
      ("\x7b\x7b staplegun parent \x7d\x7d\n"
        ++ "  \x7b\x7b staplegun import_file b.html \x7d\x7d").toList
      "\x7b\x7b staplegun parent \x7d\x7d".toList 0 1
      ["  \x7b\x7b staplegun import_file b.html \x7d\x7d".toList] [] [] []
      "  \x7b\x7b staplegun import_file b.html \x7d\x7d".toList "  ".toList "b.html".toList
      [] [] [] []
      rfl (by decide) (by decide) (by decide) (by decide) (by decide) (by decide) (by decide)
      (by decide)).2.1 "\x7b\x7b staplegun child \x7d\x7d".toList "<p>root</p>".toList rfl
      (by decide) (by decide) (by decide),
    by decide⟩

end Staplegun
